import Mathlib

/-!
redmon: condition evaluator, collector and view actors, sensor reconciliation
and its driver, view rotation, metrics export, screen layout, and the request
and response exchange of a data source.

A shallow embedding of `src/src/redmon.go`.

* Go strings are modelled by `String` (sequences of code points); the
  separators and prefixes the code uses are ASCII, so splitting on code points
  and on bytes agree.
* `float64` values are modelled by `F64`: NaN, the two infinities, or a finite
  value given by the rational number it denotes (both zeros are `fin 0`; they
  compare equal in Go).
* `strconv.ParseFloat` belongs to the Go standard library.  Every definition
  that calls it takes the parser as a parameter `pf`; general theorems hold for
  every parser.  `ParseFloat` below is a concrete model of the decimal syntax,
  used where a statement is evaluated on concrete strings.
* A run-time panic (slice index out of range) is the result `none`.
* A Go map is a list of entries with one entry per key; the order in which
  `range` visits a map is a parameter (`RangeOrder`), any rearrangement.
* Channels are numbered in the order they are made; what the manager goroutine
  does to other goroutines (kill sends, view sends, starts) is appended to a
  log in its state.
* The view scheduler is modelled by one iteration of its loop at a timer tick
  (`viewsManagerTick`), on the manager state and the two locals the loop keeps;
  the reconciliation driver likewise (`updateManagerTick`).
* Calls into the libraries `gocui` and `prometheus` are recorded as results:
  the cells set and the samples sent.  The test by which `gocui.SetView` refuses
  a call is a parameter.
* A loop without a bound in the source is run for a given number of passes;
  running out of passes is a result of its own, told apart from a panic and
  from the loop's exit.
* The goroutines around the two unbuffered channels of a data source are a step
  function on their positions (`exchangeStep`); a run is any sequence of steps.
-/

namespace Redmon

/-! ## Strings -/

/-- Go `strings.HasPrefix`. -/
def HasPrefix (s pre : String) : Bool :=
  pre.data.isPrefixOf s.data

/-- The pieces of a character list between occurrences of `sep`; there is always
at least one piece. -/
def splitChars (sep : Char) : List Char → List (List Char)
  | [] => [[]]
  | c :: cs =>
    if c = sep then [] :: splitChars sep cs
    else
      match splitChars sep cs with
      | [] => [[c]]
      | w :: ws => (c :: w) :: ws

/-- Go `strings.Split(s, sep)` for a separator `sep` of one ASCII character. -/
def Split (s : String) (sep : Char) : List String :=
  (splitChars sep s.data).map String.mk

/-! ## Floating point values and `strconv.ParseFloat` -/

/-- The values of a Go `float64`, up to what `<` can observe. -/
inductive F64 where
  | nan
  | negInf
  | fin (q : ℚ)
  | posInf
  deriving DecidableEq

/-- Go `a < b` on `float64`: false as soon as one side is NaN. -/
def F64.lt : F64 → F64 → Bool
  | .fin a, .fin b => decide (a < b)
  | .negInf, .fin _ => true
  | .negInf, .posInf => true
  | .fin _, .posInf => true
  | _, _ => false

/-- The pair `(float64, error)` returned by `strconv.ParseFloat(s, 64)`. -/
inductive ParseFloatResult where
  /-- `(f, nil)` -/
  | ok (f : F64)
  /-- `(±Inf, ErrRange)`: well-formed but too large in magnitude -/
  | errRange (neg : Bool)
  /-- `(0, ErrSyntax)`: not well-formed -/
  | errSyntax
  deriving DecidableEq

/-- The `float64` component of the result, which is what remains when the caller
discards the error (`v, _ := strconv.ParseFloat(...)`). -/
def ParseFloatResult.value : ParseFloatResult → F64
  | .ok f => f
  | .errRange true => .negInf
  | .errRange false => .posInf
  | .errSyntax => .fin 0

/-- Whether the result carries a nil error. -/
def ParseFloatResult.isOk : ParseFloatResult → Bool
  | .ok _ => true
  | _ => false

/-- Number of binary digits of `n`; the first argument bounds the recursion. -/
def bitLen : Nat → Nat → Nat
  | 0, _ => 0
  | fuel + 1, n => if n = 0 then 0 else bitLen fuel (n / 2) + 1

/-- Round the rational `n / d` (`d > 0`) to the nearest binary64 value, ties to
even; `none` when the rounded value is beyond the largest finite binary64. -/
def roundBinary64 (n d : Nat) : Option ℚ :=
  if n = 0 ∨ d = 0 then some 0
  else
    -- e0 is floor (log2 (n / d)) or one more
    let e0 : Int := (bitLen n n : Int) - (bitLen d d : Int)
    let e1 : Int := if n * 2 ^ (-e0).toNat < d * 2 ^ e0.toNat then e0 - 1 else e0
    -- exponent of the unit in the last place; subnormals share 2^-1074
    let u : Int := max (e1 - 52) (-1074)
    -- n / d = (a / b) * 2^u
    let a : Nat := n * 2 ^ (-u).toNat
    let b : Nat := d * 2 ^ u.toNat
    let q : Nat := a / b
    let r : Nat := a % b
    let m : Nat := if 2 * r < b then q else if b < 2 * r then q + 1 else q + q % 2
    -- m * 2^u reaches 2^1024 exactly when one of these holds
    if 1024 ≤ e1 ∨ (e1 = 1023 ∧ m = 2 ^ 53) then none
    else some ((m : ℚ) * 2 ^ u.toNat / 2 ^ (-u).toNat)

/-- Go `readFloat`, digits part: reads the mantissa digits and at most one dot.
Returns the mantissa read so far, the number of digits after the dot, whether a
digit was seen, and the rest of the input. -/
def readMantissa : List Char → Nat → Nat → Bool → Bool → Nat × Nat × Bool × List Char
  | [], m, k, _, sawdigits => (m, k, sawdigits, [])
  | c :: cs, m, k, sawdot, sawdigits =>
    if c = '.' then
      if sawdot then (m, k, sawdigits, c :: cs)
      else readMantissa cs m k true sawdigits
    else if c.isDigit then
      readMantissa cs (m * 10 + (c.toNat - 48)) (if sawdot then k + 1 else k) sawdot true
    else (m, k, sawdigits, c :: cs)

/-- Go `readFloat`, exponent digits: the accumulated exponent stops growing once
it has reached 10000. -/
def readExpDigits : List Char → Nat → Nat × List Char
  | [], e => (e, [])
  | c :: cs, e =>
    if c.isDigit then readExpDigits cs (if e < 10000 then e * 10 + (c.toNat - 48) else e)
    else (e, c :: cs)

/-- Lower-case an ASCII string, for the case-insensitive special names. -/
def lowerAscii (cs : List Char) : List Char :=
  cs.map Char.toLower

/-- A model of Go `strconv.ParseFloat(s, 64)` on the decimal syntax
`[+-] digits [. digits] [(e|E) [+-] digits]` and the special names
`inf`, `infinity` (optionally signed) and `nan`, matched ignoring case.  The
value is the decimal value rounded to the nearest binary64.  Everything else is
a syntax error; this includes the hexadecimal mantissa and digit-separating
underscore forms that `ParseFloat` accepts from Go 1.13 on. -/
def ParseFloat (s : String) : ParseFloatResult :=
  let cs := s.data
  let low := lowerAscii cs
  if low = "inf".data ∨ low = "+inf".data ∨ low = "infinity".data ∨ low = "+infinity".data then
    .ok .posInf
  else if low = "-inf".data ∨ low = "-infinity".data then .ok .negInf
  else if low = "nan".data then .ok .nan
  else
    let (neg, body) : Bool × List Char :=
      match cs with
      | '+' :: r => (false, r)
      | '-' :: r => (true, r)
      | r => (false, r)
    match readMantissa body 0 0 false false with
    | (_, _, false, _) => .errSyntax
    | (m, k, true, rest) =>
      let finish (e : Int) : ParseFloatResult :=
        let p : Int := e - (k : Int)
        match roundBinary64 (m * 10 ^ p.toNat) (10 ^ (-p).toNat) with
        | some q => .ok (.fin (if neg then -q else q))
        | none => .errRange neg
      match rest with
      | [] => finish 0
      | c :: r =>
        if c = 'e' ∨ c = 'E' then
          let (eneg, ds) : Bool × List Char :=
            match r with
            | '+' :: t => (false, t)
            | '-' :: t => (true, t)
            | t => (false, t)
          match ds with
          | [] => .errSyntax
          | d :: _ =>
            if d.isDigit then
              match readExpDigits ds 0 with
              | (e, []) => finish (if eneg then -(e : Int) else (e : Int))
              | (_, _ :: _) => .errSyntax
            else .errSyntax
        else .errSyntax

/-! ## Conditions -/

/-- Go `processConditions(conds, cond)`, with `pf` standing for
`strconv.ParseFloat(·, 64)`.  `none` is an index-out-of-range panic at
`strings.Split(c, "_")[1]` or `strings.Split(cond, " ")[0]`. -/
def processConditions (pf : String → ParseFloatResult) :
    List String → String → Option Bool
  | [], _ => some false
  | c :: conds, cond =>
    if c = "missing" ∧ cond = "MISSING" then some true
    else if HasPrefix c "max_" then
      match (Split c '_')[1]? with
      | none => none
      | some yield_s =>
        match (Split cond ' ')[0]? with
        | none => none
        | some value_s =>
          let yield := (pf yield_s).value
          let value := (pf value_s).value
          if F64.lt yield value then some true
          else processConditions pf conds cond
    else processConditions pf conds cond

/-! ## Sensors -/

/-- The two sensor types of the source, `NumberSensor` and `StringSensor`.  Their
fields and the bodies of their methods are the same text except for `GetType`. -/
inductive SensorKind where
  | numeric
  | string
  deriving DecidableEq

/-- Go `response`: the reply of a data source to a `request` for a key. -/
structure response where
  value : String
  ok : Bool
  deriving DecidableEq

/-- What the data source actor answers to a request for a key: `runSource`
replies `response{value, true}` when `GET key` succeeds and
`response{"", false}` otherwise. -/
abbrev Lookup := String → response

/-- Go `NumberSensor` / `StringSensor`.  `source` is the name of the bound data
source, which is all the code reads from it outside the request channels
(`GetSource()` is `sens.source.GetName()`).  A channel is identified by the
number it got when it was made. -/
structure Sensor where
  kind : SensorKind
  name : String
  source : String
  key : String
  value : String
  refresh : Nat
  collkillchan : Nat
  viewkillchan : Nat
  viewchan : Nat
  views : List String
  alert : List String
  warning : List String
  inView : Bool
  inAlert : Bool
  inWarning : Bool
  deriving DecidableEq

/-- Go `GetType`. -/
def Sensor.GetType (sens : Sensor) : String :=
  match sens.kind with
  | .numeric => "numeric"
  | .string => "string"

/-- Colours of the source's constants `red`, `yellow`, `green`. -/
inductive Colour where
  | red
  | yellow
  | green
  deriving DecidableEq

/-- Effect of one timer tick of `runSensorCollector`: the sensor afterwards, the
keys sent on the request channel in order, and the colour of the cell redraw
handed to `g.Update`, if one was. -/
structure TickResult where
  sens : Sensor
  requests : List String
  redraw : Option Colour
  deriving DecidableEq

/-- Tail of the tick, source lines 542-562: store the value when it changed and
queue a redraw when the gui is on and the sensor is visible or flagged. -/
def storeValue (gui : Bool) (sens : Sensor) (newvalue : String) (requests : List String) :
    TickResult :=
  if newvalue ≠ sens.value then
    let sens1 := { sens with value := newvalue }
    if gui && (sens1.inView || sens1.inAlert || sens1.inWarning) then
      { sens := sens1, requests := requests,
        redraw := some (if sens1.inAlert then .red else if sens1.inWarning then .yellow
                        else .green) }
    else { sens := sens1, requests := requests, redraw := none }
  else { sens := sens, requests := requests, redraw := none }

/-- One firing of the `time.After` case of `runSensorCollector` (the same code
for both sensor types).  `gui` is the flag `*gui`, `isConfChange` the manager
flag read at the tick, `lookup` the answers of the bound data source.  `none`
is a panic inside `processConditions`. -/
def collectorTick (pf : String → ParseFloatResult) (gui : Bool) (lookup : Lookup)
    (isConfChange : Bool) (sens : Sensor) : Option TickResult :=
  if isConfChange then some { sens := sens, requests := [], redraw := none }
  else
    if (lookup (sens.key ++ ":suspended")).ok then
      some (storeValue gui { sens with inAlert := false, inWarning := false } "SUSPENDED"
        [sens.key ++ ":suspended"])
    else
      let resp := lookup sens.key
      let newvalue :=
        if resp.ok then (if resp.value = "" then "EMPTY" else resp.value) else "MISSING"
      match processConditions pf sens.alert newvalue with
      | none => none
      | some a =>
        match processConditions pf sens.warning newvalue with
        | none => none
        | some w =>
          some (storeValue gui { sens with inAlert := a, inWarning := w } newvalue
            [sens.key ++ ":suspended", sens.key])

/-! ## Go maps -/

/-- A Go `map[string]α`: a list of entries, one per key. -/
abbrev GoMap (α : Type) := List (String × α)

/-- Map read `m[k]` with the comma-ok flag folded into the option. -/
def GoMap.get {α : Type} (m : GoMap α) (k : String) : Option α :=
  List.lookup k m

/-- Map write `m[k] = v`. -/
def GoMap.set {α : Type} (m : GoMap α) (k : String) (v : α) : GoMap α :=
  m.filter (fun e => e.1 != k) ++ [(k, v)]

/-- Map `delete(m, k)`. -/
def GoMap.delete {α : Type} (m : GoMap α) (k : String) : GoMap α :=
  m.filter (fun e => e.1 != k)

/-- The order in which a `range` statement visits the entries of a map: Go leaves
it unspecified, so it is any rearrangement of the entries. -/
structure RangeOrder where
  perm : {α : Type} → GoMap α → GoMap α
  isPerm : ∀ {α : Type} (m : GoMap α), (perm m).Perm m

/-- Visiting the entries in the order they are listed. -/
def RangeOrder.listed : RangeOrder where
  perm := fun m => m
  isPerm := fun m => List.Perm.refl m

/-! ## Manager and reconciliation -/

/-- One entry of `RedmonConfig.Sources`. -/
structure SourceConfig where
  Name : String
  Stype : String
  Endpoint : String
  Key : String
  Db : String
  deriving DecidableEq

/-- Go `SensorConfig`. -/
structure SensorConfig where
  Name : String
  Source : String
  Key : String
  SensorType : String
  Views : List String
  Warning : List String
  Alert : List String
  Refresh : Nat
  TTL : Nat
  deriving DecidableEq

/-- What one key returned by `KEYS *:redmon` yields in the loop of source lines
315-325. -/
inductive StoredRecord where
  /-- `GET` failed: the key is skipped silently -/
  | getFailed
  /-- `json.Unmarshal` failed: an alert is logged and the key is skipped -/
  | malformed
  /-- the value decoded to this configuration -/
  | config (c : SensorConfig)
  deriving DecidableEq

/-- The backing stores as reconciliation sees them: for a source entry, `none`
when dialing, `AUTH` or `SELECT` fails (the entry is skipped with `continue`),
otherwise what the listed keys yield, in the order `KEYS` returned them (the
empty list when `KEYS` itself failed, its error being discarded). -/
abbrev Store := SourceConfig → Option (List StoredRecord)

/-- Observable actions of the manager goroutine. -/
inductive Event where
  /-- a send `ch <- struct{}{}` on a kill channel -/
  | kill (ch : Nat)
  /-- a send of a view name on a sensor's view channel -/
  | view (ch : Nat) (name : String)
  /-- `Initialize` of a new sensor: its collector and view goroutines are started -/
  | start (name : String) (collkillchan viewkillchan viewchan : Nat)
  deriving DecidableEq

/-- Go `RedmonManager`, with the sources of its configuration, the views known
to the gui (`none` when `rm.gui` is nil), the counter of channels made so far
and the log of actions performed. -/
structure RedmonManager where
  config : List SourceConfig
  sensors : GoMap Sensor
  gui : Option (List String)
  views : List String
  viewweights : GoMap Nat
  updatein : Nat
  currview : Nat
  isConfChange : Bool
  nextChan : Nat
  log : List Event
  deriving DecidableEq

/-- Source lines 310-325: the map `updatedsensors`, filled in key order, a later
record replacing an earlier one of the same name. -/
def updatedSensors (records : List StoredRecord) : GoMap SensorConfig :=
  records.foldl
    (fun m r =>
      match r with
      | .config c => m.set c.Name c
      | _ => m)
    []

/-- Source lines 265-271: the running sensors bound to the source. -/
def sourceSensors (ss : GoMap Sensor) (sourcename : String) : GoMap Sensor :=
  ss.filter (fun e => e.2.source == sourcename)

/-- Body of the loop of source lines 330-346 for one running sensor of the
source. -/
def closeRemoved (updatedsensors : GoMap SensorConfig) (rm : RedmonManager)
    (e : String × Sensor) : RedmonManager :=
  match updatedsensors.get e.1 with
  | none =>
    { rm with
      log := rm.log ++ [Event.kill e.2.collkillchan, Event.kill e.2.viewkillchan]
      sensors := rm.sensors.delete e.1
      gui := rm.gui.map (fun vs => vs.filter (fun v => v != e.1)) }
  | some _ => rm

/-- The sensor built at source lines 357-373 and 382-398, after `Initialize` made
its three channels. -/
def newSensor (kind : SensorKind) (name sourcename : String) (c : SensorConfig) (chan : Nat) :
    Sensor where
  kind := kind
  name := name
  source := sourcename
  key := c.Key
  value := ""
  refresh := c.Refresh
  collkillchan := chan
  viewkillchan := chan + 1
  viewchan := chan + 2
  views := c.Views
  alert := c.Alert
  warning := c.Warning
  inView := false
  inAlert := false
  inWarning := false

/-- Registers a started sensor: `Initialize` never fails, so the entry is always
written. -/
def register (rm : RedmonManager) (sens : Sensor) : RedmonManager :=
  { rm with
    sensors := rm.sensors.set sens.name sens
    nextChan := rm.nextChan + 3
    log := rm.log ++ [Event.start sens.name sens.collkillchan sens.viewkillchan sens.viewchan] }

/-- Body of the loop of source lines 349-412 for one entry of `updatedsensors`.
`sourcesensors` is the map computed before the closing loop.  The deletion of
the visited key from `updatedsensors` has no effect on the other iterations. -/
def startNew (sourcename : String) (sourcesensors : GoMap Sensor) (rm : RedmonManager)
    (e : String × SensorConfig) : RedmonManager :=
  match sourcesensors.get e.1 with
  | none =>
    if e.2.SensorType = "numeric" then
      register rm (newSensor .numeric e.1 sourcename e.2 rm.nextChan)
    else if e.2.SensorType = "string" then
      register rm (newSensor .string e.1 sourcename e.2 rm.nextChan)
    else rm
  | some _ => rm

/-- Body of the loop over `c.Sources`, source lines 255-419.  Every source of type
`redis` is registered under its name by `InitializeDataSources`, so
`(*s)[sourcename]` is a data source whose `GetName()` is `sourcename`. -/
def reconcileSource (ord : RangeOrder) (store : Store) (rm : RedmonManager)
    (redconfig : SourceConfig) : RedmonManager :=
  let sourcename := redconfig.Name
  let sourcesensors := sourceSensors rm.sensors sourcename
  if redconfig.Stype = "redis" then
    match store redconfig with
    | none => rm
    | some records =>
      let updatedsensors := updatedSensors records
      let rm1 := (ord.perm sourcesensors).foldl (closeRemoved updatedsensors) rm
      (ord.perm updatedsensors).foldl (startNew sourcename sourcesensors) rm1
  else rm

/-- Go `IsIn`. -/
def IsIn : List String → String → Bool
  | [], _ => false
  | ele :: slice, i => if ele = i then true else IsIn slice i

/-- Go `AppendIfMissing`. -/
def AppendIfMissing (slice : List String) (i : String) : List String :=
  if IsIn slice i then slice else slice ++ [i]

/-- First loop of `UpdateViews`, for one view of one sensor. -/
def countView (acc : List String × GoMap Nat) (view : String) : List String × GoMap Nat :=
  (AppendIfMissing acc.1 view,
    match acc.2.get view with
    | some weight => acc.2.set view (weight + 1)
    | none => acc.2.set view 1)

/-- Go `UpdateViews`.  `none` is the index-out-of-range panic of `rm.views[0]`,
reached when a sensor is registered while the new view list is empty. -/
def UpdateViews (ord : RangeOrder) (rm : RedmonManager) : Option RedmonManager :=
  let acc := (ord.perm rm.sensors).foldl
    (fun acc e => e.2.views.foldl countView acc) (([] : List String), ([] : GoMap Nat))
  let rm1 := { rm with views := acc.1, currview := 0, viewweights := acc.2 }
  match ord.perm rm1.sensors, rm1.views with
  | [], _ => some rm1
  | _ :: _, [] => none
  | es, v :: _ => some { rm1 with log := rm1.log ++ es.map (fun e => Event.view e.2.viewchan v) }

/-- Go `UpdateAutomaticSensors`. -/
def UpdateAutomaticSensors (ord : RangeOrder) (store : Store) (rm : RedmonManager) :
    Option RedmonManager :=
  let rm0 := { rm with isConfChange := true }
  let rm1 := rm0.config.foldl (reconcileSource ord store) rm0
  (UpdateViews ord rm1).map (fun r => { r with isConfChange := false })

/-- Successive reconciliation passes, one per store snapshot; `none` as soon as
one of them panics. -/
def runPasses (ord : RangeOrder) : List Store → RedmonManager → Option RedmonManager
  | [], rm => some rm
  | store :: rest, rm =>
    match UpdateAutomaticSensors ord store rm with
    | none => none
    | some rm1 => runPasses ord rest rm1

/-- The invariant of the registry that fresh allocation maintains: one entry per
name, all channels of registered sensors made before now, and no channel shared
between two sensors or two roles. -/
def RegistryWF (rm : RedmonManager) : Prop :=
  (rm.sensors.map Prod.fst).Nodup ∧
  (rm.sensors.flatMap (fun e => [e.2.collkillchan, e.2.viewkillchan, e.2.viewchan])).Nodup ∧
  ∀ e ∈ rm.sensors, e.2.collkillchan < rm.nextChan ∧ e.2.viewkillchan < rm.nextChan ∧
    e.2.viewchan < rm.nextChan


/-! ## View rotation -/

/-- Source constant `VIEWCHANGEINTERVAL`. -/
def VIEWCHANGEINTERVAL : Nat := 5

/-- The accumulator of the first loop of `UpdateViews` (source lines 1002-1014):
the new view list and the new weights, for the registry visited in the order
`ord`. -/
def viewAccumulator (ord : RangeOrder) (sensors : GoMap Sensor) : List String × GoMap Nat :=
  (ord.perm sensors).foldl
    (fun acc e => e.2.views.foldl countView acc) (([] : List String), ([] : GoMap Nat))

/-- The local variables of `ViewsManager` that live across loop iterations:
`newview` (initially `"none"`) and `timer` (initially 0).  The third local,
`autowait`, is recomputed at the top of every iteration. -/
structure ViewsManagerState where
  newview : String
  timer : Nat
  deriving DecidableEq

/-- The locals of `ViewsManager` when the goroutine starts. -/
def ViewsManagerState.initial : ViewsManagerState where
  newview := "none"
  timer := 0

/-- Top of the loop of `ViewsManager`, source lines 1080-1084: `autowait` is 0 for
the name `"none"` and `rm.viewweights[newview]` otherwise, a missing key reading
as 0. -/
def autowait (rm : RedmonManager) (newview : String) : Nat :=
  if newview = "none" then 0 else (rm.viewweights.get newview).getD 0

/-- One iteration of the loop of `ViewsManager` in which the `time.After` case
fires (source lines 1080-1134), without the redraw of the status bar.  `none` is
the index-out-of-range panic of `rm.views[rm.currview]`. -/
def viewsManagerTick (ord : RangeOrder) (rm : RedmonManager) (st : ViewsManagerState) :
    Option (RedmonManager × ViewsManagerState) :=
  let wait := autowait rm st.newview
  if rm.isConfChange then some (rm, st)
  else
    let numviews := rm.views.length
    if st.timer = VIEWCHANGEINTERVAL + wait then
      let currview := if rm.currview + 1 = rm.views.length then 0 else rm.currview + 1
      if numviews ≠ 0 then
        match rm.views[currview]? with
        | none => none
        | some newview =>
          some ({ rm with
                  currview := currview
                  log := rm.log ++
                    (ord.perm rm.sensors).map (fun e => Event.view e.2.viewchan newview) },
                { newview := newview, timer := 0 })
      else
        some ({ rm with
                currview := currview
                log := rm.log ++
                  (ord.perm rm.sensors).map (fun e => Event.view e.2.viewchan "none") },
              { newview := "none", timer := 0 })
    else some (rm, { st with timer := st.timer + 1 })

/-- A number of consecutive ticks of `ViewsManager` with nothing else running in
between; `none` as soon as one of them panics. -/
def runTicks (ord : RangeOrder) :
    Nat → RedmonManager × ViewsManagerState → Option (RedmonManager × ViewsManagerState)
  | 0, x => some x
  | k + 1, x =>
    match viewsManagerTick ord x.1 x.2 with
    | none => none
    | some y => runTicks ord k y

/-! ## View actor -/

/-- One firing of the `viewchan` case of `runSensorView`, source lines 580-585
and 744-749 (the same code for both sensor types): the sensor after it received
`newview`. -/
def viewStep (sens : Sensor) (newview : String) : Sensor :=
  if IsIn sens.views newview then { sens with inView := true }
  else { sens with inView := false }

/-! ## Metrics export -/

/-- A sample sent on the metrics channel: the fully-qualified name of the
descriptor given to `prometheus.MustNewConstMetric` and the gauge value. -/
structure Metric where
  fqName : String
  value : F64
  deriving DecidableEq

/-- The sample for the descriptor `up`, sent first by `Collect`. -/
def upMetric : Metric where
  fqName := "redmon_up"
  value := .fin 1

/-- Go `RedmonCollector.Collect`, with `pf` standing for
`strconv.ParseFloat(·, 64)`: the samples sent on the channel, in order.  The
constructors of the prometheus client are library code; the model records the
name and the value they are called with. -/
def Collect (pf : String → ParseFloatResult) (ord : RangeOrder) (sensors : GoMap Sensor) :
    List Metric :=
  upMetric ::
    (ord.perm sensors).flatMap (fun e =>
      if e.2.GetType = "numeric" then
        match pf e.2.value with
        | .ok val => [{ fqName := e.1, value := val }]
        | _ => []
      else [])

/-! ## The reconciliation driver -/

/-- Source constant `UPDATEINTERVAL`. -/
def UPDATEINTERVAL : Nat := 300

/-- Start of `UpdateManager`, source lines 1035-1044: the first sweep, then the
countdown is set. -/
def updateManagerStart (ord : RangeOrder) (store : Store) (rm : RedmonManager) :
    Option RedmonManager :=
  match UpdateAutomaticSensors ord store { rm with isConfChange := true } with
  | none => none
  | some r => some { r with isConfChange := false, updatein := UPDATEINTERVAL }

/-- One firing of the `time.After` case of the loop of `UpdateManager`, source
lines 1050-1063.  The flag tells whether the tick ran a reconciliation pass. -/
def updateManagerTick (ord : RangeOrder) (store : Store) (rm : RedmonManager) :
    Option (RedmonManager × Bool) :=
  if rm.updatein = 0 then
    match UpdateAutomaticSensors ord store
        { rm with updatein := UPDATEINTERVAL, isConfChange := true } with
    | none => none
    | some r => some ({ r with isConfChange := false }, true)
  else some ({ rm with updatein := rm.updatein - 1 }, false)

/-- The loop of `UpdateManager` for `n` ticks, the first of them being tick number
`k`.  `stores k` is the content of the backing stores at tick `k`.  The result
lists, tick by tick, whether a pass ran. -/
def updateManagerLoop (ord : RangeOrder) (stores : Nat → Store) :
    Nat → Nat → RedmonManager → Option (RedmonManager × List Bool)
  | 0, _, rm => some (rm, [])
  | n + 1, k, rm =>
    match updateManagerTick ord (stores k) rm with
    | none => none
    | some (r, b) =>
      match updateManagerLoop ord stores n (k + 1) r with
      | none => none
      | some (r1, flags) => some (r1, b :: flags)

/-- Go `UpdateManager` up to its `n`-th tick: the startup pass reads `stores 0`,
tick `k` reads `stores k`.  `none` when a pass panics. -/
def UpdateManager (ord : RangeOrder) (stores : Nat → Store) (n : Nat) (rm : RedmonManager) :
    Option (RedmonManager × List Bool) :=
  match updateManagerStart ord (stores 0) rm with
  | none => none
  | some r => updateManagerLoop ord stores n 1 r

/-! ## Layout -/

/-- Source constant `DEFAULTH`. -/
def DEFAULTH : Int := 3

/-- Source constant `WPAD`. -/
def WPAD : Int := 10

/-- Source constant `VPAD`. -/
def VPAD : Int := 10

/-- Go `len(s)` for a string: its number of bytes. -/
def strLen (s : String) : Int := s.utf8ByteSize

/-- Source lines 1150-1159 of `Layout`: the name of the current view, `none` (the
word) when there is no view.  The result `Option.none` is the
index-out-of-range panic of `rm.views[int(rm.currview)]`. -/
def currentViewName (rm : RedmonManager) : Option String :=
  if rm.views.length ≠ 0 then rm.views[rm.currview]? else some "none"

/-- The key lists `alertkeys`, `warnkeys` and `shownkeys` of `Layout`. -/
structure KeyGroups where
  alertkeys : List String
  warnkeys : List String
  shownkeys : List String
  deriving DecidableEq

/-- Body of the loop of source lines 1180-1188 for one registry entry. -/
def groupKey (currviewname : String) (g : KeyGroups) (e : String × Sensor) : KeyGroups :=
  if e.2.inAlert then { g with alertkeys := g.alertkeys ++ [e.1] }
  else if e.2.inWarning then { g with warnkeys := g.warnkeys ++ [e.1] }
  else if IsIn e.2.views currviewname then { g with shownkeys := g.shownkeys ++ [e.1] }
  else g

/-- Go `sort.Strings`: increasing order of the strings, which for valid UTF-8
is the order of their code points. -/
def sortStrings (l : List String) : List String :=
  l.insertionSort (fun a b => a ≤ b)

/-- Source lines 1176-1197: the three key lists, sorted. -/
def layoutGroups (ord : RangeOrder) (sensors : GoMap Sensor) (currviewname : String) :
    KeyGroups :=
  let g := (ord.perm sensors).foldl (groupKey currviewname)
    { alertkeys := [], warnkeys := [], shownkeys := [] }
  { alertkeys := sortStrings g.alertkeys
    warnkeys := sortStrings g.warnkeys
    shownkeys := sortStrings g.shownkeys }

/-- The variables the three placement loops of source lines 1199-1263 share. -/
structure Placement where
  currX : Int
  currL : Nat
  shown : GoMap Int
  sline : GoMap Nat
  deriving DecidableEq

/-- The width `w` a placement loop computes for a sensor. -/
def cellWidth (sensname : String) (sens : Sensor) : Int :=
  if strLen sens.value + VPAD < strLen sensname + WPAD then strLen sensname + WPAD
  else strLen sens.value + VPAD

/-- Body of a placement loop (the three loops have the same body up to the
position written in `shownidx`).  `none` is the nil dereference of
`sensors[sensname]` for a name that is no key. -/
def placeCell (maxX : Int) (sensors : GoMap Sensor) (p : Placement) (sensname : String) :
    Option Placement :=
  match sensors.get sensname with
  | none => none
  | some sens =>
    let w := cellWidth sensname sens
    let p1 := if p.currX + w ≥ maxX then { p with currL := p.currL + 1, currX := 0 } else p
    some { currX := p1.currX + w
           currL := p1.currL
           shown := p1.shown.set sensname w
           sline := p1.sline.set sensname p1.currL }

/-- A placement loop over a key list. -/
def placeCells (maxX : Int) (sensors : GoMap Sensor) : List String → Placement → Option Placement
  | [], p => some p
  | k :: ks, p =>
    match placeCell maxX sensors p k with
    | none => none
    | some p1 => placeCells maxX sensors ks p1

/-- Body of the loop of source lines 1271-1273 for one entry of `sline`.  `none`
is the index-out-of-range panic of `linew[line]`. -/
def addLine (shown : GoMap Int) (linew : List Int) (e : String × Nat) : Option (List Int) :=
  match linew[e.2]? with
  | none => none
  | some lw => some (linew.set e.2 (lw + (shown.get e.1).getD 0))

/-- The loop of source lines 1271-1273 over the entries of `sline` in the order
visited. -/
def lineWidths (shown : GoMap Int) : List (String × Nat) → List Int → Option (List Int)
  | [], linew => some linew
  | e :: es, linew =>
    match addLine shown linew e with
    | none => none
    | some linew1 => lineWidths shown es linew1

/-- The two variables the widening loop writes. -/
structure Widths where
  linew : List Int
  shown : GoMap Int
  deriving DecidableEq

/-- Body of the inner loop of source lines 1277-1284 for one name of `shownidx`;
the boolean is `doneany`.  `none` is the index-out-of-range panic of
`linew[line]`, which Go evaluates only when `line != currL`. -/
def widenCell (maxX : Int) (currL : Nat) (sline : GoMap Nat) (st : Widths × Bool)
    (sensname : String) : Option (Widths × Bool) :=
  let line := (sline.get sensname).getD 0
  if line ≠ currL then
    match st.1.linew[line]? with
    | none => none
    | some lw =>
      if lw < maxX then
        some ({ linew := st.1.linew.set line (lw + 1)
                shown := st.1.shown.set sensname ((st.1.shown.get sensname).getD 0 + 1) }, true)
      else some st
  else some st

/-- The inner loop of source lines 1277-1284. -/
def widenPass (maxX : Int) (currL : Nat) (sline : GoMap Nat) :
    List String → Widths × Bool → Option (Widths × Bool)
  | [], st => some st
  | k :: ks, st =>
    match widenCell maxX currL sline st k with
    | none => none
    | some st1 => widenPass maxX currL sline ks st1

/-- How a loop that is run for a bounded number of passes ends. -/
inductive LoopResult (α : Type) where
  /-- the loop reached its `break` -/
  | exit (a : α)
  /-- a run-time panic -/
  | panic
  /-- the loop has not ended after the given number of passes -/
  | running
  deriving DecidableEq

/-- The widening loop of source lines 1275-1288, run for at most the given number
of passes of its body. -/
def widen (maxX : Int) (currL : Nat) (sline : GoMap Nat) (shownidx : List String) :
    Nat → Widths → LoopResult Widths
  | 0, _ => .running
  | fuel + 1, w =>
    match widenPass maxX currL sline shownidx (w, false) with
    | none => .panic
    | some (w1, true) => widen maxX currL sline shownidx fuel w1
    | some (w1, false) => .exit w1

/-- A call `g.SetView(sensname, x0, y0, x1, y1)` of the drawing loops that did
not fail, with the colour and the text printed into the view when the call
created it (`gocui.ErrUnknownView`). -/
structure Cell where
  name : String
  x0 : Int
  y0 : Int
  x1 : Int
  y1 : Int
  text : Option (Colour × String)
  deriving DecidableEq

/-- The variables the three drawing loops of source lines 1301-1365 share, the
names of the views the gui holds, and the cells set so far. -/
structure Drawing where
  currX : Int
  currY : Int
  currL : Nat
  gui : List String
  cells : List Cell
  deriving DecidableEq

/-- How a drawing loop goes on. -/
inductive DrawResult where
  /-- the loop body ended normally -/
  | drawn (d : Drawing)
  /-- a run-time panic -/
  | panic
  /-- `return err`: `SetView` answered an error other than `ErrUnknownView` -/
  | failed
  deriving DecidableEq

/-- Body of a drawing loop for one key, the loop's colour given with it (the
three loops have the same body up to the colour).  `invalid` is the test by
which `gocui.SetView` refuses a call; a call it accepts creates the view when
the gui has none of that name. -/
def drawCell (invalid : String → Int → Int → Int → Int → Bool) (sensors : GoMap Sensor)
    (shown : GoMap Int) (sline : GoMap Nat) (d : Drawing) (k : Colour × String) : DrawResult :=
  match sensors.get k.2 with
  | none => .panic
  | some sens =>
    let w := (shown.get k.2).getD 0
    let line := (sline.get k.2).getD 0
    let d1 :=
      if line ≠ d.currL then { d with currX := 0, currY := d.currY + DEFAULTH, currL := line }
      else d
    if invalid k.2 d1.currX d1.currY (d1.currX + w - 1) (d1.currY + DEFAULTH - 1) then .failed
    else
      .drawn { d1 with
        currX := d1.currX + w
        gui := if d1.gui.contains k.2 then d1.gui else d1.gui ++ [k.2]
        cells := d1.cells ++
          [{ name := k.2, x0 := d1.currX, y0 := d1.currY, x1 := d1.currX + w - 1,
             y1 := d1.currY + DEFAULTH - 1,
             text := if d1.gui.contains k.2 then none else some (k.1, sens.value) }] }

/-- The drawing loops, over the keys in the order drawn. -/
def drawCells (invalid : String → Int → Int → Int → Int → Bool) (sensors : GoMap Sensor)
    (shown : GoMap Int) (sline : GoMap Nat) : List (Colour × String) → Drawing → DrawResult
  | [], d => .drawn d
  | k :: ks, d =>
    match drawCell invalid sensors shown sline d k with
    | .drawn d1 => drawCells invalid sensors shown sline ks d1
    | .panic => .panic
    | .failed => .failed

/-- How a call of `Layout` ends. -/
inductive LayoutResult where
  /-- `return nil`, with the manager afterwards and the cells set -/
  | done (rm : RedmonManager) (cells : List Cell)
  /-- `return err` -/
  | failed
  /-- a run-time panic -/
  | panic
  /-- the widening loop has not ended after the given number of passes -/
  | running
  deriving DecidableEq

/-- Go `Layout`, for a terminal `maxX` columns wide, with the widening loop run
for at most `fuel` passes.  The three placement loops share their variables and
visit `alertkeys`, `warnkeys`, `shownkeys` in turn, filling `shownidx` in that
order; so do the three drawing loops.  The mutex `isViewChange` is not
modelled. -/
def Layout (invalid : String → Int → Int → Int → Int → Bool) (ord : RangeOrder) (fuel : Nat)
    (maxX : Int) (rm : RedmonManager) : LayoutResult :=
  match rm.gui with
  | none => .panic
  | some gui =>
    match currentViewName rm with
    | none => .panic
    | some currviewname =>
      if invalid "statusbar" 0 0 (maxX - 1) 2 then .failed
      else
        let gui1 := if gui.contains "statusbar" then gui else gui ++ ["statusbar"]
        let g := layoutGroups ord rm.sensors currviewname
        let shownidx := g.alertkeys ++ g.warnkeys ++ g.shownkeys
        match placeCells maxX rm.sensors shownidx
            { currX := 0, currL := 0, shown := [], sline := [] } with
        | none => .panic
        | some p =>
          match lineWidths p.shown (ord.perm p.sline) (List.replicate (p.currL + 1) 0) with
          | none => .panic
          | some linew =>
            match widen maxX p.currL p.sline shownidx fuel
                { linew := linew, shown := p.shown } with
            | .panic => .panic
            | .running => .running
            | .exit w =>
              let gui2 := gui1.filter (fun v =>
                !(decide (v ∈ rm.sensors.map Prod.fst) && (w.shown.get v).isNone))
              match drawCells invalid rm.sensors w.shown p.sline
                  (g.alertkeys.map (fun k => (Colour.red, k)) ++
                    g.warnkeys.map (fun k => (Colour.yellow, k)) ++
                    g.shownkeys.map (fun k => (Colour.green, k)))
                  { currX := 0, currY := 3, currL := 0, gui := gui2, cells := [] } with
              | .panic => .panic
              | .failed => .failed
              | .drawn d => .done { rm with gui := some d.gui } d.cells

/-! ## The request and response exchange of a data source -/

/-- Where a collector stands in `runSensorCollector`, source lines 507-565. -/
inductive CollectorPc where
  /-- in the `select`, between two firings of its timer -/
  | waiting
  /-- at `reqchan <- request{sens.key + ":suspended"}` -/
  | sendSuspended
  /-- at the `<-reschan` that follows it -/
  | recvSuspended
  /-- at `reqchan <- request{sens.key}` -/
  | sendKey
  /-- at the `<-reschan` that follows it -/
  | recvKey
  /-- out of the loop, after a kill -/
  | stopped
  deriving DecidableEq

/-- A collector goroutine: the key of its sensor and where it stands. -/
structure Collector where
  key : String
  pc : CollectorPc
  deriving DecidableEq

/-- Where `runSource` stands in its loop, source lines 875-887.  The number of
the collector whose request is being served is kept for the statements; the
code does not have it. -/
inductive SourcePc where
  /-- in the `select` -/
  | selecting
  /-- took a request off `reqchan`, `GET` not yet answered -/
  | serving (issuer : Nat) (key : String)
  /-- at `reschan <- response{...}` -/
  | replying (issuer : Nat) (key : String) (resp : response)
  /-- returned, after a kill -/
  | stopped
  deriving DecidableEq

/-- A response taken off `reschan`: the collector whose request it answers and
the key of that request, the collector that received it and the key that
collector had asked for. -/
structure Delivery where
  issuer : Nat
  key : String
  receiver : Nat
  asked : String
  resp : response
  deriving DecidableEq

/-- A data source, the collectors bound to it, the requests the source took off
`reqchan` in order, and the responses taken off `reschan` in order. -/
structure Exchange where
  source : SourcePc
  collectors : List Collector
  arrivals : List (Nat × String)
  deliveries : List Delivery
  deriving DecidableEq

/-- The steps of the goroutines around the two unbuffered channels of a source. -/
inductive Action where
  /-- the timer of collector `i` fires, `isConfChange` being false -/
  | tick (i : Nat)
  /-- the send of collector `i` on `reqchan` meets the receive of the source -/
  | request (i : Nat)
  /-- `GET` returns to the source, with the value found if any -/
  | get (found : Option String)
  /-- the send of the source on `reschan` meets the receive of collector `j` -/
  | respond (j : Nat)
  /-- collector `i` takes a kill off its kill channel -/
  | killCollector (i : Nat)
  /-- the source takes a kill off its kill channel -/
  | killSource
  deriving DecidableEq

/-- One step; `none` when the goroutines are not in a position to take it.  A
send and a receive on an unbuffered channel complete together, so a collector
passes its send only when the source is in its `select`, and the source passes
its send only to a collector that stands at a receive: any such collector may
take it. -/
def exchangeStep (x : Exchange) : Action → Option Exchange
  | .tick i =>
    match x.collectors[i]? with
    | some c =>
      match c.pc with
      | .waiting => some { x with collectors := x.collectors.set i { c with pc := .sendSuspended } }
      | _ => none
    | none => none
  | .request i =>
    match x.source, x.collectors[i]? with
    | .selecting, some c =>
      match c.pc with
      | .sendSuspended =>
        some { x with
          source := .serving i (c.key ++ ":suspended")
          collectors := x.collectors.set i { c with pc := .recvSuspended }
          arrivals := x.arrivals ++ [(i, c.key ++ ":suspended")] }
      | .sendKey =>
        some { x with
          source := .serving i c.key
          collectors := x.collectors.set i { c with pc := .recvKey }
          arrivals := x.arrivals ++ [(i, c.key)] }
      | _ => none
    | _, _ => none
  | .get found =>
    match x.source with
    | .serving i k =>
      some { x with
        source := .replying i k
          (match found with
            | some value => { value := value, ok := true }
            | none => { value := "", ok := false }) }
    | _ => none
  | .respond j =>
    match x.source, x.collectors[j]? with
    | .replying i k resp, some c =>
      match c.pc with
      | .recvSuspended =>
        some { x with
          source := .selecting
          collectors := x.collectors.set j
            { c with pc := if resp.ok then .waiting else .sendKey }
          deliveries := x.deliveries ++
            [{ issuer := i, key := k, receiver := j, asked := c.key ++ ":suspended",
               resp := resp }] }
      | .recvKey =>
        some { x with
          source := .selecting
          collectors := x.collectors.set j { c with pc := .waiting }
          deliveries := x.deliveries ++
            [{ issuer := i, key := k, receiver := j, asked := c.key, resp := resp }] }
      | _ => none
    | _, _ => none
  | .killCollector i =>
    match x.collectors[i]? with
    | some c =>
      match c.pc with
      | .waiting => some { x with collectors := x.collectors.set i { c with pc := .stopped } }
      | _ => none
    | none => none
  | .killSource =>
    match x.source with
    | .selecting => some { x with source := .stopped }
    | _ => none

/-- A sequence of steps, in order; `none` when one of them cannot be taken. -/
def runExchange : List Action → Exchange → Option Exchange
  | [], x => some x
  | a :: as, x =>
    match exchangeStep x a with
    | none => none
    | some x1 => runExchange as x1

/-- A source in its `select` with one collector per key, each between ticks. -/
def Exchange.start (keys : List String) : Exchange where
  source := .selecting
  collectors := keys.map (fun k => { key := k, pc := .waiting })
  arrivals := []
  deliveries := []

/-! ## Auxiliary definitions used to state the properties -/

/-- The text of a rule between its prefix `max_` and the next underscore. -/
def yieldText (c : String) : String :=
  String.mk ((c.data.drop 4).takeWhile (fun x => x != '_'))

/-- The text of an observed value before its first space. -/
def valueText (cond : String) : String :=
  String.mk (cond.data.takeWhile (fun x => x != ' '))

/-- Whether one rule matches an observed value. -/
def ruleMatches (pf : String → ParseFloatResult) (cond c : String) : Bool :=
  (c == "missing" && cond == "MISSING") ||
    (HasPrefix c "max_" && F64.lt (pf (yieldText c)).value (pf (valueText cond)).value)

/-- The first whitespace-delimited token of a string, in the words of the
specification: leading spaces, tabs and newlines are skipped and the token ends
at the next one. -/
def specFirstToken (s : String) : String :=
  let ws : Char → Bool := fun x => x == ' ' || x == '\t' || x == '\n'
  String.mk ((s.data.dropWhile ws).takeWhile (fun x => !ws x))

/-- The kill signals sent by the closing loop when it visits the entries `l`. -/
def closeEvents (updatedsensors : GoMap SensorConfig) (l : GoMap Sensor) : List Event :=
  l.flatMap (fun e =>
    match updatedsensors.get e.1 with
    | none => [Event.kill e.2.collkillchan, Event.kill e.2.viewkillchan]
    | some _ => [])

/-- Whether the closing loop, visiting the entries `l`, shuts the name `k` down. -/
def removedKey (updatedsensors : GoMap SensorConfig) (l : GoMap Sensor) (k : String) : Bool :=
  l.any (fun x => x.1 == k && (updatedsensors.get x.1).isNone)

/-- All three channels of the sensor were made when the counter stood at `n` or
later. -/
def Fresh (n : Nat) (s : Sensor) : Prop :=
  n ≤ s.collkillchan ∧ n ≤ s.viewkillchan ∧ n ≤ s.viewchan

/-- The channel `c` exists already and is no kill channel of a registered sensor. -/
def Unowned (c : Nat) (rm : RedmonManager) : Prop :=
  c < rm.nextChan ∧ ∀ e ∈ rm.sensors, e.2.collkillchan ≠ c ∧ e.2.viewkillchan ≠ c

/-- The kinds of sensor the starting loop knows. -/
def knownType (c : SensorConfig) : Prop :=
  c.SensorType = "numeric" ∨ c.SensorType = "string"

/-- The registry holds under the name a sensor of the source made at `n` or
later. -/
def StartedAt (n : Nat) (src name : String) (rm : RedmonManager) : Prop :=
  ∃ s, rm.sensors.get name = some s ∧ s.source = src ∧ Fresh n s ∧ s.name = name

/-- The step of a pass for the source entry `redconfig` has no cause to touch the
sensor registered under `name` and bound to `source`: when the entry is a
reachable redis source, either it is the sensor's own source and some record
carries the name, or it is another source and no record of it carries the
name. -/
def Undisturbed (store : Store) (source name : String) (redconfig : SourceConfig) : Prop :=
  ∀ records, redconfig.Stype = "redis" → store redconfig = some records →
    (source = redconfig.Name ∧ ∃ c, StoredRecord.config c ∈ records ∧ c.Name = name) ∨
    (source ≠ redconfig.Name ∧ ∀ c, StoredRecord.config c ∈ records → c.Name ≠ name)

/-- The distinct elements of a list in the order of their first occurrence. -/
def firstOccurrences : List String → List String
  | [] => []
  | x :: xs => x :: (firstOccurrences xs).filter (fun y => y != x)

/-- The view names met when the registry is visited in the order `ord`, sensor
by sensor, each sensor's views in list order. -/
def viewsVisited (ord : RangeOrder) (sensors : GoMap Sensor) : List String :=
  (ord.perm sensors).flatMap (fun e => e.2.views)

/-- The number of registered sensors that carry the view `v`, each sensor counted
once. -/
def carriers (sensors : GoMap Sensor) (v : String) : Nat :=
  (sensors.filter (fun e => decide (v ∈ e.2.views))).length

/-- The value the timer of `ViewsManager` is compared against at a tick. -/
def dwellTarget (rm : RedmonManager) (st : ViewsManagerState) : Nat :=
  VIEWCHANGEINTERVAL + autowait rm st.newview

/-- The dwell target in the words of the specification: the base interval plus
the weight of the view that is currently selected, `viewweights[views[currview]]`
(a missing key reading as 0). -/
def specDwellTarget (rm : RedmonManager) : Nat :=
  VIEWCHANGEINTERVAL +
    match rm.views[rm.currview]? with
    | some v => (rm.viewweights.get v).getD 0
    | none => 0

/-- The number of ticks of `ViewsManager` up to and including the first one that
rotates (the tick that resets the timer to 0), looking at no more than `fuel`
ticks. -/
def ticksToRotation (ord : RangeOrder) :
    Nat → RedmonManager × ViewsManagerState → Option Nat
  | 0, _ => none
  | fuel + 1, x =>
    match viewsManagerTick ord x.1 x.2 with
    | none => none
    | some y => if y.2.timer = 0 then some 1 else (ticksToRotation ord fuel y).map (fun n => n + 1)

/-- Whether the stored value of a key decoded to a sensor configuration. -/
def StoredRecord.decoded : StoredRecord → Bool
  | .config _ => true
  | _ => false

/-- The colour of a severity, in the words of the specification: red for alert,
also when the sensor is in warning as well, yellow for warning without alert,
green otherwise. -/
def severityColour (inAlert inWarning : Bool) : Colour :=
  if inAlert then .red else if inWarning then .yellow else .green

/-- The manager states reachable from the initial state of `main` (no view,
`currview` 0) by calls of `UpdateViews` and ticks of `ViewsManager`, each with
its own visiting order, with anything else happening in between that writes
neither `views` nor `currview` (reconciliation of the registry, collector and
view actors, `Layout`). -/
inductive ViewReachable : RedmonManager → Prop where
  | init (rm : RedmonManager) (hv : rm.views = []) (hc : rm.currview = 0) : ViewReachable rm
  | updateViews (ord : RangeOrder) (rm r : RedmonManager) (h : ViewReachable rm)
      (hr : UpdateViews ord rm = some r) : ViewReachable r
  | tick (ord : RangeOrder) (rm r : RedmonManager) (st st1 : ViewsManagerState)
      (h : ViewReachable rm) (hr : viewsManagerTick ord rm st = some (r, st1)) : ViewReachable r
  | other (rm r : RedmonManager) (h : ViewReachable rm) (hv : r.views = rm.views)
      (hc : r.currview = rm.currview) : ViewReachable r

/-- The sum of the widths `shown[s]` over the names `s` of `shownidx` that
`sline` assigns to the line `l` (a missing width reading as 0). -/
def lineTotal (shown : GoMap Int) (sline : GoMap Nat) (shownidx : List String) (l : Nat) : Int :=
  ((shownidx.filter (fun s => sline.get s == some l)).map (fun s => (shown.get s).getD 0)).sum

/-- The slice `linew` has one entry per line, 0 to `currL`, and the entry of each
line is the sum of the widths of the sensors assigned to the line. -/
def LineSums (sline : GoMap Nat) (shownidx : List String) (currL : Nat) (w : Widths) : Prop :=
  w.linew.length = currL + 1 ∧
  ∀ l, l ≤ currL → w.linew[l]? = some (lineTotal w.shown sline shownidx l)

/-- Each line is at least as wide as it was in `linew0`, and no wider than the
larger of that width and `maxX`. -/
def Bounded (maxX : Int) (linew0 : List Int) (w : Widths) : Prop :=
  ∀ (l : Nat) (x0 x : Int),
    linew0[l]? = some x0 → w.linew[l]? = some x → x0 ≤ x ∧ x ≤ max x0 maxX

/-- The number of columns the first `c` lines of `linew` lack to reach `maxX`,
summed. -/
def deficit (maxX : Int) : Nat → List Int → Nat
  | 0, _ => 0
  | _ + 1, [] => 0
  | c + 1, lw :: rest => (maxX - lw).toNat + deficit maxX c rest

/-- The sum of the widths `shown[e.1]` over the entries `e` of a list of line
assignments that are on line `l`. -/
def entrySum (shown : GoMap Int) (es : List (String × Nat)) (l : Nat) : Int :=
  ((es.filter (fun e => e.2 == l)).map (fun e => (shown.get e.1).getD 0)).sum

/-- The collector stands at a receive on `reschan`. -/
def Collector.receiving (c : Collector) : Bool :=
  match c.pc with
  | .recvSuspended => true
  | .recvKey => true
  | _ => false

/-- The request the source has taken and not yet answered, if any. -/
def SourcePc.outstanding : SourcePc → List (Nat × String)
  | .serving i k => [(i, k)]
  | .replying i k _ => [(i, k)]
  | _ => []

/-- The key a collector that stands at a receive has asked for. -/
def Collector.asked (c : Collector) : String :=
  match c.pc with
  | .recvSuspended => c.key ++ ":suspended"
  | _ => c.key

/-- The invariant of the exchange: a collector stands at a receive only while
the source holds its request, and holds the key it asked for; the requests
arrived are the ones answered, in order, followed by the one being served; each
response went to the issuer of its request. -/
def ExchangeInv (x : Exchange) : Prop :=
  (∀ (j : Nat) (c : Collector), x.collectors[j]? = some c → c.receiving = true →
    x.source.outstanding = [(j, c.asked)]) ∧
  x.deliveries.map (fun d => (d.issuer, d.key)) ++ x.source.outstanding = x.arrivals ∧
  ∀ d ∈ x.deliveries, d.receiver = d.issuer ∧ d.asked = d.key

/-! ## Concrete inputs -/

/-- The sensor of the end-to-end example: numeric, name `cpu`, key `host1:cpu`,
alert rule `max_10`, refresh 1, just started. -/
def cpuSensor : Sensor where
  kind := .numeric
  name := "cpu"
  source := "redmon"
  key := "host1:cpu"
  value := ""
  refresh := 1
  collkillchan := 0
  viewkillchan := 1
  viewchan := 2
  views := []
  alert := ["max_10"]
  warning := []
  inView := false
  inAlert := false
  inWarning := false

/-- A backing store holding `5 pct` under `host1:cpu` and nothing else. -/
def cpuLookup : Lookup :=
  fun k => if k = "host1:cpu" then ⟨"5 pct", true⟩ else ⟨"", false⟩

/-- The same store with the suspension marker of `host1:cpu` set. -/
def cpuLookupSuspended : Lookup :=
  fun k => if k = "host1:cpu" ∨ k = "host1:cpu:suspended" then ⟨"5 pct", true⟩ else ⟨"", false⟩

/-- The source of the embedded configuration. -/
def redmonSource : SourceConfig where
  Name := "redmon"
  Stype := "redis"
  Endpoint := "localhost:6379"
  Key := ""
  Db := "2"

/-- A stored record for a numeric sensor with the given name, shown in view
`main`. -/
def recordNamed (name : String) : SensorConfig where
  Name := name
  Source := "redmon"
  Key := "host1:" ++ name
  SensorType := "numeric"
  Views := ["main"]
  Warning := []
  Alert := ["max_10"]
  Refresh := 1
  TTL := 0

/-- A manager with the embedded configuration and three running sensors `A`,
`B`, `C` of the source `redmon`. -/
def abcManager : RedmonManager where
  config := [redmonSource]
  sensors :=
    [("A", newSensor .numeric "A" "redmon" (recordNamed "A") 0),
     ("B", newSensor .numeric "B" "redmon" (recordNamed "B") 3),
     ("C", newSensor .numeric "C" "redmon" (recordNamed "C") 6)]
  gui := none
  views := ["main"]
  viewweights := [("main", 3)]
  updatein := 0
  currview := 0
  isConfChange := false
  nextChan := 9
  log := []

/-- A store whose keys hold the records `B`, `C`, `D`. -/
def bcdStore : Store :=
  fun _ => some [.config (recordNamed "B"), .config (recordNamed "C"), .config (recordNamed "D")]

/-- A second source, on another host. -/
def backupSource : SourceConfig where
  Name := "backup"
  Stype := "redis"
  Endpoint := "host2:6379"
  Key := ""
  Db := "0"

/-- A manager configured with the two sources `redmon` and `backup`, no sensor
running yet. -/
def twoSourceManager : RedmonManager where
  config := [redmonSource, backupSource]
  sensors := []
  gui := none
  views := []
  viewweights := []
  updatein := 0
  currview := 0
  isConfChange := false
  nextChan := 0
  log := []

/-- Stores in which each source holds one record, both named `x`. -/
def sameNameStore : Store :=
  fun _ => some [.config (recordNamed "x")]

/-- A manager configured with the sources `redmon` and `backup`, with one running
sensor `x` bound to `backup`. -/
def backupXManager : RedmonManager where
  config := [redmonSource, backupSource]
  sensors := [("x", newSensor .numeric "x" "backup" (recordNamed "x") 0)]
  gui := none
  views := ["main"]
  viewweights := [("main", 1)]
  updatein := 0
  currview := 0
  isConfChange := false
  nextChan := 3
  log := []

/-- A manager with the embedded configuration and no sensor running. -/
def emptyManager : RedmonManager where
  config := [redmonSource]
  sensors := []
  gui := none
  views := []
  viewweights := []
  updatein := 0
  currview := 0
  isConfChange := false
  nextChan := 0
  log := []

/-- A store with two keys whose records carry the same name `x`: the first
numeric with key `host1:first`, the second of kind string with key
`host2:second`. -/
def duplicateStore : Store :=
  fun _ => some
    [.config { recordNamed "x" with Key := "host1:first" },
     .config { recordNamed "x" with
               Key := "host2:second", SensorType := "string", Views := ["other"],
               Alert := ["missing"], Refresh := 7 }]

/-- A store with two keys whose records carry the same name `x`: the first a
valid numeric record, the second of the unknown kind `gauge`. -/
def shadowedStore : Store :=
  fun _ => some
    [.config (recordNamed "x"), .config { recordNamed "x" with SensorType := "gauge" }]

/-- A manager whose one sensor lists the view `main` twice. -/
def repeatedViewManager : RedmonManager where
  config := [redmonSource]
  sensors :=
    [("A", newSensor .numeric "A" "redmon" { recordNamed "A" with Views := ["main", "main"] } 0)]
  gui := none
  views := []
  viewweights := []
  updatein := 0
  currview := 0
  isConfChange := false
  nextChan := 3
  log := []

/-- A sensor of the source `redmon` with the given name, first channel and views
list. -/
def sensorWithViews (name : String) (chan : Nat) (views : List String) : Sensor :=
  newSensor .numeric name "redmon" { recordNamed name with Views := views } chan

/-- A manager as `UpdateViews` leaves it with two sensors that both carry the one
view `X`: view list `X`, weight 2. -/
def xManager : RedmonManager where
  config := [redmonSource]
  sensors := [("P", sensorWithViews "P" 0 ["X"]), ("Q", sensorWithViews "Q" 3 ["X"])]
  gui := some []
  views := ["X"]
  viewweights := [("X", 2)]
  updatein := 0
  currview := 0
  isConfChange := false
  nextChan := 6
  log := []

/-- The manager of the fairness example: views `X` and `Y` with weights 2 and 0,
`X` selected. -/
def xyManager : RedmonManager where
  config := [redmonSource]
  sensors := [("P", sensorWithViews "P" 0 ["X"]), ("Q", sensorWithViews "Q" 3 ["X"])]
  gui := some []
  views := ["X", "Y"]
  viewweights := [("X", 2), ("Y", 0)]
  updatein := 0
  currview := 0
  isConfChange := false
  nextChan := 6
  log := []

/-- A manager as `UpdateViews` leaves it with two sensors that carry a view named
`none` and one that carries `Y`. -/
def noneManager : RedmonManager where
  config := [redmonSource]
  sensors :=
    [("P", sensorWithViews "P" 0 ["none"]), ("Q", sensorWithViews "Q" 3 ["none"]),
     ("R", sensorWithViews "R" 6 ["Y"])]
  gui := some []
  views := ["none", "Y"]
  viewweights := [("none", 2), ("Y", 1)]
  updatein := 0
  currview := 0
  isConfChange := false
  nextChan := 9
  log := []

/-- A store with three keys: one whose value does not decode, the numeric record
`x`, and a record `y` of the unknown kind `gauge`. -/
def faultyStore : Store :=
  fun _ => some
    [.malformed, .config (recordNamed "x"), .config { recordNamed "y" with SensorType := "gauge" }]

/-- A stored record `x` that lists no view. -/
def viewlessRecord : SensorConfig :=
  { recordNamed "x" with Views := [] }

/-- A store whose one key holds the record `x` without views. -/
def viewlessStore : Store :=
  fun _ => some [.config viewlessRecord]

/-- A manager with one running sensor that lists no view. -/
def viewlessManager : RedmonManager where
  config := [redmonSource]
  sensors := [("x", newSensor .numeric "x" "redmon" viewlessRecord 0)]
  gui := none
  views := []
  viewweights := []
  updatein := 0
  currview := 0
  isConfChange := false
  nextChan := 3
  log := []

/-- The library's test in `gocui.SetView`: a rectangle without interior, or an
empty name, is refused. -/
def gocuiInvalid (name : String) (x0 y0 x1 y1 : Int) : Bool :=
  decide (x0 ≥ x1) || decide (y0 ≥ y1) || name == ""

/-- A manager with the gui on, the view `X` selected, and four sensors: `a` in
alert and in warning, `b` in warning, `c` unflagged and carrying `X`, `d`
unflagged and carrying only `Y`. -/
def severityManager : RedmonManager where
  config := [redmonSource]
  sensors :=
    [("d", { sensorWithViews "d" 9 ["Y"] with value := "4" }),
     ("c", { sensorWithViews "c" 6 ["X"] with value := "3" }),
     ("b", { sensorWithViews "b" 3 ["X"] with value := "2", inWarning := true }),
     ("a", { sensorWithViews "a" 0 ["Y"] with value := "1", inAlert := true, inWarning := true })]
  gui := some []
  views := ["X", "Y"]
  viewweights := [("X", 2), ("Y", 2)]
  updatein := 300
  currview := 0
  isConfChange := false
  nextChan := 12
  log := []

/-- The widths the placement loops give three sensors `a`, `b`, `c` with one-byte
names and values. -/
def abcShown : GoMap Int :=
  [("a", 11), ("b", 11), ("c", 11)]

/-- The line assignments of `a`, `b`, `c` on a terminal 30 columns wide: `a` and
`b` on line 0, `c` on line 1. -/
def abcLines : GoMap Nat :=
  [("a", 0), ("b", 0), ("c", 1)]

/-- Two collectors polling one source at the same time: both timers fire, the
source serves the suspension lookup of collector 1, then that of collector 0,
then the metric key of each. -/
def twoCollectorsRun : List Action :=
  [.tick 0, .tick 1, .request 1, .get none, .respond 1, .request 0, .get none, .respond 0,
   .request 1, .get (some "7"), .respond 1, .request 0, .get none, .respond 0]

/-- Stores in which only the source `redmon` holds a record, the record `x`; the
store of every other source is reachable and holds no record. -/
def redmonOnlyStore : Store :=
  fun redconfig =>
    if redconfig.Name = "redmon" then some [.config (recordNamed "x")] else some []

/-- Stores in which every source holds a record named `x`: the source `redmon`
one with key `other` and refresh 30, every other source the record `x` with key
`host1:x` and refresh 1. -/
def otherKeyStore : Store :=
  fun redconfig =>
    if redconfig.Name = "redmon" then
      some [.config { recordNamed "x" with Key := "other", Refresh := 30 }]
    else some [.config (recordNamed "x")]

/-- A manager configured with the sources `backup` and `redmon`, in that order,
with one running sensor `x` bound to `backup` that has polled the value `42` and
is in alert. -/
def backupFirstManager : RedmonManager where
  config := [backupSource, redmonSource]
  sensors :=
    [("x", { newSensor .numeric "x" "backup" (recordNamed "x") 0 with
             value := "42", inAlert := true })]
  gui := none
  views := ["main"]
  viewweights := [("main", 1)]
  updatein := 0
  currview := 0
  isConfChange := false
  nextChan := 3
  log := []

/-! ## The condition evaluator -/

theorem splitChars_ne_nil (sep : Char) (l : List Char) : splitChars sep l ≠ [] := by
  induction l with
  | nil => simp [splitChars]
  | cons c cs ih =>
    unfold splitChars
    split
    · simp
    · split <;> simp

theorem splitChars_head (sep : Char) (l : List Char) :
    (splitChars sep l)[0]? = some (l.takeWhile (fun x => x != sep)) := by
  induction l with
  | nil => simp [splitChars]
  | cons c cs ih =>
    unfold splitChars
    by_cases h : c = sep
    · simp [h]
    · simp only [h, if_false]
      cases hs : splitChars sep cs with
      | nil => exact absurd hs (splitChars_ne_nil sep cs)
      | cons w ws =>
        rw [hs] at ih
        simp at ih
        simp [List.takeWhile_cons, h, ih]

theorem splitChars_append (sep : Char) (a b : List Char) (h : sep ∉ a) :
    splitChars sep (a ++ sep :: b) = a :: splitChars sep b := by
  induction a with
  | nil => simp [splitChars]
  | cons c cs ih =>
    have hc : c ≠ sep := fun hc => h (by simp [hc])
    have hcs : sep ∉ cs := fun hm => h (by simp [hm])
    simp only [List.cons_append]
    rw [splitChars]
    simp only [hc, if_false]
    rw [ih hcs]

theorem hasPrefix_max (c : String) (h : HasPrefix c "max_" = true) :
    ∃ rest, c.data = 'm' :: 'a' :: 'x' :: '_' :: rest := by
  unfold HasPrefix at h
  have h2 : "max_".data = ['m', 'a', 'x', '_'] := rfl
  rw [h2] at h
  rw [List.isPrefixOf_iff_prefix] at h
  obtain ⟨t, ht⟩ := h
  exact ⟨t, by rw [← ht]; rfl⟩

theorem split_value (cond : String) : (Split cond ' ')[0]? = some (valueText cond) := by
  simp [Split, List.getElem?_map, splitChars_head, valueText]

theorem split_yield (c : String) (h : HasPrefix c "max_" = true) :
    (Split c '_')[1]? = some (yieldText c) := by
  obtain ⟨rest, hr⟩ := hasPrefix_max c h
  have h1 : splitChars '_' c.data = ['m', 'a', 'x'] :: splitChars '_' rest := by
    rw [hr]
    exact splitChars_append '_' ['m', 'a', 'x'] rest (by decide)
  have h2 := splitChars_head '_' rest
  rw [Split, h1]
  cases hs : splitChars '_' rest with
  | nil => exact absurd hs (splitChars_ne_nil _ _)
  | cons w ws =>
    rw [hs] at h2
    simp at h2
    simp [h2, yieldText, hr]

theorem processConditions_eq_any (pf : String → ParseFloatResult) (conds : List String)
    (cond : String) :
    processConditions pf conds cond = some (conds.any (ruleMatches pf cond)) := by
  induction conds with
  | nil => simp [processConditions]
  | cons c cs ih =>
    rw [processConditions]
    by_cases h1 : c = "missing" ∧ cond = "MISSING"
    · simp [h1, ruleMatches]
    · simp only [h1, if_false]
      have hm : (c == "missing" && cond == "MISSING") = false := by
        simpa using h1
      by_cases h2 : HasPrefix c "max_" = true
      · simp only [h2, if_true, split_yield c h2, split_value]
        by_cases h3 : F64.lt (pf (yieldText c)).value (pf (valueText cond)).value = true
        · simp [h3, ruleMatches, h2]
        · simp [h3, ih, ruleMatches, hm, h2]
      · simp [h2, ih, ruleMatches, hm]

theorem takeWhile_append_stop (p : Char → Bool) (a b : List Char) (x : Char)
    (ha : ∀ y ∈ a, p y = true) (hx : p x = false) :
    (a ++ x :: b).takeWhile p = a := by
  induction a with
  | nil => simp [List.takeWhile_cons, hx]
  | cons c cs ih =>
    have hc : p c = true := ha c (by simp)
    simp only [List.cons_append, List.takeWhile_cons, hc, if_true]
    rw [ih (fun y hy => ha y (by simp [hy]))]

theorem takeWhile_all (p : Char → Bool) (a : List Char) (ha : ∀ y ∈ a, p y = true) :
    a.takeWhile p = a := by
  induction a with
  | nil => rfl
  | cons c cs ih =>
    have hc : p c = true := ha c (by simp)
    simp only [List.takeWhile_cons, hc, if_true]
    rw [ih (fun y hy => ha y (by simp [hy]))]

theorem max_rule_data (n : String) :
    ("max_" ++ n).data = 'm' :: 'a' :: 'x' :: '_' :: n.data := by
  rw [String.data_append]
  rfl

theorem hasPrefix_max_append (n : String) : HasPrefix ("max_" ++ n) "max_" = true := by
  unfold HasPrefix
  rw [max_rule_data, List.isPrefixOf_iff_prefix]
  exact ⟨n.data, rfl⟩

theorem max_rule_ne_missing (n : String) : ("max_" ++ n) ≠ "missing" := by
  intro h
  have h2 := congrArg String.data h
  rw [max_rule_data] at h2
  have h3 : "missing".data = ['m', 'i', 's', 's', 'i', 'n', 'g'] := rfl
  rw [h3] at h2
  simp at h2

theorem yieldText_max (n : String) (hn : '_' ∉ n.data) : yieldText ("max_" ++ n) = n := by
  unfold yieldText
  rw [max_rule_data]
  simp only [List.drop_succ_cons, List.drop_zero]
  rw [takeWhile_all]
  intro y hy
  have : y ≠ '_' := fun h => hn (h ▸ hy)
  simpa using this

theorem valueText_append (f suffix : String) (hf : ' ' ∉ f.data) :
    valueText (f ++ " " ++ suffix) = f := by
  unfold valueText
  have hd : (f ++ " " ++ suffix).data = f.data ++ ' ' :: suffix.data := by
    simp [String.data_append]
  rw [hd, takeWhile_append_stop _ _ _ _ _ (by simp)]
  intro y hy
  have : y ≠ ' ' := fun h => hf (h ▸ hy)
  simpa using this

theorem valueText_idem (s : String) : valueText (valueText s) = valueText s := by
  unfold valueText
  simp only
  rw [takeWhile_all]
  intro y hy
  exact List.mem_takeWhile_imp (p := fun x => x != ' ') hy

/-- The result of a single `max_` rule, in closed form. -/
theorem max_rule_result (pf : String → ParseFloatResult) (n cond : String) :
    processConditions pf ["max_" ++ n] cond =
      some (F64.lt (pf (yieldText ("max_" ++ n))).value (pf (valueText cond)).value) := by
  rw [processConditions_eq_any]
  have h := max_rule_ne_missing n
  simp [ruleMatches, hasPrefix_max_append, h]

theorem storeValue_fields (gui : Bool) (sens : Sensor) (newvalue : String)
    (requests : List String) :
    (storeValue gui sens newvalue requests).sens.value = newvalue ∧
    (storeValue gui sens newvalue requests).sens.inAlert = sens.inAlert ∧
    (storeValue gui sens newvalue requests).sens.inWarning = sens.inWarning ∧
    (storeValue gui sens newvalue requests).requests = requests := by
  unfold storeValue
  by_cases h : newvalue = sens.value
  · simp [h]
  · simp only [ne_eq, h, not_false_eq_true, if_true]
    split <;> simp

/-- The tick of a sensor that is not suspended, in closed form. -/
theorem collectorTick_polled (pf : String → ParseFloatResult) (gui : Bool) (lookup : Lookup)
    (sens : Sensor) (hs : (lookup (sens.key ++ ":suspended")).ok = false) :
    collectorTick pf gui lookup false sens =
      some (storeValue gui
        { sens with
          inAlert := sens.alert.any (ruleMatches pf
            (if (lookup sens.key).ok then
              (if (lookup sens.key).value = "" then "EMPTY" else (lookup sens.key).value)
             else "MISSING"))
          inWarning := sens.warning.any (ruleMatches pf
            (if (lookup sens.key).ok then
              (if (lookup sens.key).value = "" then "EMPTY" else (lookup sens.key).value)
             else "MISSING")) }
        (if (lookup sens.key).ok then
          (if (lookup sens.key).value = "" then "EMPTY" else (lookup sens.key).value)
         else "MISSING")
        [sens.key ++ ":suspended", sens.key]) := by
  unfold collectorTick
  simp only [hs, Bool.false_eq_true, if_false, processConditions_eq_any]

/-- C1, as stated, fails: with rule `max_10` and observed value `5 pct` the first
token 5 parses, 5 < 10 holds, and yet the rule does not match; the sensor of the
end-to-end example ends its poll with value `5 pct` and `inAlert = false`. -/
theorem max_rule_below_threshold_not_flagged :
    ParseFloat "5" = .ok (.fin 5) ∧ ParseFloat "10" = .ok (.fin 10) ∧
    F64.lt (.fin 5) (.fin 10) = true ∧
    ¬ (processConditions ParseFloat ["max_10"] "5 pct" = some true ↔
        F64.lt (.fin 5) (.fin 10) = true) ∧
    (collectorTick ParseFloat false cpuLookup false cpuSensor).map
      (fun r => (r.sens.value, r.sens.inAlert)) = some ("5 pct", false) := by
  decide!

/-- C1, amended: a rule `max_N` matches an observed value `f suffix` whose first
token parses exactly when N < f, strictly (so neither f < N nor f = N matches);
accordingly a sensor whose alert rules are `[max_N]` and that polls the stored
value `f suffix` ends the poll with that value and `inAlert` equal to N < f. -/
theorem max_rule_matches_iff_above (pf : String → ParseFloatResult) (n f suffix : String)
    (vn vf : F64) (hn : '_' ∉ n.data) (hf : ' ' ∉ f.data)
    (hpn : pf n = .ok vn) (hpf : pf f = .ok vf) :
    (processConditions pf ["max_" ++ n] (f ++ " " ++ suffix) = some true ↔
      F64.lt vn vf = true) ∧
    processConditions pf ["max_" ++ n] (f ++ " " ++ suffix) = some (F64.lt vn vf) ∧
    (F64.lt vf vn = true ∨ vf = vn →
      processConditions pf ["max_" ++ n] (f ++ " " ++ suffix) = some false) ∧
    ∀ (gui : Bool) (lookup : Lookup) (sens : Sensor),
      sens.alert = ["max_" ++ n] →
      (lookup (sens.key ++ ":suspended")).ok = false →
      lookup sens.key = ⟨f ++ " " ++ suffix, true⟩ →
      ∃ r, collectorTick pf gui lookup false sens = some r ∧
        r.sens.value = f ++ " " ++ suffix ∧ r.sens.inAlert = F64.lt vn vf := by
  have hres : processConditions pf ["max_" ++ n] (f ++ " " ++ suffix) = some (F64.lt vn vf) := by
    rw [max_rule_result, yieldText_max n hn, valueText_append f suffix hf, hpn, hpf]
    rfl
  refine ⟨?_, hres, ?_, ?_⟩
  · rw [hres]
    simp
  · intro h
    rw [hres]
    have : F64.lt vn vf = false := by
      rcases h with h | h
      · cases vn <;> cases vf <;> simp_all [F64.lt]
        exact le_of_lt h
      · subst h
        cases vf <;> simp [F64.lt]
    rw [this]
  · intro gui lookup sens ha hs hl
    have hne : (f ++ " " ++ suffix) ≠ "" := by
      intro h
      have h2 := congrArg String.data h
      simp [String.data_append] at h2
    refine ⟨_, collectorTick_polled pf gui lookup sens hs, ?_, ?_⟩
    · rw [(storeValue_fields _ _ _ _).1]
      simp [hl, hne]
    · rw [(storeValue_fields _ _ _ _).2.1]
      simp only [hl, hne, if_true, if_false, ha]
      have h2 := hres
      rw [processConditions_eq_any] at h2
      exact Option.some.inj h2

/-- Instance of `max_rule_matches_iff_above` at rule `max_10` and value `5 pct`. -/
theorem max_rule_matches_iff_above_witness :
    (processConditions ParseFloat ["max_" ++ "10"] ("5" ++ " " ++ "pct") = some true ↔
      F64.lt (.fin 10) (.fin 5) = true) ∧
    processConditions ParseFloat ["max_" ++ "10"] ("5" ++ " " ++ "pct") =
      some (F64.lt (.fin 10) (.fin 5)) :=
  have h := max_rule_matches_iff_above ParseFloat "10" "5" "pct" (.fin 10) (.fin 5)
    (by decide) (by decide) (by decide!) (by decide!)
  ⟨h.1, h.2.1⟩

/-- C2: for every observed string `v`, the single rule `missing` matches exactly
when `v` is the string `MISSING`; every other string, such as `missing`,
`EMPTY`, `SUSPENDED` or the empty string, gives false. -/
theorem missing_rule_matches_iff (pf : String → ParseFloatResult) (v : String) :
    (processConditions pf ["missing"] v = some true ↔ v = "MISSING") ∧
    (v ≠ "MISSING" → processConditions pf ["missing"] v = some false) ∧
    processConditions pf ["missing"] "MISSING" = some true ∧
    processConditions pf ["missing"] "missing" = some false ∧
    processConditions pf ["missing"] "EMPTY" = some false ∧
    processConditions pf ["missing"] "SUSPENDED" = some false ∧
    processConditions pf ["missing"] "" = some false := by
  have hp : HasPrefix "missing" "max_" = false := by decide
  have key : ∀ w : String, processConditions pf ["missing"] w = some (decide (w = "MISSING")) := by
    intro w
    rw [processConditions_eq_any]
    by_cases hw : w = "MISSING" <;> simp [ruleMatches, hp, hw]
  refine ⟨?_, ?_, ?_, ?_, ?_, ?_, ?_⟩
  · rw [key]
    simp
  · intro h
    rw [key]
    simp [h]
  all_goals rw [key]
  all_goals decide

/-- C3, as stated, fails: the token `MISSING` does not parse as a float, and the
rule `max_-5` matches it all the same, because the discarded parse error leaves
the value 0 and -5 < 0; likewise for `EMPTY` and `abc`.  A token that is
well-formed but out of range, such as `1e999`, is read as +Inf and matches
`max_10`. -/
theorem max_rule_matches_unparsable_token :
    ParseFloat "MISSING" = .errSyntax ∧
    ParseFloat "-5" = .ok (.fin (-5)) ∧
    processConditions ParseFloat ["max_-5"] "MISSING" = some true ∧
    processConditions ParseFloat ["max_-5"] "EMPTY" = some true ∧
    processConditions ParseFloat ["max_-5"] "abc" = some true ∧
    ParseFloat "1e999" = .errRange false ∧
    processConditions ParseFloat ["max_10"] "1e999" = some true := by
  decide!

/-- C3, amended: for every rule `max_N` whose threshold N is not negative and
every observed string whose text before the first space is not well-formed as a
float (a syntax error of `ParseFloat`, as for `MISSING`, `EMPTY`, `SUSPENDED`,
`abc`), the result is false: the text is evaluated as 0. -/
theorem max_rule_nonneg_rejects_malformed_token (pf : String → ParseFloatResult)
    (n cond : String) (vn : F64) (hn : '_' ∉ n.data) (hpn : pf n = .ok vn)
    (h0 : F64.lt vn (.fin 0) = false) (hv : pf (valueText cond) = .errSyntax) :
    processConditions pf ["max_" ++ n] cond = some false := by
  rw [max_rule_result, yieldText_max n hn, hpn, hv]
  simp only [ParseFloatResult.value, h0]

/-- Instance of `max_rule_nonneg_rejects_malformed_token` at rule `max_10` and value
`MISSING`. -/
theorem max_rule_nonneg_rejects_malformed_token_witness :
    processConditions ParseFloat ["max_" ++ "10"] "MISSING" = some false :=
  max_rule_nonneg_rejects_malformed_token ParseFloat "10" "MISSING" (.fin 10)
    (by decide) (by decide!) (by decide) (by decide!)

/-- C4, as stated, fails: for the observed strings `5\tpct`, `5\n` and ` 5 pct`
the first whitespace-delimited token is `5`, which the rule `max_3` matches,
while the rule does not match the strings themselves. -/
theorem max_rule_token_not_whitespace_delimited :
    (specFirstToken "5\tpct" = "5" ∧
      processConditions ParseFloat ["max_3"] "5\tpct" ≠
        processConditions ParseFloat ["max_3"] (specFirstToken "5\tpct")) ∧
    (specFirstToken "5\n" = "5" ∧
      processConditions ParseFloat ["max_3"] "5\n" ≠
        processConditions ParseFloat ["max_3"] (specFirstToken "5\n")) ∧
    (specFirstToken " 5 pct" = "5" ∧
      processConditions ParseFloat ["max_3"] " 5 pct" ≠
        processConditions ParseFloat ["max_3"] (specFirstToken " 5 pct")) := by
  decide!

/-- C4, amended: the value a `max_N` rule compares against N is the text of the
observed string before its first space character (the whole string when it has
no space, the empty text when it starts with one); tabs and newlines do not end
it and leading spaces are not skipped.  So the rule gives the same result on `s`
and on that text. -/
theorem max_rule_reads_text_before_first_space (pf : String → ParseFloatResult)
    (n s : String) :
    processConditions pf ["max_" ++ n] s = processConditions pf ["max_" ++ n] (valueText s) ∧
    (Split s ' ')[0]? = some (valueText s) ∧
    valueText s = String.mk (s.data.takeWhile (fun x => x != ' ')) := by
  refine ⟨?_, split_value s, rfl⟩
  rw [max_rule_result, max_rule_result, valueText_idem]

/-- C5: `processConditions` is true exactly when some rule of the list matches
on its own.  Hence the empty list never matches, the order of the rules does not
matter, a rule that is neither `missing` nor prefixed `max_` never matches, and
appending rules keeps a true result true.  The function always returns. -/
theorem processConditions_any_rule (pf : String → ParseFloatResult) (v : String) :
    (∀ rs : List String,
      (processConditions pf rs v = some true ↔
        ∃ r ∈ rs, processConditions pf [r] v = some true) ∧
      (processConditions pf rs v = some true ∨ processConditions pf rs v = some false)) ∧
    processConditions pf [] v = some false ∧
    (∀ rs rs1 : List String, rs.Perm rs1 →
      processConditions pf rs v = processConditions pf rs1 v) ∧
    (∀ r : String, r ≠ "missing" → HasPrefix r "max_" = false →
      (processConditions pf [r] v = some false ∧
        ∀ rs : List String, processConditions pf (r :: rs) v = processConditions pf rs v)) ∧
    (∀ rs rs1 : List String, processConditions pf rs v = some true →
      processConditions pf (rs ++ rs1) v = some true) := by
  refine ⟨?_, ?_, ?_, ?_, ?_⟩
  · intro rs
    constructor
    · simp only [processConditions_eq_any, Option.some.injEq, List.any_eq_true,
        List.any_cons, List.any_nil, Bool.or_false]
    · rw [processConditions_eq_any]
      cases rs.any (ruleMatches pf v) <;> simp
  · rfl
  · intro rs rs1 hp
    simp only [processConditions_eq_any, Option.some.injEq]
    rw [Bool.eq_iff_iff]
    simp only [List.any_eq_true]
    constructor
    · rintro ⟨x, hx, hm⟩
      exact ⟨x, hp.mem_iff.mp hx, hm⟩
    · rintro ⟨x, hx, hm⟩
      exact ⟨x, hp.mem_iff.mpr hx, hm⟩
  · intro r h1 h2
    have hr : ruleMatches pf v r = false := by
      simp [ruleMatches, h1, h2]
    constructor
    · rw [processConditions_eq_any]
      simp [hr]
    · intro rs
      simp only [processConditions_eq_any, List.any_cons, hr, Bool.false_or]
  · intro rs rs1 h
    rw [processConditions_eq_any] at h ⊢
    simp only [Option.some.injEq] at h
    simp [List.any_append, h]

/-- C6: in a collector poll that the reconciliation flag does not skip, when the
lookup of `key:suspended` is found the sensor ends with value `SUSPENDED` and
both `inAlert` and `inWarning` false, whatever its rules, its previous state and
the answer the metric key would get; the only request sent is the one for
`key:suspended`, so the metric key is not looked up. -/
theorem suspended_poll (pf : String → ParseFloatResult) (gui : Bool) (lookup : Lookup)
    (sens : Sensor) (hs : (lookup (sens.key ++ ":suspended")).ok = true) :
    ∃ r, collectorTick pf gui lookup false sens = some r ∧
      r.sens.value = "SUSPENDED" ∧ r.sens.inAlert = false ∧ r.sens.inWarning = false ∧
      r.requests = [sens.key ++ ":suspended"] ∧ sens.key ∉ r.requests := by
  refine ⟨storeValue gui { sens with inAlert := false, inWarning := false } "SUSPENDED"
    [sens.key ++ ":suspended"], ?_, ?_⟩
  · unfold collectorTick
    simp [hs]
  · obtain ⟨h1, h2, h3, h4⟩ := storeValue_fields gui
      { sens with inAlert := false, inWarning := false } "SUSPENDED" [sens.key ++ ":suspended"]
    refine ⟨h1, h2, h3, h4, ?_⟩
    rw [h4]
    intro hmem
    have h5 : sens.key = sens.key ++ ":suspended" := by simpa using hmem
    have h6 := congrArg String.length h5
    simp [String.length_append] at h6
    have h7 : ":suspended".length = 10 := by decide
    omega

/-- Instance of `suspended_poll`: the example sensor, in alert beforehand, with the
suspension marker set. -/
theorem suspended_poll_witness :
    ∃ r, collectorTick ParseFloat true cpuLookupSuspended false
        { cpuSensor with inAlert := true, inWarning := true, value := "50" } = some r ∧
      r.sens.value = "SUSPENDED" ∧ r.sens.inAlert = false ∧ r.sens.inWarning = false ∧
      r.requests = ["host1:cpu" ++ ":suspended"] ∧ "host1:cpu" ∉ r.requests :=
  suspended_poll ParseFloat true cpuLookupSuspended
    { cpuSensor with inAlert := true, inWarning := true, value := "50" } (by decide)

/-- C7: in a collector poll with the suspension marker not found, the new value
is `EMPTY` for a found empty value, the raw value for a found non-empty value
and `MISSING` when the key is not found; afterwards the stored value is the new
value and `inAlert`, `inWarning` are `processConditions` of the alert and
warning rules on that same new value, whatever they were before. -/
theorem polled_value_and_flags (pf : String → ParseFloatResult) (gui : Bool)
    (lookup : Lookup) (sens : Sensor)
    (hs : (lookup (sens.key ++ ":suspended")).ok = false) :
    ∃ (newvalue : String) (a w : Bool) (r : TickResult),
      ((lookup sens.key).ok = true → (lookup sens.key).value = "" → newvalue = "EMPTY") ∧
      ((lookup sens.key).ok = true → (lookup sens.key).value ≠ "" →
        newvalue = (lookup sens.key).value) ∧
      ((lookup sens.key).ok = false → newvalue = "MISSING") ∧
      processConditions pf sens.alert newvalue = some a ∧
      processConditions pf sens.warning newvalue = some w ∧
      collectorTick pf gui lookup false sens = some r ∧
      r.sens.value = newvalue ∧ r.sens.inAlert = a ∧ r.sens.inWarning = w ∧
      collectorTick pf gui lookup false { sens with inAlert := !sens.inAlert } = some r ∧
      collectorTick pf gui lookup false { sens with inWarning := !sens.inWarning } = some r := by
  refine ⟨_, _, _, _, ?_, ?_, ?_, processConditions_eq_any pf sens.alert _,
    processConditions_eq_any pf sens.warning _, collectorTick_polled pf gui lookup sens hs,
    (storeValue_fields _ _ _ _).1, (storeValue_fields _ _ _ _).2.1,
    (storeValue_fields _ _ _ _).2.2.1, ?_, ?_⟩
  · intro h1 h2
    simp [h1, h2]
  · intro h1 h2
    simp [h1, h2]
  · intro h1
    simp [h1]
  · exact collectorTick_polled pf gui lookup { sens with inAlert := !sens.inAlert } hs
  · exact collectorTick_polled pf gui lookup { sens with inWarning := !sens.inWarning } hs

/-- Instance of `polled_value_and_flags`: the example sensor polling a store without
the suspension marker. -/
theorem polled_value_and_flags_witness :
    ∃ (newvalue : String) (a w : Bool) (r : TickResult),
      ((cpuLookup cpuSensor.key).ok = true → (cpuLookup cpuSensor.key).value = "" →
        newvalue = "EMPTY") ∧
      ((cpuLookup cpuSensor.key).ok = true → (cpuLookup cpuSensor.key).value ≠ "" →
        newvalue = (cpuLookup cpuSensor.key).value) ∧
      ((cpuLookup cpuSensor.key).ok = false → newvalue = "MISSING") ∧
      processConditions ParseFloat cpuSensor.alert newvalue = some a ∧
      processConditions ParseFloat cpuSensor.warning newvalue = some w ∧
      collectorTick ParseFloat false cpuLookup false cpuSensor = some r ∧
      r.sens.value = newvalue ∧ r.sens.inAlert = a ∧ r.sens.inWarning = w ∧
      collectorTick ParseFloat false cpuLookup false
        { cpuSensor with inAlert := !cpuSensor.inAlert } = some r ∧
      collectorTick ParseFloat false cpuLookup false
        { cpuSensor with inWarning := !cpuSensor.inWarning } = some r :=
  polled_value_and_flags ParseFloat false cpuLookup cpuSensor (by decide)

/-! ## Go maps -/

theorem lookup_filter_key {α : Type} (p : String → Bool) (m : GoMap α) (k : String) :
    List.lookup k (m.filter (fun e => p e.1)) = if p k then List.lookup k m else none := by
  induction m with
  | nil => simp
  | cons e es ih =>
    obtain ⟨k1, v1⟩ := e
    by_cases hk : k = k1
    · subst hk
      by_cases hp : p k = true
      · simp [List.filter_cons, hp]
      · simp only [List.filter_cons, hp, if_false] at ih ⊢
        simp only [Bool.false_eq_true, if_false]
        exact ih
    · have hb : (k == k1) = false := by simpa using hk
      by_cases hp : p k1 = true
      · simp only [List.filter_cons, hp, if_true, List.lookup_cons, hb]
        exact ih
      · simp only [List.filter_cons, hp, if_false, List.lookup_cons, hb, Bool.false_eq_true]
        exact ih

theorem get_delete {α : Type} (m : GoMap α) (k k1 : String) :
    (m.delete k).get k1 = if k1 = k then none else m.get k1 := by
  unfold GoMap.delete GoMap.get
  rw [lookup_filter_key (fun x => x != k) m k1]
  by_cases h : k1 = k <;> simp [h]

theorem get_set {α : Type} (m : GoMap α) (k k1 : String) (v : α) :
    (m.set k v).get k1 = if k1 = k then some v else m.get k1 := by
  unfold GoMap.set GoMap.get
  rw [List.lookup_append, lookup_filter_key (fun x => x != k) m k1]
  by_cases h : k1 = k
  · simp [h]
  · have hb : (k1 == k) = false := by simpa using h
    simp [h, List.lookup_cons, hb]

theorem mem_of_get {α : Type} (m : GoMap α) (k : String) (v : α) (h : m.get k = some v) :
    (k, v) ∈ m := by
  unfold GoMap.get at h
  induction m with
  | nil => simp at h
  | cons e es ih =>
    obtain ⟨k1, v1⟩ := e
    by_cases hk : k = k1
    · subst hk
      simp at h
      simp [h]
    · have hb : (k == k1) = false := by simpa using hk
      simp only [List.lookup_cons, hb] at h
      exact List.mem_cons_of_mem _ (ih h)

theorem get_of_mem {α : Type} (m : GoMap α) (k : String) (v : α)
    (hn : (m.map Prod.fst).Nodup) (h : (k, v) ∈ m) : m.get k = some v := by
  unfold GoMap.get
  induction m with
  | nil => simp at h
  | cons e es ih =>
    obtain ⟨k1, v1⟩ := e
    simp only [List.map_cons, List.nodup_cons] at hn
    rcases List.mem_cons.mp h with h1 | h1
    · cases h1
      simp
    · have hk : k ≠ k1 := by
        intro hk
        subst hk
        exact hn.1 (List.mem_map.mpr ⟨(k, v), h1, rfl⟩)
      have hb : (k == k1) = false := by simpa using hk
      simp only [List.lookup_cons, hb]
      exact ih hn.2 h1

theorem get_isSome_of_mem {α : Type} (m : GoMap α) (e : String × α) (h : e ∈ m) :
    ∃ v, m.get e.1 = some v := by
  unfold GoMap.get
  induction m with
  | nil => simp at h
  | cons x xs ih =>
    obtain ⟨k1, v1⟩ := x
    by_cases hk : e.1 = k1
    · exact ⟨v1, by simp [hk]⟩
    · have hb : (e.1 == k1) = false := by simpa using hk
      rcases List.mem_cons.mp h with h1 | h1
      · exact absurd (by rw [h1]) hk
      · simp only [List.lookup_cons, hb]
        exact ih h1

/-! ## The closing loop -/

theorem closeLoop_nextChan (upd : GoMap SensorConfig) (l : GoMap Sensor) (rm : RedmonManager) :
    (l.foldl (closeRemoved upd) rm).nextChan = rm.nextChan := by
  induction l generalizing rm with
  | nil => rfl
  | cons e es ih =>
    rw [List.foldl_cons, ih]
    unfold closeRemoved
    split <;> rfl

theorem closeLoop_log (upd : GoMap SensorConfig) (l : GoMap Sensor) (rm : RedmonManager) :
    (l.foldl (closeRemoved upd) rm).log = rm.log ++ closeEvents upd l := by
  induction l generalizing rm with
  | nil => simp [closeEvents]
  | cons e es ih =>
    rw [List.foldl_cons, ih]
    unfold closeRemoved closeEvents
    cases h : upd.get e.1 <;> simp [List.flatMap_cons, h]

theorem closeLoop_sensors (upd : GoMap SensorConfig) (l : GoMap Sensor) (rm : RedmonManager) :
    (l.foldl (closeRemoved upd) rm).sensors =
      rm.sensors.filter (fun e => !removedKey upd l e.1) := by
  induction l generalizing rm with
  | nil => simp [removedKey]
  | cons e es ih =>
    rw [List.foldl_cons, ih]
    unfold closeRemoved
    cases h : upd.get e.1
    · simp only [GoMap.delete, List.filter_filter]
      congr 1
      funext x
      simp only [removedKey, List.any_cons, h, Option.isNone_none, Bool.and_true]
      by_cases hx : x.1 = e.1
      · simp [hx]
      · have h1 : (e.1 == x.1) = false := by simpa using fun h => hx h.symm
        simp [hx, h1]
    · congr 1
      funext x
      simp [removedKey, List.any_cons, h]

theorem removedKey_iff (upd : GoMap SensorConfig) (l : GoMap Sensor) (k : String) :
    removedKey upd l k = true ↔ (∃ x ∈ l, x.1 = k) ∧ upd.get k = none := by
  unfold removedKey
  simp only [List.any_eq_true, Bool.and_eq_true, beq_iff_eq, Option.isNone_iff_eq_none]
  constructor
  · rintro ⟨x, hx, h1, h2⟩
    exact ⟨⟨x, hx, h1⟩, h1 ▸ h2⟩
  · rintro ⟨⟨x, hx, h1⟩, h2⟩
    exact ⟨x, hx, h1, h1 ▸ h2⟩

theorem closeLoop_get (upd : GoMap SensorConfig) (l : GoMap Sensor) (rm : RedmonManager)
    (k : String) :
    (l.foldl (closeRemoved upd) rm).sensors.get k =
      if removedKey upd l k then none else rm.sensors.get k := by
  rw [closeLoop_sensors]
  unfold GoMap.get
  rw [lookup_filter_key (fun x => !removedKey upd l x) rm.sensors k]
  cases removedKey upd l k <;> simp

theorem mem_closeEvents (upd : GoMap SensorConfig) (l : GoMap Sensor) (c : Nat) :
    Event.kill c ∈ closeEvents upd l ↔
      ∃ e ∈ l, upd.get e.1 = none ∧ (c = e.2.collkillchan ∨ c = e.2.viewkillchan) := by
  unfold closeEvents
  simp only [List.mem_flatMap]
  constructor
  · rintro ⟨e, he, hm⟩
    cases h : upd.get e.1 with
    | none =>
      rw [h] at hm
      simp at hm
      exact ⟨e, he, h, hm⟩
    | some v =>
      rw [h] at hm
      simp at hm
  · rintro ⟨e, he, hn, hc⟩
    refine ⟨e, he, ?_⟩
    rw [hn]
    simpa using hc

theorem closeEvents_nodup (upd : GoMap SensorConfig) (l : GoMap Sensor)
    (hn : (l.flatMap (fun e => [e.2.collkillchan, e.2.viewkillchan, e.2.viewchan])).Nodup) :
    (closeEvents upd l).Nodup := by
  induction l with
  | nil => simp [closeEvents]
  | cons e es ih =>
    simp only [List.flatMap_cons] at hn
    rw [List.nodup_append] at hn
    obtain ⟨h1, h2, h3⟩ := hn
    have hes := ih h2
    have hcons : closeEvents upd (e :: es) =
        (match upd.get e.1 with
          | none => [Event.kill e.2.collkillchan, Event.kill e.2.viewkillchan]
          | some _ => []) ++ closeEvents upd es := by
      simp [closeEvents, List.flatMap_cons]
    rw [hcons]
    cases h : upd.get e.1 with
    | some v => simpa using hes
    | none =>
      have hd : ∀ c, (c = e.2.collkillchan ∨ c = e.2.viewkillchan) →
          Event.kill c ∉ closeEvents upd es := by
        intro c hc hm
        obtain ⟨x, hx, -, hxc⟩ := (mem_closeEvents upd es c).mp hm
        have hin : c ∈ es.flatMap
            (fun e => [e.2.collkillchan, e.2.viewkillchan, e.2.viewchan]) := by
          rw [List.mem_flatMap]
          refine ⟨x, hx, ?_⟩
          rcases hxc with h | h <;> simp [h]
        have hin1 : c ∈ [e.2.collkillchan, e.2.viewkillchan, e.2.viewchan] := by
          rcases hc with h | h <;> simp [h]
        exact h3 hin1 hin
      have hne : e.2.collkillchan ≠ e.2.viewkillchan := by
        intro heq
        simp [heq] at h1
      simp only [List.cons_append, List.nil_append, List.nodup_cons, List.mem_cons,
        Event.kill.injEq]
      refine ⟨?_, hd _ (Or.inr rfl), hes⟩
      rintro (h4 | h4)
      · exact hne h4
      · exact hd _ (Or.inl rfl) h4

/-! ## The starting loop -/

theorem startNew_cases (src : String) (ss : GoMap Sensor) (rm : RedmonManager)
    (e : String × SensorConfig) :
    (startNew src ss rm e = rm ∧ (ss.get e.1 ≠ none ∨ ¬ knownType e.2)) ∨
    (ss.get e.1 = none ∧ knownType e.2 ∧
      ∃ kind, startNew src ss rm e = register rm (newSensor kind e.1 src e.2 rm.nextChan)) := by
  unfold startNew knownType
  cases h : ss.get e.1 with
  | some v => exact Or.inl ⟨rfl, Or.inl (by simp)⟩
  | none =>
    by_cases h1 : e.2.SensorType = "numeric"
    · exact Or.inr ⟨rfl, Or.inl h1, .numeric, by simp [h1]⟩
    · by_cases h2 : e.2.SensorType = "string"
      · exact Or.inr ⟨rfl, Or.inr h2, .string, by simp [h1, h2]⟩
      · exact Or.inl ⟨by simp [h1, h2], Or.inr (by simp [h1, h2])⟩

theorem startNew_nextChan_le (src : String) (ss : GoMap Sensor) (rm : RedmonManager)
    (e : String × SensorConfig) : rm.nextChan ≤ (startNew src ss rm e).nextChan := by
  rcases startNew_cases src ss rm e with ⟨h, -⟩ | ⟨-, -, kind, h⟩
  · rw [h]
  · rw [h]
    simp [register]

theorem startLoop_nextChan_le (src : String) (ss : GoMap Sensor) (l : GoMap SensorConfig)
    (rm : RedmonManager) : rm.nextChan ≤ (l.foldl (startNew src ss) rm).nextChan := by
  induction l generalizing rm with
  | nil => exact Nat.le_refl _
  | cons e es ih =>
    rw [List.foldl_cons]
    exact Nat.le_trans (startNew_nextChan_le src ss rm e) (ih _)

theorem startLoop_count_kill (src : String) (ss : GoMap Sensor) (l : GoMap SensorConfig)
    (rm : RedmonManager) (c : Nat) :
    (l.foldl (startNew src ss) rm).log.count (Event.kill c) = rm.log.count (Event.kill c) := by
  induction l generalizing rm with
  | nil => rfl
  | cons e es ih =>
    rw [List.foldl_cons, ih]
    rcases startNew_cases src ss rm e with ⟨h, -⟩ | ⟨-, -, kind, h⟩
    · rw [h]
    · rw [h]
      simp [register, List.count_append, List.count_cons]

theorem mem_set {α : Type} (m : GoMap α) (k : String) (v : α) (e : String × α)
    (h : e ∈ m.set k v) : e = (k, v) ∨ e ∈ m := by
  unfold GoMap.set at h
  rcases List.mem_append.mp h with h1 | h1
  · exact Or.inr (List.mem_filter.mp h1).1
  · exact Or.inl (by simpa using h1)

theorem startLoop_mem (src : String) (ss : GoMap Sensor) (l : GoMap SensorConfig)
    (rm : RedmonManager) (e : String × Sensor)
    (h : e ∈ (l.foldl (startNew src ss) rm).sensors) :
    e ∈ rm.sensors ∨ (Fresh rm.nextChan e.2 ∧ e.2.source = src) := by
  induction l generalizing rm with
  | nil => exact Or.inl h
  | cons x xs ih =>
    rw [List.foldl_cons] at h
    have hle := startNew_nextChan_le src ss rm x
    rcases ih _ h with h1 | ⟨h1, h2⟩
    · rcases startNew_cases src ss rm x with ⟨hx, -⟩ | ⟨-, -, kind, hx⟩
      · rw [hx] at h1
        exact Or.inl h1
      · rw [hx] at h1
        rcases mem_set _ _ _ _ h1 with h3 | h3
        · refine Or.inr ?_
          rw [h3]
          simp [Fresh, newSensor]
        · exact Or.inl h3
    · refine Or.inr ⟨?_, h2⟩
      unfold Fresh at h1 ⊢
      omega

theorem startLoop_get_other (src : String) (ss : GoMap Sensor) (l : GoMap SensorConfig)
    (rm : RedmonManager) (name : String)
    (h : ss.get name ≠ none ∨ ∀ x ∈ l, x.1 = name → ¬ knownType x.2) :
    (l.foldl (startNew src ss) rm).sensors.get name = rm.sensors.get name := by
  induction l generalizing rm with
  | nil => rfl
  | cons x xs ih =>
    rw [List.foldl_cons]
    have h1 : ss.get name ≠ none ∨ ∀ y ∈ xs, y.1 = name → ¬ knownType y.2 := by
      rcases h with h | h
      · exact Or.inl h
      · exact Or.inr (fun y hy => h y (List.mem_cons_of_mem _ hy))
    rw [ih _ h1]
    rcases startNew_cases src ss rm x with ⟨hx, -⟩ | ⟨hn, hk, kind, hx⟩
    · rw [hx]
    · rw [hx]
      have hne : name ≠ x.1 := by
        rcases h with h | h
        · intro heq
          exact h (heq ▸ hn)
        · exact fun heq => h x (List.mem_cons_self _ _) heq.symm hk
      simp [register, newSensor, get_set, hne]

theorem startNew_startedAt (n : Nat) (src name : String) (ss : GoMap Sensor)
    (rm : RedmonManager) (x : String × SensorConfig) (hn : n ≤ rm.nextChan)
    (h : StartedAt n src name rm) : StartedAt n src name (startNew src ss rm x) := by
  rcases startNew_cases src ss rm x with ⟨hx, -⟩ | ⟨-, -, kind, hx⟩
  · rw [hx]
    exact h
  · rw [hx]
    by_cases hk : name = x.1
    · refine ⟨newSensor kind x.1 src x.2 rm.nextChan, ?_, rfl, ?_, hk.symm⟩
      · simp [register, newSensor, get_set, hk]
      · simp only [Fresh, newSensor]
        omega
    · obtain ⟨s, h1, h2⟩ := h
      refine ⟨s, ?_, h2⟩
      simp [register, newSensor, get_set, hk, h1]

theorem startLoop_started (n : Nat) (src name : String) (ss : GoMap Sensor)
    (l : GoMap SensorConfig) (rm : RedmonManager) (hn : n ≤ rm.nextChan)
    (h : ((∃ x ∈ l, x.1 = name ∧ knownType x.2) ∧ ss.get name = none) ∨
      StartedAt n src name rm) :
    StartedAt n src name (l.foldl (startNew src ss) rm) := by
  induction l generalizing rm with
  | nil =>
    rcases h with ⟨⟨x, hx, -⟩, -⟩ | h
    · simp at hx
    · exact h
  | cons y ys ih =>
    rw [List.foldl_cons]
    have hle := startNew_nextChan_le src ss rm y
    apply ih _ (Nat.le_trans hn hle)
    rcases h with ⟨⟨x, hx, hx1, hx2⟩, hs⟩ | h
    · rcases List.mem_cons.mp hx with h1 | h1
      · subst h1
        refine Or.inr ?_
        rcases startNew_cases src ss rm x with ⟨-, hbad⟩ | ⟨-, -, kind, hy⟩
        · rcases hbad with hbad | hbad
          · exact absurd (hx1 ▸ hs) hbad
          · exact absurd hx2 hbad
        · rw [hy]
          refine ⟨newSensor kind x.1 src x.2 rm.nextChan, ?_, rfl, ?_, hx1⟩
          · simp [register, newSensor, get_set, hx1]
          · simp only [Fresh, newSensor]
            omega
      · exact Or.inl ⟨⟨x, h1, hx1, hx2⟩, hs⟩
    · exact Or.inr (startNew_startedAt n src name ss rm y hn h)

/-! ## The enumerated records -/

theorem updatedFold_get (records : List StoredRecord) (m : GoMap SensorConfig) (name : String)
    (c : SensorConfig)
    (h : (records.foldl
      (fun m r =>
        match r with
        | .config c => m.set c.Name c
        | _ => m) m).get name = some c) :
    (StoredRecord.config c ∈ records ∧ c.Name = name) ∨ m.get name = some c := by
  induction records generalizing m with
  | nil => exact Or.inr h
  | cons r rs ih =>
    rw [List.foldl_cons] at h
    rcases ih _ h with ⟨h1, h2⟩ | h1
    · exact Or.inl ⟨List.mem_cons_of_mem _ h1, h2⟩
    · cases r with
      | getFailed => exact Or.inr h1
      | malformed => exact Or.inr h1
      | config c1 =>
        simp only [get_set] at h1
        by_cases hk : name = c1.Name
        · simp only [hk, if_true, Option.some.injEq] at h1
          subst h1
          exact Or.inl ⟨List.mem_cons_self _ _, hk.symm⟩
        · simp only [hk, if_false] at h1
          exact Or.inr h1

theorem updatedFold_none (records : List StoredRecord) (m : GoMap SensorConfig)
    (name : String) :
    (records.foldl
      (fun m r =>
        match r with
        | .config c => m.set c.Name c
        | _ => m) m).get name = none ↔
      m.get name = none ∧ ∀ c, StoredRecord.config c ∈ records → c.Name ≠ name := by
  induction records generalizing m with
  | nil => simp
  | cons r rs ih =>
    rw [List.foldl_cons, ih]
    cases r with
    | getFailed => simp
    | malformed => simp
    | config c1 =>
      simp only [get_set, List.mem_cons, StoredRecord.config.injEq]
      by_cases hk : name = c1.Name
      · simp [hk]
      · simp only [hk, if_false]
        constructor
        · rintro ⟨h1, h2⟩
          refine ⟨h1, ?_⟩
          rintro c (hc | hc)
          · rw [hc]
            exact fun h => hk h.symm
          · exact h2 c hc
        · rintro ⟨h1, h2⟩
          exact ⟨h1, fun c hc => h2 c (Or.inr hc)⟩

theorem updated_get (records : List StoredRecord) (name : String) (c : SensorConfig)
    (h : (updatedSensors records).get name = some c) :
    StoredRecord.config c ∈ records ∧ c.Name = name := by
  rcases updatedFold_get records [] name c h with h1 | h1
  · exact h1
  · simp [GoMap.get] at h1

theorem updated_none (records : List StoredRecord) (name : String) :
    (updatedSensors records).get name = none ↔
      ∀ c, StoredRecord.config c ∈ records → c.Name ≠ name := by
  unfold updatedSensors
  rw [updatedFold_none]
  simp [GoMap.get]

/-! ## One source of a reconciliation pass -/

theorem reconcileSource_eq (ord : RangeOrder) (store : Store) (rm : RedmonManager)
    (redconfig : SourceConfig) (records : List StoredRecord)
    (htype : redconfig.Stype = "redis") (hstore : store redconfig = some records) :
    reconcileSource ord store rm redconfig =
      (ord.perm (updatedSensors records)).foldl
        (startNew redconfig.Name (sourceSensors rm.sensors redconfig.Name))
        ((ord.perm (sourceSensors rm.sensors redconfig.Name)).foldl
          (closeRemoved (updatedSensors records)) rm) := by
  unfold reconcileSource
  simp [htype, hstore]

theorem get_ne_none_iff {α : Type} (m : GoMap α) (k : String) :
    m.get k ≠ none ↔ ∃ x ∈ m, x.1 = k := by
  unfold GoMap.get
  rw [Ne, List.lookup_eq_none_iff]
  simp only [not_forall]
  constructor
  · rintro ⟨x, hx, h⟩
    have h1 : k = x.1 := by simpa using h
    exact ⟨x, hx, h1.symm⟩
  · rintro ⟨x, hx, h⟩
    exact ⟨x, hx, by simp [h]⟩

theorem sourceSensors_mem (m : GoMap Sensor) (src : String) (e : String × Sensor) :
    e ∈ sourceSensors m src ↔ e ∈ m ∧ e.2.source = src := by
  simp [sourceSensors, List.mem_filter]

theorem sourceSensors_get_ne_none (m : GoMap Sensor) (src name : String) (s : Sensor)
    (h : m.get name = some s) (hs : s.source = src) : (sourceSensors m src).get name ≠ none :=
  (get_ne_none_iff _ _).mpr
    ⟨(name, s), (sourceSensors_mem m src _).mpr ⟨mem_of_get m name s h, hs⟩, rfl⟩

theorem sourceSensors_get (m : GoMap Sensor) (src name : String) (s : Sensor)
    (hn : (m.map Prod.fst).Nodup) (h : (sourceSensors m src).get name = some s) :
    m.get name = some s ∧ s.source = src := by
  have h1 := (sourceSensors_mem m src _).mp (mem_of_get _ name s h)
  exact ⟨get_of_mem m name s hn h1.1, h1.2⟩

theorem removedKey_perm (ord : RangeOrder) (upd : GoMap SensorConfig) (ss : GoMap Sensor)
    (k : String) :
    removedKey upd (ord.perm ss) k = true ↔ ss.get k ≠ none ∧ upd.get k = none := by
  rw [removedKey_iff, get_ne_none_iff]
  constructor
  · rintro ⟨⟨x, hx, h1⟩, h2⟩
    exact ⟨⟨x, (ord.isPerm ss).mem_iff.mp hx, h1⟩, h2⟩
  · rintro ⟨⟨x, hx, h1⟩, h2⟩
    exact ⟨⟨x, (ord.isPerm ss).mem_iff.mpr hx, h1⟩, h2⟩

/-- A running sensor of the source that has a record stays as it is. -/
theorem reconcile_kept (ord : RangeOrder) (store : Store) (rm : RedmonManager)
    (redconfig : SourceConfig) (records : List StoredRecord) (name : String)
    (htype : redconfig.Stype = "redis") (hstore : store redconfig = some records)
    (hrun : (sourceSensors rm.sensors redconfig.Name).get name ≠ none)
    (hrec : (updatedSensors records).get name ≠ none) :
    (reconcileSource ord store rm redconfig).sensors.get name = rm.sensors.get name := by
  rw [reconcileSource_eq ord store rm redconfig records htype hstore,
    startLoop_get_other _ _ _ _ _ (Or.inl hrun), closeLoop_get]
  have h : removedKey (updatedSensors records)
      (ord.perm (sourceSensors rm.sensors redconfig.Name)) name = false := by
    rw [Bool.eq_false_iff, Ne, removedKey_perm]
    exact fun h => hrec h.2
  simp [h]

/-- A running sensor of the source that has no record leaves the registry. -/
theorem reconcile_removed (ord : RangeOrder) (store : Store) (rm : RedmonManager)
    (redconfig : SourceConfig) (records : List StoredRecord) (name : String)
    (htype : redconfig.Stype = "redis") (hstore : store redconfig = some records)
    (hrun : (sourceSensors rm.sensors redconfig.Name).get name ≠ none)
    (hrec : (updatedSensors records).get name = none) :
    (reconcileSource ord store rm redconfig).sensors.get name = none := by
  rw [reconcileSource_eq ord store rm redconfig records htype hstore,
    startLoop_get_other _ _ _ _ _ (Or.inl hrun), closeLoop_get]
  have h : removedKey (updatedSensors records)
      (ord.perm (sourceSensors rm.sensors redconfig.Name)) name = true :=
    (removedKey_perm _ _ _ _).mpr ⟨hrun, hrec⟩
  simp [h]

/-- A name with neither a running sensor of the source nor a record is not
touched. -/
theorem reconcile_untouched (ord : RangeOrder) (store : Store) (rm : RedmonManager)
    (redconfig : SourceConfig) (records : List StoredRecord) (name : String)
    (htype : redconfig.Stype = "redis") (hstore : store redconfig = some records)
    (hrun : (sourceSensors rm.sensors redconfig.Name).get name = none)
    (hrec : (updatedSensors records).get name = none) :
    (reconcileSource ord store rm redconfig).sensors.get name = rm.sensors.get name := by
  have hno : ∀ x ∈ ord.perm (updatedSensors records), x.1 = name → ¬ knownType x.2 := by
    intro x hx hxn
    have hx1 := (ord.isPerm _).mem_iff.mp hx
    exact absurd hrec ((get_ne_none_iff _ _).mpr ⟨x, hx1, hxn⟩)
  rw [reconcileSource_eq ord store rm redconfig records htype hstore,
    startLoop_get_other _ _ _ _ _ (Or.inr hno), closeLoop_get]
  have h : removedKey (updatedSensors records)
      (ord.perm (sourceSensors rm.sensors redconfig.Name)) name = false := by
    rw [Bool.eq_false_iff, Ne, removedKey_perm]
    exact fun h => h.1 hrun
  simp [h]

/-- A record of a known kind without a running sensor of the source gets a new
sensor. -/
theorem reconcile_started (ord : RangeOrder) (store : Store) (rm : RedmonManager)
    (redconfig : SourceConfig) (records : List StoredRecord) (name : String)
    (c : SensorConfig)
    (htype : redconfig.Stype = "redis") (hstore : store redconfig = some records)
    (hrun : (sourceSensors rm.sensors redconfig.Name).get name = none)
    (hrec : (updatedSensors records).get name = some c) (hk : knownType c) :
    StartedAt rm.nextChan redconfig.Name name (reconcileSource ord store rm redconfig) := by
  rw [reconcileSource_eq ord store rm redconfig records htype hstore]
  apply startLoop_started
  · rw [closeLoop_nextChan]
  · refine Or.inl ⟨⟨(name, c), ?_, rfl, hk⟩, hrun⟩
    exact (ord.isPerm _).mem_iff.mpr (mem_of_get _ name c hrec)

/-- The effect of the step for one reachable source on the registry, name by
name, when every key decodes to a record of kind numeric or string. -/
theorem reconcile_names (ord : RangeOrder) (store : Store) (rm : RedmonManager)
    (redconfig : SourceConfig) (cfgs : List SensorConfig)
    (hkeys : (rm.sensors.map Prod.fst).Nodup)
    (htype : redconfig.Stype = "redis")
    (hstore : store redconfig = some (cfgs.map StoredRecord.config))
    (hkind : ∀ c ∈ cfgs, c.SensorType = "numeric" ∨ c.SensorType = "string") :
    (∀ name : String,
      (∃ s, (reconcileSource ord store rm redconfig).sensors.get name = some s ∧
        s.source = redconfig.Name) ↔ name ∈ cfgs.map (fun c => c.Name)) ∧
    (∀ (name : String) (s : Sensor), rm.sensors.get name = some s →
      s.source = redconfig.Name → name ∈ cfgs.map (fun c => c.Name) →
      (reconcileSource ord store rm redconfig).sensors.get name = some s) ∧
    (∀ (name : String) (s : Sensor), rm.sensors.get name = some s →
      s.source = redconfig.Name → name ∉ cfgs.map (fun c => c.Name) →
      (reconcileSource ord store rm redconfig).sensors.get name = none) ∧
    (∀ name : String, name ∈ cfgs.map (fun c => c.Name) →
      (∀ s, rm.sensors.get name = some s → s.source ≠ redconfig.Name) →
      ∃ s, (reconcileSource ord store rm redconfig).sensors.get name = some s ∧
        s.source = redconfig.Name ∧ s.name = name ∧ rm.nextChan ≤ s.collkillchan ∧
        rm.nextChan ≤ s.viewkillchan ∧ rm.nextChan ≤ s.viewchan) := by
  have hnone : ∀ name : String, name ∉ cfgs.map (fun c => c.Name) →
      (updatedSensors (cfgs.map StoredRecord.config)).get name = none := by
    intro name hn
    rw [updated_none]
    intro c hc heq
    apply hn
    simp only [List.mem_map, StoredRecord.config.injEq] at hc
    obtain ⟨c1, hc1, rfl⟩ := hc
    exact List.mem_map.mpr ⟨c1, hc1, heq⟩
  have hsome : ∀ name : String, name ∈ cfgs.map (fun c => c.Name) →
      ∃ c, (updatedSensors (cfgs.map StoredRecord.config)).get name = some c ∧
        knownType c := by
    intro name hn
    obtain ⟨c0, hc0, hname⟩ := List.mem_map.mp hn
    cases hg : (updatedSensors (cfgs.map StoredRecord.config)).get name with
    | none =>
      rw [updated_none] at hg
      exact absurd hname (hg c0 (List.mem_map.mpr ⟨c0, hc0, rfl⟩))
    | some c =>
      refine ⟨c, rfl, ?_⟩
      have h1 := (updated_get _ name c hg).1
      simp only [List.mem_map, StoredRecord.config.injEq] at h1
      obtain ⟨c1, hc1, rfl⟩ := h1
      exact hkind c1 hc1
  have hstarted : ∀ name : String, name ∈ cfgs.map (fun c => c.Name) →
      (sourceSensors rm.sensors redconfig.Name).get name = none →
      StartedAt rm.nextChan redconfig.Name name (reconcileSource ord store rm redconfig) := by
    intro name hn hrun
    obtain ⟨c, hc, hk⟩ := hsome name hn
    exact reconcile_started ord store rm redconfig _ name c htype hstore hrun hc hk
  refine ⟨?_, ?_, ?_, ?_⟩
  · intro name
    constructor
    · rintro ⟨s, hs, hsrc⟩
      by_contra hn
      have hrec := hnone name hn
      by_cases hrun : (sourceSensors rm.sensors redconfig.Name).get name = none
      · rw [reconcile_untouched ord store rm redconfig _ name htype hstore hrun hrec] at hs
        exact sourceSensors_get_ne_none _ _ _ s hs hsrc hrun
      · rw [reconcile_removed ord store rm redconfig _ name htype hstore hrun hrec] at hs
        simp at hs
    · intro hn
      cases hrun : (sourceSensors rm.sensors redconfig.Name).get name with
      | none =>
        obtain ⟨s, h1, h2, -⟩ := hstarted name hn hrun
        exact ⟨s, h1, h2⟩
      | some s0 =>
        obtain ⟨c, hc, -⟩ := hsome name hn
        obtain ⟨h1, h2⟩ := sourceSensors_get _ _ _ s0 hkeys hrun
        refine ⟨s0, ?_, h2⟩
        rw [reconcile_kept ord store rm redconfig _ name htype hstore (by simp [hrun])
          (by simp [hc])]
        exact h1
  · intro name s hs hsrc hn
    obtain ⟨c, hc, -⟩ := hsome name hn
    rw [reconcile_kept ord store rm redconfig _ name htype hstore
      (sourceSensors_get_ne_none _ _ _ s hs hsrc) (by simp [hc])]
    exact hs
  · intro name s hs hsrc hn
    exact reconcile_removed ord store rm redconfig _ name htype hstore
      (sourceSensors_get_ne_none _ _ _ s hs hsrc) (hnone name hn)
  · intro name hn hno
    have hrun : (sourceSensors rm.sensors redconfig.Name).get name = none := by
      cases hrun : (sourceSensors rm.sensors redconfig.Name).get name with
      | none => rfl
      | some s0 =>
        obtain ⟨h1, h2⟩ := sourceSensors_get _ _ _ s0 hkeys hrun
        exact absurd h2 (hno s0 h1)
    obtain ⟨s, h1, h2, h3, h4⟩ := hstarted name hn hrun
    exact ⟨s, h1, h2, h4, h3.1, h3.2.1, h3.2.2⟩

/-! ## Kill signals -/

theorem chans_nodup_filter (m : GoMap Sensor) (p : String × Sensor → Bool)
    (h : (m.flatMap (fun e => [e.2.collkillchan, e.2.viewkillchan, e.2.viewchan])).Nodup) :
    ((m.filter p).flatMap
      (fun e => [e.2.collkillchan, e.2.viewkillchan, e.2.viewchan])).Nodup := by
  rw [List.nodup_flatMap] at h ⊢
  exact ⟨fun x hx => h.1 x (List.mem_filter.mp hx).1, h.2.sublist (List.filter_sublist _)⟩

theorem chans_nodup_perm (ord : RangeOrder) (m : GoMap Sensor)
    (h : (m.flatMap (fun e => [e.2.collkillchan, e.2.viewkillchan, e.2.viewchan])).Nodup) :
    ((ord.perm m).flatMap
      (fun e => [e.2.collkillchan, e.2.viewkillchan, e.2.viewchan])).Nodup :=
  ((ord.isPerm m).flatMap_right _).nodup_iff.mpr h

/-- Two registry entries that share a channel are the same entry. -/
theorem chan_owner_unique (m : GoMap Sensor)
    (h : (m.flatMap (fun e => [e.2.collkillchan, e.2.viewkillchan, e.2.viewchan])).Nodup)
    (e1 e2 : String × Sensor) (h1 : e1 ∈ m) (h2 : e2 ∈ m) (c : Nat)
    (hc1 : c ∈ [e1.2.collkillchan, e1.2.viewkillchan, e1.2.viewchan])
    (hc2 : c ∈ [e2.2.collkillchan, e2.2.viewkillchan, e2.2.viewchan]) : e1 = e2 := by
  rw [List.nodup_flatMap] at h
  by_contra hne
  have hsym : Symmetric (fun a b : String × Sensor =>
      List.Disjoint [a.2.collkillchan, a.2.viewkillchan, a.2.viewchan]
        [b.2.collkillchan, b.2.viewkillchan, b.2.viewchan]) :=
    fun a b hab => hab.symm
  exact (List.Pairwise.forall hsym h.2 h1 h2 hne) hc1 hc2

/-- The kill counts after one source, in terms of the closing loop. -/
theorem reconcile_count_kill (ord : RangeOrder) (store : Store) (rm : RedmonManager)
    (redconfig : SourceConfig) (records : List StoredRecord) (c : Nat)
    (htype : redconfig.Stype = "redis") (hstore : store redconfig = some records) :
    (reconcileSource ord store rm redconfig).log.count (Event.kill c) =
      rm.log.count (Event.kill c) +
        (closeEvents (updatedSensors records)
          (ord.perm (sourceSensors rm.sensors redconfig.Name))).count (Event.kill c) := by
  rw [reconcileSource_eq ord store rm redconfig records htype hstore, startLoop_count_kill,
    closeLoop_log, List.count_append]

theorem reconcileSource_cases (ord : RangeOrder) (store : Store) (rm : RedmonManager)
    (redconfig : SourceConfig) :
    reconcileSource ord store rm redconfig = rm ∨
      ∃ records, redconfig.Stype = "redis" ∧ store redconfig = some records := by
  unfold reconcileSource
  by_cases htype : redconfig.Stype = "redis"
  · cases hstore : store redconfig with
    | none => exact Or.inl (by simp [htype])
    | some records => exact Or.inr ⟨records, htype, rfl⟩
  · exact Or.inl (by simp [htype])

theorem reconcile_mem (ord : RangeOrder) (store : Store) (rm : RedmonManager)
    (redconfig : SourceConfig) (records : List StoredRecord) (e : String × Sensor)
    (htype : redconfig.Stype = "redis") (hstore : store redconfig = some records)
    (h : e ∈ (reconcileSource ord store rm redconfig).sensors) :
    (e ∈ rm.sensors ∧ removedKey (updatedSensors records)
        (ord.perm (sourceSensors rm.sensors redconfig.Name)) e.1 = false) ∨
      Fresh rm.nextChan e.2 := by
  rw [reconcileSource_eq ord store rm redconfig records htype hstore] at h
  rcases startLoop_mem _ _ _ _ e h with h1 | ⟨h1, -⟩
  · rw [closeLoop_sensors, List.mem_filter] at h1
    exact Or.inl ⟨h1.1, by simpa using h1.2⟩
  · rw [closeLoop_nextChan] at h1
    exact Or.inr h1

theorem reconcile_nextChan_le (ord : RangeOrder) (store : Store) (rm : RedmonManager)
    (redconfig : SourceConfig) :
    rm.nextChan ≤ (reconcileSource ord store rm redconfig).nextChan := by
  rcases reconcileSource_cases ord store rm redconfig with h | ⟨records, htype, hstore⟩
  · rw [h]
  · rw [reconcileSource_eq ord store rm redconfig records htype hstore]
    have h := startLoop_nextChan_le redconfig.Name (sourceSensors rm.sensors redconfig.Name)
      (ord.perm (updatedSensors records))
      ((ord.perm (sourceSensors rm.sensors redconfig.Name)).foldl
        (closeRemoved (updatedSensors records)) rm)
    rw [closeLoop_nextChan] at h
    exact h

/-- One source leaves an unowned channel unowned and sends nothing on it. -/
theorem reconcile_unowned (ord : RangeOrder) (store : Store) (rm : RedmonManager)
    (redconfig : SourceConfig) (c : Nat) (h : Unowned c rm) :
    Unowned c (reconcileSource ord store rm redconfig) ∧
      (reconcileSource ord store rm redconfig).log.count (Event.kill c) =
        rm.log.count (Event.kill c) := by
  rcases reconcileSource_cases ord store rm redconfig with h1 | ⟨records, htype, hstore⟩
  · rw [h1]
    exact ⟨h, rfl⟩
  · constructor
    · refine ⟨Nat.lt_of_lt_of_le h.1 (reconcile_nextChan_le ord store rm redconfig), ?_⟩
      intro e he
      rcases reconcile_mem ord store rm redconfig records e htype hstore he with h2 | h2
      · exact h.2 e h2.1
      · have := h.1
        unfold Fresh at h2
        constructor <;> omega
    · rw [reconcile_count_kill ord store rm redconfig records c htype hstore]
      have hnot : Event.kill c ∉ closeEvents (updatedSensors records)
          (ord.perm (sourceSensors rm.sensors redconfig.Name)) := by
        intro hm
        obtain ⟨e, he, -, hc⟩ := (mem_closeEvents _ _ c).mp hm
        have he1 := ((sourceSensors_mem _ _ _).mp ((ord.isPerm _).mem_iff.mp he)).1
        have := h.2 e he1
        rcases hc with hc | hc
        · exact this.1 hc.symm
        · exact this.2 hc.symm
      rw [List.count_eq_zero_of_not_mem hnot]
      rfl

theorem reconcileAll_unowned (ord : RangeOrder) (store : Store) (l : List SourceConfig)
    (rm : RedmonManager) (c : Nat) (h : Unowned c rm) :
    Unowned c (l.foldl (reconcileSource ord store) rm) ∧
      (l.foldl (reconcileSource ord store) rm).log.count (Event.kill c) =
        rm.log.count (Event.kill c) := by
  induction l generalizing rm with
  | nil => exact ⟨h, rfl⟩
  | cons x xs ih =>
    rw [List.foldl_cons]
    obtain ⟨h1, h2⟩ := reconcile_unowned ord store rm x c h
    obtain ⟨h3, h4⟩ := ih _ h1
    exact ⟨h3, h4.trans h2⟩

theorem updateViews_frame (ord : RangeOrder) (rm r : RedmonManager)
    (h : UpdateViews ord rm = some r) :
    r.sensors = rm.sensors ∧ r.nextChan = rm.nextChan ∧
      ∀ c, r.log.count (Event.kill c) = rm.log.count (Event.kill c) := by
  unfold UpdateViews at h
  simp only at h
  split at h
  · cases h
    exact ⟨rfl, rfl, fun _ => rfl⟩
  · cases h
  · cases h
    refine ⟨rfl, rfl, fun c => ?_⟩
    have hz : ∀ (es : GoMap Sensor) (v : String),
        List.count (Event.kill c) (es.map (fun e => Event.view e.2.viewchan v)) = 0 := by
      intro es v
      apply List.count_eq_zero_of_not_mem
      simp
    simp only [List.count_append, hz, Nat.add_zero]

theorem pass_unowned (ord : RangeOrder) (store : Store) (rm r : RedmonManager) (c : Nat)
    (h : Unowned c rm) (hr : UpdateAutomaticSensors ord store rm = some r) :
    Unowned c r ∧ r.log.count (Event.kill c) = rm.log.count (Event.kill c) := by
  unfold UpdateAutomaticSensors at hr
  simp only [Option.map_eq_some'] at hr
  obtain ⟨r1, hr1, rfl⟩ := hr
  obtain ⟨h1, h2, h3⟩ := updateViews_frame ord _ r1 hr1
  have h0 : Unowned c { rm with isConfChange := true } := h
  obtain ⟨h4, h5⟩ := reconcileAll_unowned ord store rm.config { rm with isConfChange := true } c h0
  refine ⟨?_, ?_⟩
  · unfold Unowned at h4 ⊢
    simp only
    rw [h1, h2]
    exact h4
  · simp only
    rw [h3 c, h5]

theorem passes_unowned (ord : RangeOrder) (stores : List Store) (rm r : RedmonManager)
    (c : Nat) (h : Unowned c rm) (hr : runPasses ord stores rm = some r) :
    r.log.count (Event.kill c) = rm.log.count (Event.kill c) := by
  induction stores generalizing rm with
  | nil =>
    simp only [runPasses, Option.some.injEq] at hr
    rw [hr]
  | cons store rest ih =>
    rw [runPasses] at hr
    cases h1 : UpdateAutomaticSensors ord store rm with
    | none => simp [h1] at hr
    | some rm1 =>
      simp only [h1] at hr
      obtain ⟨h2, h3⟩ := pass_unowned ord store rm rm1 c h h1
      rw [ih rm1 h2 hr, h3]

/-! ## The registry invariant -/

theorem wf_filter (rm : RedmonManager) (p : String × Sensor → Bool) (h : RegistryWF rm) :
    RegistryWF { rm with sensors := rm.sensors.filter p } := by
  obtain ⟨h1, h2, h3⟩ := h
  refine ⟨?_, chans_nodup_filter _ _ h2, fun e he => h3 e (List.mem_filter.mp he).1⟩
  exact List.Nodup.sublist ((List.filter_sublist _).map _) h1

theorem closeLoop_wf (upd : GoMap SensorConfig) (l : GoMap Sensor) (rm : RedmonManager)
    (h : RegistryWF rm) : RegistryWF (l.foldl (closeRemoved upd) rm) := by
  have h1 := wf_filter rm (fun e => !removedKey upd l e.1) h
  unfold RegistryWF at h1 ⊢
  rw [closeLoop_sensors, closeLoop_nextChan]
  exact h1

theorem register_wf (rm : RedmonManager) (kind : SensorKind) (name src : String)
    (c : SensorConfig) (h : RegistryWF rm) :
    RegistryWF (register rm (newSensor kind name src c rm.nextChan)) := by
  obtain ⟨h1, h2, h3⟩ := wf_filter rm (fun e => e.1 != name) h
  simp only at h1 h2 h3
  unfold RegistryWF register GoMap.set
  simp only [newSensor]
  refine ⟨?_, ?_, ?_⟩
  · rw [List.map_append, List.nodup_append]
    refine ⟨h1, by simp, ?_⟩
    intro k hk hk1
    simp only [List.map_cons, List.map_nil, List.mem_singleton] at hk1
    obtain ⟨e, he, rfl⟩ := List.mem_map.mp hk
    have := (List.mem_filter.mp he).2
    simp [hk1] at this
  · rw [List.flatMap_append, List.nodup_append]
    refine ⟨h2, by simp, ?_⟩
    intro d hd hd1
    obtain ⟨e, he, hde⟩ := List.mem_flatMap.mp hd
    have hb := h3 e he
    simp only [List.flatMap_cons, List.flatMap_nil, List.append_nil, List.mem_cons,
      List.mem_singleton, List.not_mem_nil, or_false] at hd1
    simp only [List.mem_cons, List.mem_singleton, List.not_mem_nil, or_false] at hde
    omega
  · intro e he
    rcases List.mem_append.mp he with he1 | he1
    · have hb := h3 e he1
      omega
    · simp only [List.mem_singleton] at he1
      subst he1
      simp only
      omega

theorem startLoop_wf (src : String) (ss : GoMap Sensor) (l : GoMap SensorConfig)
    (rm : RedmonManager) (h : RegistryWF rm) : RegistryWF (l.foldl (startNew src ss) rm) := by
  induction l generalizing rm with
  | nil => exact h
  | cons x xs ih =>
    rw [List.foldl_cons]
    apply ih
    rcases startNew_cases src ss rm x with ⟨hx, -⟩ | ⟨-, -, kind, hx⟩
    · rw [hx]
      exact h
    · rw [hx]
      exact register_wf rm kind x.1 src x.2 h

/-- The registry invariant holds for the empty registry and is kept by every
step of a reconciliation pass. -/
theorem reconcile_wf (ord : RangeOrder) (store : Store) (rm : RedmonManager)
    (redconfig : SourceConfig) (h : RegistryWF rm) :
    RegistryWF (reconcileSource ord store rm redconfig) := by
  rcases reconcileSource_cases ord store rm redconfig with h1 | ⟨records, htype, hstore⟩
  · rw [h1]
    exact h
  · rw [reconcileSource_eq ord store rm redconfig records htype hstore]
    exact startLoop_wf _ _ _ _ (closeLoop_wf _ _ _ h)

theorem pass_wf (ord : RangeOrder) (store : Store) (rm r : RedmonManager)
    (h : RegistryWF rm) (hr : UpdateAutomaticSensors ord store rm = some r) :
    RegistryWF r := by
  unfold UpdateAutomaticSensors at hr
  simp only [Option.map_eq_some'] at hr
  obtain ⟨r1, hr1, rfl⟩ := hr
  obtain ⟨h1, h2, -⟩ := updateViews_frame ord _ r1 hr1
  have hall : ∀ (l : List SourceConfig) (m : RedmonManager), RegistryWF m →
      RegistryWF (l.foldl (reconcileSource ord store) m) := by
    intro l
    induction l with
    | nil => exact fun m hm => hm
    | cons x xs ih => exact fun m hm => ih _ (reconcile_wf ord store m x hm)
  have h0 : RegistryWF { rm with isConfChange := true } := h
  have h3 := hall rm.config _ h0
  unfold RegistryWF at h3 ⊢
  simp only
  rw [h1, h2]
  exact h3

/-! ## Reconciliation -/

/-- The step of a pass that processes one reachable source whose keys all decode
to records of kind numeric or string converges for that source.  After the step,
the names under which the registry holds a sensor bound to the source are
exactly the record names; a sensor of the source that has a record is the same
sensor as before, one that has none is gone, and a record without a running
sensor of the source has a sensor made during the step.  When the source is the
only configured one, the registry that `UpdateAutomaticSensors` returns has the
same names.  This is a statement about one step: what the steps for the other
sources of a pass do to these sensors is not covered. -/
theorem reconcile_converges (ord : RangeOrder) (store : Store) (rm : RedmonManager)
    (redconfig : SourceConfig) (cfgs : List SensorConfig)
    (hkeys : (rm.sensors.map Prod.fst).Nodup)
    (htype : redconfig.Stype = "redis")
    (hstore : store redconfig = some (cfgs.map StoredRecord.config))
    (hkind : ∀ c ∈ cfgs, c.SensorType = "numeric" ∨ c.SensorType = "string") :
    (∀ name : String,
      (∃ s, (reconcileSource ord store rm redconfig).sensors.get name = some s ∧
        s.source = redconfig.Name) ↔ name ∈ cfgs.map (fun c => c.Name)) ∧
    (∀ (name : String) (s : Sensor), rm.sensors.get name = some s →
      s.source = redconfig.Name → name ∈ cfgs.map (fun c => c.Name) →
      (reconcileSource ord store rm redconfig).sensors.get name = some s) ∧
    (∀ (name : String) (s : Sensor), rm.sensors.get name = some s →
      s.source = redconfig.Name → name ∉ cfgs.map (fun c => c.Name) →
      (reconcileSource ord store rm redconfig).sensors.get name = none) ∧
    (∀ name : String, name ∈ cfgs.map (fun c => c.Name) →
      (∀ s, rm.sensors.get name = some s → s.source ≠ redconfig.Name) →
      ∃ s, (reconcileSource ord store rm redconfig).sensors.get name = some s ∧
        s.source = redconfig.Name ∧ s.name = name ∧ rm.nextChan ≤ s.collkillchan ∧
        rm.nextChan ≤ s.viewkillchan ∧ rm.nextChan ≤ s.viewchan) ∧
    (∀ r : RedmonManager, rm.config = [redconfig] →
      UpdateAutomaticSensors ord store rm = some r →
      ∀ name : String,
        (∃ s, r.sensors.get name = some s ∧ s.source = redconfig.Name) ↔
          name ∈ cfgs.map (fun c => c.Name)) := by
  obtain ⟨h1, h2, h3, h4⟩ :=
    reconcile_names ord store rm redconfig cfgs hkeys htype hstore hkind
  refine ⟨h1, h2, h3, h4, ?_⟩
  intro r hcfg hr
  unfold UpdateAutomaticSensors at hr
  simp only [Option.map_eq_some', hcfg, List.foldl_cons, List.foldl_nil] at hr
  obtain ⟨r1, hr1, rfl⟩ := hr
  obtain ⟨hs, -, -⟩ := updateViews_frame ord _ r1 hr1
  simp only
  rw [hs]
  exact (reconcile_names ord store { rm with config := [redconfig], isConfChange := true }
    redconfig cfgs hkeys htype hstore hkind).1

/-- Instance of `reconcile_converges`: running `A`, `B`, `C` and records `B`, `C`,
`D` give `B`, `C`, `D`, with `B` and `C` the sensors they were and `D` new. -/
theorem reconcile_converges_witness :
    (∀ name : String,
      (∃ s, (reconcileSource RangeOrder.listed bcdStore abcManager redmonSource).sensors.get
          name = some s ∧ s.source = redmonSource.Name) ↔
        name ∈ [recordNamed "B", recordNamed "C", recordNamed "D"].map (fun c => c.Name)) ∧
    (reconcileSource RangeOrder.listed bcdStore abcManager redmonSource).sensors =
      [("B", newSensor .numeric "B" "redmon" (recordNamed "B") 3),
       ("C", newSensor .numeric "C" "redmon" (recordNamed "C") 6),
       ("D", newSensor .numeric "D" "redmon" (recordNamed "D") 9)] ∧
    (reconcileSource RangeOrder.listed bcdStore abcManager redmonSource).log =
      [Event.kill 0, Event.kill 1, Event.start "D" 9 10 11] ∧
    (UpdateAutomaticSensors RangeOrder.listed bcdStore abcManager).map (fun r => r.sensors) =
      some [("B", newSensor .numeric "B" "redmon" (recordNamed "B") 3),
        ("C", newSensor .numeric "C" "redmon" (recordNamed "C") 6),
        ("D", newSensor .numeric "D" "redmon" (recordNamed "D") 9)] :=
  ⟨(reconcile_converges RangeOrder.listed bcdStore abcManager redmonSource
    [recordNamed "B", recordNamed "C", recordNamed "D"] (by decide) (by decide) (by decide)
    (by decide)).1, by decide, by decide, by decide⟩

/-- C9 fails on the code: with two sources that each hold a record named `x`, the
first pass leaves under `x` the sensor started for the second source (channels 3
to 5); the second pass, on the same stores, starts two more sensors and leaves
under `x` a different one (channels 9 to 11), without sending any kill signal to
the sensors it displaced. -/
theorem second_pass_restarts_same_name_sensor :
    ((UpdateAutomaticSensors RangeOrder.listed sameNameStore twoSourceManager).map
      (fun rm1 => (rm1.sensors, rm1.nextChan, rm1.log))) =
      some ([("x", newSensor .numeric "x" "backup" (recordNamed "x") 3)], 6,
        [Event.start "x" 0 1 2, Event.start "x" 3 4 5, Event.view 5 "main"]) ∧
    ((runPasses RangeOrder.listed [sameNameStore, sameNameStore] twoSourceManager).map
      (fun rm2 => (rm2.sensors, rm2.nextChan, rm2.log))) =
      some ([("x", newSensor .numeric "x" "backup" (recordNamed "x") 9)], 12,
        [Event.start "x" 0 1 2, Event.start "x" 3 4 5, Event.view 5 "main",
         Event.start "x" 6 7 8, Event.start "x" 9 10 11, Event.view 11 "main"]) := by
  decide

theorem kill_needs_no_record (ord : RangeOrder) (rm : RedmonManager) (src : String)
    (upd : GoMap SensorConfig) (name : String) (s : Sensor) (c : Nat)
    (hch : (rm.sensors.flatMap
      (fun e => [e.2.collkillchan, e.2.viewkillchan, e.2.viewchan])).Nodup)
    (hmem : (name, s) ∈ rm.sensors) (hc : c = s.collkillchan ∨ c = s.viewkillchan)
    (hk : Event.kill c ∈ closeEvents upd (ord.perm (sourceSensors rm.sensors src))) :
    upd.get name = none := by
  obtain ⟨e, he, hn, hce⟩ := (mem_closeEvents _ _ c).mp hk
  have he1 := ((sourceSensors_mem _ _ _).mp ((ord.isPerm _).mem_iff.mp he)).1
  have heq : e = (name, s) := by
    apply chan_owner_unique rm.sensors hch e (name, s) he1 hmem c
    · rcases hce with h | h <;> simp [h]
    · rcases hc with h | h <;> simp [h]
  rw [heq] at hn
  exact hn

/-- Kill delivery by the one step of a reconciliation pass that processes a
reachable source, on the well-formed registry the step starts from (a sensor
that the step for an earlier source has written over is not in it).  A running
sensor of the source
without a record gets exactly one send on its collector kill channel and exactly
one on its view kill channel and leaves the registry; neither the rest of the
pass nor any later pass (whatever the stores hold, whatever the iteration
orders) sends on either channel again.  A registered sensor whose name has a
record gets no send on its kill channels. -/
theorem kill_delivery (ord ord2 : RangeOrder) (store : Store) (rm : RedmonManager)
    (redconfig : SourceConfig) (records : List StoredRecord)
    (hwf : RegistryWF rm) (htype : redconfig.Stype = "redis")
    (hstore : store redconfig = some records) :
    (∀ (name : String) (s : Sensor), rm.sensors.get name = some s →
      s.source = redconfig.Name →
      (∀ c, StoredRecord.config c ∈ records → c.Name ≠ name) →
      (reconcileSource ord store rm redconfig).log.count (Event.kill s.collkillchan) =
        rm.log.count (Event.kill s.collkillchan) + 1 ∧
      (reconcileSource ord store rm redconfig).log.count (Event.kill s.viewkillchan) =
        rm.log.count (Event.kill s.viewkillchan) + 1 ∧
      (reconcileSource ord store rm redconfig).sensors.get name = none ∧
      ∀ rest : List SourceConfig,
        (rest.foldl (reconcileSource ord store)
          (reconcileSource ord store rm redconfig)).log.count (Event.kill s.collkillchan) =
          rm.log.count (Event.kill s.collkillchan) + 1 ∧
        (rest.foldl (reconcileSource ord store)
          (reconcileSource ord store rm redconfig)).log.count (Event.kill s.viewkillchan) =
          rm.log.count (Event.kill s.viewkillchan) + 1 ∧
        ∀ (r1 : RedmonManager) (stores : List Store) (rmF : RedmonManager),
          UpdateViews ord (rest.foldl (reconcileSource ord store)
            (reconcileSource ord store rm redconfig)) = some r1 →
          runPasses ord2 stores { r1 with isConfChange := false } = some rmF →
          rmF.log.count (Event.kill s.collkillchan) =
            rm.log.count (Event.kill s.collkillchan) + 1 ∧
          rmF.log.count (Event.kill s.viewkillchan) =
            rm.log.count (Event.kill s.viewkillchan) + 1) ∧
    (∀ (name : String) (s : Sensor) (c : SensorConfig), rm.sensors.get name = some s →
      StoredRecord.config c ∈ records → c.Name = name →
      (reconcileSource ord store rm redconfig).log.count (Event.kill s.collkillchan) =
        rm.log.count (Event.kill s.collkillchan) ∧
      (reconcileSource ord store rm redconfig).log.count (Event.kill s.viewkillchan) =
        rm.log.count (Event.kill s.viewkillchan)) := by
  obtain ⟨hkeys, hch, hold⟩ := hwf
  constructor
  · intro name s hs hsrc hno
    have hmem := mem_of_get _ name s hs
    have hupd : (updatedSensors records).get name = none := (updated_none _ _).mpr hno
    have hrun := sourceSensors_get_ne_none _ _ _ s hs hsrc
    have hss : (name, s) ∈ ord.perm (sourceSensors rm.sensors redconfig.Name) :=
      (ord.isPerm _).mem_iff.mpr ((sourceSensors_mem _ _ _).mpr ⟨hmem, hsrc⟩)
    have hnd : (closeEvents (updatedSensors records)
        (ord.perm (sourceSensors rm.sensors redconfig.Name))).Nodup :=
      closeEvents_nodup _ _ (chans_nodup_perm ord _ (chans_nodup_filter _ _ hch))
    have hone : ∀ c, (c = s.collkillchan ∨ c = s.viewkillchan) →
        (reconcileSource ord store rm redconfig).log.count (Event.kill c) =
          rm.log.count (Event.kill c) + 1 := by
      intro c hc
      rw [reconcile_count_kill ord store rm redconfig records c htype hstore,
        List.count_eq_one_of_mem hnd]
      exact (mem_closeEvents _ _ c).mpr ⟨(name, s), hss, hupd, hc⟩
    have hun : ∀ c, (c = s.collkillchan ∨ c = s.viewkillchan) →
        Unowned c (reconcileSource ord store rm redconfig) := by
      intro c hc
      have hlt : c < rm.nextChan := by
        have := hold (name, s) hmem
        rcases hc with h | h <;> rw [h]
        · exact this.1
        · exact this.2.1
      refine ⟨Nat.lt_of_lt_of_le hlt (reconcile_nextChan_le ord store rm redconfig), ?_⟩
      intro e he
      rcases reconcile_mem ord store rm redconfig records e htype hstore he with h2 | h2
      · have hne : ∀ d, d ∈ [e.2.collkillchan, e.2.viewkillchan, e.2.viewchan] → d ≠ c := by
          intro d hd hdc
          have heq : e = (name, s) := by
            apply chan_owner_unique rm.sensors hch e (name, s) h2.1 hmem c
            · exact hdc ▸ hd
            · rcases hc with h | h <;> simp [h]
          have h3 := h2.2
          rw [heq] at h3
          have h4 := (removedKey_perm ord (updatedSensors records)
            (sourceSensors rm.sensors redconfig.Name) name).mpr ⟨hrun, hupd⟩
          rw [h4] at h3
          cases h3
        exact ⟨hne _ (by simp), hne _ (by simp)⟩
      · unfold Fresh at h2
        constructor <;> omega
    refine ⟨hone _ (Or.inl rfl), hone _ (Or.inr rfl),
      reconcile_removed ord store rm redconfig records name htype hstore hrun hupd, ?_⟩
    intro rest
    have hlater : ∀ c, (c = s.collkillchan ∨ c = s.viewkillchan) →
        (rest.foldl (reconcileSource ord store)
          (reconcileSource ord store rm redconfig)).log.count (Event.kill c) =
          rm.log.count (Event.kill c) + 1 ∧
        ∀ (r1 : RedmonManager) (stores : List Store) (rmF : RedmonManager),
          UpdateViews ord (rest.foldl (reconcileSource ord store)
            (reconcileSource ord store rm redconfig)) = some r1 →
          runPasses ord2 stores { r1 with isConfChange := false } = some rmF →
          rmF.log.count (Event.kill c) = rm.log.count (Event.kill c) + 1 := by
      intro c hc
      obtain ⟨h1, h2⟩ := reconcileAll_unowned ord store rest _ c (hun c hc)
      refine ⟨by rw [h2, hone c hc], ?_⟩
      intro r1 stores rmF hv hF
      obtain ⟨h3, h4, h5⟩ := updateViews_frame ord _ r1 hv
      have h6 : Unowned c { r1 with isConfChange := false } := by
        unfold Unowned at h1 ⊢
        simp only
        rw [h3, h4]
        exact h1
      rw [passes_unowned ord2 stores _ rmF c h6 hF]
      simp only
      rw [h5 c, h2, hone c hc]
    obtain ⟨h1, h2⟩ := hlater _ (Or.inl rfl)
    obtain ⟨h3, h4⟩ := hlater _ (Or.inr rfl)
    exact ⟨h1, h3, fun r1 stores rmF hv hF => ⟨h2 r1 stores rmF hv hF, h4 r1 stores rmF hv hF⟩⟩
  · intro name s c hs hc hname
    have hmem := mem_of_get _ name s hs
    have hzero : ∀ d, (d = s.collkillchan ∨ d = s.viewkillchan) →
        (reconcileSource ord store rm redconfig).log.count (Event.kill d) =
          rm.log.count (Event.kill d) := by
      intro d hd
      have hnot : Event.kill d ∉ closeEvents (updatedSensors records)
          (ord.perm (sourceSensors rm.sensors redconfig.Name)) := by
        intro hk
        have hn := kill_needs_no_record ord rm redconfig.Name _ name s d hch hmem hd hk
        exact (updated_none _ _).mp hn c hc hname
      rw [reconcile_count_kill ord store rm redconfig records d htype hstore,
        List.count_eq_zero_of_not_mem hnot]
      rfl
    exact ⟨hzero _ (Or.inl rfl), hzero _ (Or.inr rfl)⟩

/-- Instance of `kill_delivery`: a pass on `A`, `B`, `C` running with records `B`,
`C`, `D`.  The sensor `A` (kill channels 0 and 1) gets one send on each, leaves
the registry and gets no further send in later passes; `B` (kill channels 3 and
4) gets none. -/
theorem kill_delivery_witness :
    RegistryWF { abcManager with isConfChange := true } ∧
    ((reconcileSource RangeOrder.listed bcdStore { abcManager with isConfChange := true }
        redmonSource).log.count (Event.kill 0) = 0 + 1 ∧
      (reconcileSource RangeOrder.listed bcdStore { abcManager with isConfChange := true }
        redmonSource).log.count (Event.kill 1) = 0 + 1 ∧
      (reconcileSource RangeOrder.listed bcdStore { abcManager with isConfChange := true }
        redmonSource).sensors.get "A" = none ∧
      ∀ (stores : List Store) (rmF : RedmonManager),
        runPasses RangeOrder.listed (bcdStore :: stores) abcManager = some rmF →
        rmF.log.count (Event.kill 0) = 0 + 1 ∧ rmF.log.count (Event.kill 1) = 0 + 1) ∧
    ((reconcileSource RangeOrder.listed bcdStore { abcManager with isConfChange := true }
        redmonSource).log.count (Event.kill 3) = 0 ∧
      (reconcileSource RangeOrder.listed bcdStore { abcManager with isConfChange := true }
        redmonSource).log.count (Event.kill 4) = 0) :=
  have hwf : RegistryWF { abcManager with isConfChange := true } := by
    unfold RegistryWF
    decide
  have h := kill_delivery RangeOrder.listed RangeOrder.listed bcdStore
    { abcManager with isConfChange := true } redmonSource
    [.config (recordNamed "B"), .config (recordNamed "C"), .config (recordNamed "D")]
    hwf (by decide) (by decide)
  have hA := h.1 "A" (newSensor .numeric "A" "redmon" (recordNamed "A") 0) (by decide)
    (by decide)
    (by
      intro c hc
      simp only [List.mem_cons, StoredRecord.config.injEq, List.mem_singleton,
        List.not_mem_nil, or_false] at hc
      rcases hc with rfl | rfl | rfl <;> decide)
  ⟨hwf,
    ⟨hA.1, hA.2.1, hA.2.2.1, fun stores rmF hF => by
      rw [runPasses] at hF
      cases hp : UpdateAutomaticSensors RangeOrder.listed bcdStore abcManager with
      | none => simp [hp] at hF
      | some r =>
        simp only [hp] at hF
        unfold UpdateAutomaticSensors at hp
        simp only [Option.map_eq_some'] at hp
        obtain ⟨r1, hr1, rfl⟩ := hp
        exact (hA.2.2.2 []).2.2 r1 stores rmF hr1 hF⟩,
    h.2 "B" (newSensor .numeric "B" "redmon" (recordNamed "B") 3) (recordNamed "B")
      (by decide) (by decide) (by decide)⟩

/-! ## Replaced entries, kept entries, duplicate and faulty records -/

/-- C11 fails on the code: the registry, well formed, holds a running sensor `x`
bound to `backup` (kill channels 0 and 1), and the store of `redmon` holds a
record named `x`.  The step for `redmon` replaces the entry of `x` by a new
sensor and logs only the start; the whole pass ends with yet another sensor
under `x`, and no kill signal was sent on any channel. -/
theorem start_overwrites_running_sensor :
    RegistryWF backupXManager ∧
    backupXManager.sensors.get "x" =
      some (newSensor .numeric "x" "backup" (recordNamed "x") 0) ∧
    (reconcileSource RangeOrder.listed sameNameStore backupXManager redmonSource).sensors =
      [("x", newSensor .numeric "x" "redmon" (recordNamed "x") 3)] ∧
    (reconcileSource RangeOrder.listed sameNameStore backupXManager redmonSource).log =
      [Event.start "x" 3 4 5] ∧
    (UpdateAutomaticSensors RangeOrder.listed sameNameStore backupXManager).map
      (fun r => (r.sensors, r.log)) =
      some ([("x", newSensor .numeric "x" "backup" (recordNamed "x") 6)],
        [Event.start "x" 3 4 5, Event.start "x" 6 7 8, Event.view 8 "main"]) :=
  ⟨by unfold RegistryWF; decide, by decide, by decide, by decide, by decide⟩

theorem sourceSensors_get_none_of_other (m : GoMap Sensor) (src name : String) (s : Sensor)
    (hn : (m.map Prod.fst).Nodup) (h : m.get name = some s) (hs : s.source ≠ src) :
    (sourceSensors m src).get name = none := by
  cases hg : (sourceSensors m src).get name with
  | none => rfl
  | some s1 =>
    obtain ⟨h1, h2⟩ := sourceSensors_get m src name s1 hn hg
    rw [h] at h1
    cases h1
    exact absurd h2 hs

/-- A step that has no cause to touch a registered sensor leaves its entry as it
is. -/
theorem reconcile_undisturbed (ord : RangeOrder) (store : Store) (rm : RedmonManager)
    (redconfig : SourceConfig) (name : String) (s : Sensor)
    (hn : (rm.sensors.map Prod.fst).Nodup) (hs : rm.sensors.get name = some s)
    (hu : Undisturbed store s.source name redconfig) :
    (reconcileSource ord store rm redconfig).sensors.get name = some s := by
  rcases reconcileSource_cases ord store rm redconfig with h | ⟨records, htype, hstore⟩
  · rw [h]
    exact hs
  · rcases hu records htype hstore with ⟨hsrc, c, hc, hname⟩ | ⟨hsrc, hno⟩
    · rw [reconcile_kept ord store rm redconfig records name htype hstore
        (sourceSensors_get_ne_none _ _ _ s hs hsrc)
        (fun hnone => (updated_none _ _).mp hnone c hc hname)]
      exact hs
    · rw [reconcile_untouched ord store rm redconfig records name htype hstore
        (sourceSensors_get_none_of_other _ _ _ s hn hs hsrc) ((updated_none _ _).mpr hno)]
      exact hs

theorem reconcileAll_undisturbed (ord : RangeOrder) (store : Store) (l : List SourceConfig)
    (rm : RedmonManager) (name : String) (s : Sensor)
    (hwf : RegistryWF rm) (hs : rm.sensors.get name = some s)
    (hu : ∀ rc ∈ l, Undisturbed store s.source name rc) :
    (l.foldl (reconcileSource ord store) rm).sensors.get name = some s := by
  induction l generalizing rm with
  | nil => exact hs
  | cons x xs ih =>
    rw [List.foldl_cons]
    apply ih _ (reconcile_wf ord store rm x hwf)
    · exact reconcile_undisturbed ord store rm x name s hwf.1 hs (hu x (List.mem_cons_self _ _))
    · exact fun rc hrc => hu rc (List.mem_cons_of_mem _ hrc)

/-- A running sensor whose name appears in the enumerated records of its source
is left untouched by the one step that processes the source: the registry
maps the name to the same sensor, so key, refresh, views, alert and warning
rules, value, inAlert, inWarning and the kill channels are what they were,
whatever the fields of the stored record.  The same holds after the whole of
`UpdateAutomaticSensors` when no other configured source holds a record of that
name. -/
theorem running_sensor_untouched (ord : RangeOrder) (store : Store) (rm : RedmonManager)
    (redconfig : SourceConfig) (records : List StoredRecord) (name : String) (s : Sensor)
    (c : SensorConfig)
    (htype : redconfig.Stype = "redis") (hstore : store redconfig = some records)
    (hs : rm.sensors.get name = some s) (hsrc : s.source = redconfig.Name)
    (hc : StoredRecord.config c ∈ records) (hname : c.Name = name) :
    (reconcileSource ord store rm redconfig).sensors.get name = some s ∧
    (∃ s1, (reconcileSource ord store rm redconfig).sensors.get name = some s1 ∧
      s1.key = s.key ∧ s1.refresh = s.refresh ∧ s1.views = s.views ∧ s1.alert = s.alert ∧
      s1.warning = s.warning ∧ s1.value = s.value ∧ s1.inAlert = s.inAlert ∧
      s1.inWarning = s.inWarning ∧ s1.collkillchan = s.collkillchan ∧
      s1.viewkillchan = s.viewkillchan) ∧
    (RegistryWF rm → (∀ rc ∈ rm.config, Undisturbed store s.source name rc) →
      (rm.config.foldl (reconcileSource ord store)
        { rm with isConfChange := true }).sensors.get name = some s ∧
      ∀ r, UpdateAutomaticSensors ord store rm = some r → r.sensors.get name = some s) := by
  have hstep : (reconcileSource ord store rm redconfig).sensors.get name = some s := by
    rw [reconcile_kept ord store rm redconfig records name htype hstore
      (sourceSensors_get_ne_none _ _ _ s hs hsrc)
      (fun hnone => (updated_none _ _).mp hnone c hc hname)]
    exact hs
  refine ⟨hstep, ⟨s, hstep, rfl, rfl, rfl, rfl, rfl, rfl, rfl, rfl, rfl, rfl⟩, ?_⟩
  intro hwf hu
  have hall := reconcileAll_undisturbed ord store rm.config { rm with isConfChange := true }
    name s hwf hs hu
  refine ⟨hall, ?_⟩
  intro r hr
  unfold UpdateAutomaticSensors at hr
  simp only [Option.map_eq_some'] at hr
  obtain ⟨r1, hr1, rfl⟩ := hr
  obtain ⟨h1, -, -⟩ := updateViews_frame ord _ r1 hr1
  simp only
  rw [h1]
  exact hall

/-- Instance of `running_sensor_untouched`: `B` runs with key `host1:B` and refresh
1 while its stored record now says key `other` and refresh 30. -/
theorem running_sensor_untouched_witness :
    (reconcileSource RangeOrder.listed
        (fun _ => some [.config { recordNamed "B" with Key := "other", Refresh := 30 }])
        abcManager redmonSource).sensors.get "B" =
      some (newSensor .numeric "B" "redmon" (recordNamed "B") 3) ∧
    ∀ r, UpdateAutomaticSensors RangeOrder.listed
        (fun _ => some [.config { recordNamed "B" with Key := "other", Refresh := 30 }])
        abcManager = some r →
      r.sensors.get "B" = some (newSensor .numeric "B" "redmon" (recordNamed "B") 3) :=
  have h := running_sensor_untouched RangeOrder.listed
    (fun _ => some [.config { recordNamed "B" with Key := "other", Refresh := 30 }])
    abcManager redmonSource [.config { recordNamed "B" with Key := "other", Refresh := 30 }]
    "B" (newSensor .numeric "B" "redmon" (recordNamed "B") 3)
    { recordNamed "B" with Key := "other", Refresh := 30 }
    (by decide) (by decide) (by decide) (by decide) (by decide) (by decide)
  ⟨h.1, (h.2.2 (by unfold RegistryWF; decide) (by
    intro rc hrc records _ hst
    have hrc1 : rc = redmonSource := by simpa [abcManager] using hrc
    subst hrc1
    simp only [Option.some.injEq] at hst
    subst hst
    exact Or.inl ⟨by decide, _, List.mem_singleton.mpr rfl, by decide⟩)).2⟩

/-- In `updatedsensors` the record enumerated last under a name is the one that
stays. -/
theorem updated_last_wins (records : List StoredRecord) (c : SensorConfig) :
    (updatedSensors (records ++ [StoredRecord.config c])).get c.Name = some c := by
  unfold updatedSensors
  rw [List.foldl_append]
  simp [get_set]

/-- C13 fails on the code: the store holds two records named `x`, the first
numeric with key `host1:first`, the second of kind string with key
`host2:second`, view `other`, alert rule `missing` and refresh 7.  The one sensor
started for `x` is built from the second record; nothing of the first is used. -/
theorem duplicate_record_last_wins :
    duplicateStore redmonSource = some
      [.config { recordNamed "x" with Key := "host1:first" },
       .config { recordNamed "x" with
                 Key := "host2:second", SensorType := "string", Views := ["other"],
                 Alert := ["missing"], Refresh := 7 }] ∧
    (reconcileSource RangeOrder.listed duplicateStore emptyManager redmonSource).sensors =
      [("x",
        { kind := .string, name := "x", source := "redmon", key := "host2:second",
          value := "", refresh := 7, collkillchan := 0, viewkillchan := 1, viewchan := 2,
          views := ["other"], alert := ["missing"], warning := [], inView := false,
          inAlert := false, inWarning := false })] ∧
    (reconcileSource RangeOrder.listed duplicateStore emptyManager redmonSource).log =
      [Event.start "x" 0 1 2] ∧
    (UpdateAutomaticSensors RangeOrder.listed duplicateStore emptyManager).map
      (fun r => r.sensors.map (fun e => (e.1, e.2.key, e.2.kind, e.2.refresh))) =
      some [("x", "host2:second", SensorKind.string, 7)] := by
  decide

theorem updatedFold_mem (records : List StoredRecord) (m : GoMap SensorConfig)
    (x : String × SensorConfig)
    (h : x ∈ records.foldl
      (fun m r =>
        match r with
        | .config c => m.set c.Name c
        | _ => m) m) :
    (StoredRecord.config x.2 ∈ records ∧ x.2.Name = x.1) ∨ x ∈ m := by
  induction records generalizing m with
  | nil => exact Or.inr h
  | cons r rs ih =>
    rw [List.foldl_cons] at h
    rcases ih _ h with ⟨h1, h2⟩ | h1
    · exact Or.inl ⟨List.mem_cons_of_mem _ h1, h2⟩
    · cases r with
      | getFailed => exact Or.inr h1
      | malformed => exact Or.inr h1
      | config c1 =>
        rcases mem_set _ _ _ _ h1 with h3 | h3
        · rw [h3]
          exact Or.inl ⟨List.mem_cons_self _ _, rfl⟩
        · exact Or.inr h3

theorem updated_mem (records : List StoredRecord) (x : String × SensorConfig)
    (h : x ∈ updatedSensors records) :
    StoredRecord.config x.2 ∈ records ∧ x.2.Name = x.1 := by
  rcases updatedFold_mem records [] x h with h1 | h1
  · exact h1
  · simp at h1

theorem set_keys_nodup {α : Type} (m : GoMap α) (k : String) (v : α)
    (h : (m.map Prod.fst).Nodup) : ((m.set k v).map Prod.fst).Nodup := by
  unfold GoMap.set
  rw [List.map_append, List.nodup_append]
  refine ⟨List.Nodup.sublist ((List.filter_sublist _).map _) h, by simp, ?_⟩
  intro a ha ha1
  simp only [List.map_cons, List.map_nil, List.mem_singleton] at ha1
  obtain ⟨e, he, rfl⟩ := List.mem_map.mp ha
  have := (List.mem_filter.mp he).2
  simp [ha1] at this

theorem updated_keys_nodup (records : List StoredRecord) :
    ((updatedSensors records).map Prod.fst).Nodup := by
  have hgen : ∀ (rs : List StoredRecord) (m : GoMap SensorConfig), (m.map Prod.fst).Nodup →
      ((rs.foldl
        (fun m r =>
          match r with
          | .config c => m.set c.Name c
          | _ => m) m).map Prod.fst).Nodup := by
    intro rs
    induction rs with
    | nil => exact fun m hm => hm
    | cons r rs ih =>
      intro m hm
      rw [List.foldl_cons]
      apply ih
      cases r with
      | getFailed => exact hm
      | malformed => exact hm
      | config c => exact set_keys_nodup m c.Name c hm
  exact hgen records [] (by simp)

/-- The sensor the starting loop leaves under the name of a visited entry of
known kind, when the visited entries have distinct names and the source has no
running sensor of that name: it is built from that entry. -/
theorem startLoop_started_from (src : String) (ss : GoMap Sensor) (l : GoMap SensorConfig)
    (rm : RedmonManager) (x : String × SensorConfig)
    (hn : (l.map Prod.fst).Nodup) (hx : x ∈ l) (hrun : ss.get x.1 = none)
    (hk : knownType x.2) :
    ∃ kind chan, (l.foldl (startNew src ss) rm).sensors.get x.1 =
        some (newSensor kind x.1 src x.2 chan) ∧ rm.nextChan ≤ chan := by
  induction l generalizing rm with
  | nil => simp at hx
  | cons y ys ih =>
    simp only [List.map_cons, List.nodup_cons] at hn
    rw [List.foldl_cons]
    rcases List.mem_cons.mp hx with h1 | h1
    · subst h1
      have hother : ∀ z ∈ ys, z.1 = x.1 → ¬ knownType z.2 := by
        intro z hz hzx
        exact absurd (List.mem_map.mpr ⟨z, hz, hzx⟩) hn.1
      rw [startLoop_get_other _ _ _ _ _ (Or.inr hother)]
      rcases startNew_cases src ss rm x with ⟨-, hbad⟩ | ⟨-, -, kind, hy⟩
      · rcases hbad with hbad | hbad
        · exact absurd hrun hbad
        · exact absurd hk hbad
      · refine ⟨kind, rm.nextChan, ?_, Nat.le_refl _⟩
        rw [hy]
        simp [register, newSensor, get_set]
    · obtain ⟨kind, chan, h2, h3⟩ := ih (startNew src ss rm y) hn.2 h1
      exact ⟨kind, chan, h2, Nat.le_trans (startNew_nextChan_le src ss rm y) h3⟩

/-- What the step does about faulty records when no two decodable records share
a name: a name carried only by records of unknown kind gets no entry that was
not there, and a decodable record of known kind without a running sensor of the
source gets a sensor built from it. -/
theorem reconcile_faulty_records (ord : RangeOrder) (store : Store) (rm : RedmonManager)
    (redconfig : SourceConfig) (records : List StoredRecord)
    (htype : redconfig.Stype = "redis") (hstore : store redconfig = some records) :
    (∀ name : String,
      (∀ c, StoredRecord.config c ∈ records → c.Name = name → ¬ knownType c) →
      (sourceSensors rm.sensors redconfig.Name).get name = none →
      (reconcileSource ord store rm redconfig).sensors.get name = rm.sensors.get name) ∧
    (∀ c : SensorConfig, StoredRecord.config c ∈ records → knownType c →
      (∀ c1, StoredRecord.config c1 ∈ records → c1.Name = c.Name → c1 = c) →
      (sourceSensors rm.sensors redconfig.Name).get c.Name = none →
      ∃ s, (reconcileSource ord store rm redconfig).sensors.get c.Name = some s ∧
        s.source = redconfig.Name ∧ s.key = c.Key ∧ s.views = c.Views ∧
        s.alert = c.Alert ∧ s.warning = c.Warning ∧ s.refresh = c.Refresh ∧
        rm.nextChan ≤ s.collkillchan) := by
  constructor
  · intro name hbad hrun
    have hno : ∀ x ∈ ord.perm (updatedSensors records), x.1 = name → ¬ knownType x.2 := by
      intro x hx hxn
      obtain ⟨h1, h2⟩ := updated_mem records x ((ord.isPerm _).mem_iff.mp hx)
      exact hbad x.2 h1 (h2.trans hxn)
    rw [reconcileSource_eq ord store rm redconfig records htype hstore,
      startLoop_get_other _ _ _ _ _ (Or.inr hno), closeLoop_get]
    have h : removedKey (updatedSensors records)
        (ord.perm (sourceSensors rm.sensors redconfig.Name)) name = false := by
      rw [Bool.eq_false_iff, Ne, removedKey_perm]
      exact fun h => h.1 hrun
    simp [h]
  · intro c hc hk huniq hrun
    have hget : (updatedSensors records).get c.Name = some c := by
      cases hg : (updatedSensors records).get c.Name with
      | none => exact absurd rfl ((updated_none _ _).mp hg c hc)
      | some c1 =>
        obtain ⟨h1, h2⟩ := updated_get records c.Name c1 hg
        rw [huniq c1 h1 h2]
    have hmem : (c.Name, c) ∈ ord.perm (updatedSensors records) :=
      (ord.isPerm _).mem_iff.mpr (mem_of_get _ _ _ hget)
    have hnd : ((ord.perm (updatedSensors records)).map Prod.fst).Nodup :=
      (((ord.isPerm (updatedSensors records)).map Prod.fst).nodup_iff).mpr
        (updated_keys_nodup records)
    obtain ⟨kind, chan, h1, h2⟩ := startLoop_started_from redconfig.Name
      (sourceSensors rm.sensors redconfig.Name) _
      ((ord.perm (sourceSensors rm.sensors redconfig.Name)).foldl
        (closeRemoved (updatedSensors records)) rm) (c.Name, c) hnd hmem hrun hk
    rw [closeLoop_nextChan] at h2
    refine ⟨newSensor kind c.Name redconfig.Name c chan, ?_, rfl, rfl, rfl, rfl, rfl, rfl, h2⟩
    rw [reconcileSource_eq ord store rm redconfig records htype hstore]
    exact h1

/-! ## The view list and the view weights -/

theorem isIn_eq (slice : List String) (i : String) : IsIn slice i = decide (i ∈ slice) := by
  induction slice with
  | nil => simp [IsIn]
  | cons x xs ih =>
    unfold IsIn
    by_cases h : x = i
    · simp [h]
    · have h1 : ¬ i = x := fun h1 => h h1.symm
      simp [h, h1, ih]

theorem foldl_flatMap_views {α β γ : Type} (f : α → List β) (g : γ → β → γ) (l : List α)
    (a : γ) : l.foldl (fun acc e => (f e).foldl g acc) a = (l.flatMap f).foldl g a := by
  induction l generalizing a with
  | nil => rfl
  | cons x xs ih => rw [List.foldl_cons, ih, List.flatMap_cons, List.foldl_append]

theorem viewAccumulator_eq (ord : RangeOrder) (sensors : GoMap Sensor) :
    viewAccumulator ord sensors = (viewsVisited ord sensors).foldl countView ([], []) := by
  unfold viewAccumulator viewsVisited
  exact foldl_flatMap_views (fun e : String × Sensor => e.2.views) countView _ _

theorem foldl_countView_fst (l : List String) (acc : List String × GoMap Nat) :
    (l.foldl countView acc).1 = l.foldl AppendIfMissing acc.1 := by
  induction l generalizing acc with
  | nil => rfl
  | cons x xs ih =>
    rw [List.foldl_cons, ih, List.foldl_cons]
    rfl

theorem foldl_appendIfMissing (l a : List String) :
    l.foldl AppendIfMissing a = a ++ (firstOccurrences l).filter (fun y => decide (y ∉ a)) := by
  induction l generalizing a with
  | nil => simp [firstOccurrences]
  | cons x xs ih =>
    rw [List.foldl_cons, ih]
    unfold AppendIfMissing
    rw [isIn_eq]
    by_cases hx : x ∈ a
    · simp only [hx, decide_True, if_true, firstOccurrences, List.filter_cons, not_true_eq_false,
        decide_False, Bool.false_eq_true, if_false, List.filter_filter]
      congr 1
      apply List.filter_congr
      intro y _
      by_cases hy : y ∈ a
      · simp [hy]
      · have : y ≠ x := fun h => hy (h ▸ hx)
        simp [hy, this]
    · simp only [hx, decide_False, Bool.false_eq_true, if_false, firstOccurrences,
        List.filter_cons, not_false_eq_true, decide_True, if_true, List.filter_filter,
        List.append_assoc, List.singleton_append]
      congr 2
      apply List.filter_congr
      intro y _
      by_cases hy : y ∈ a
      · simp [hy]
      · by_cases hyx : y = x
        · simp [hyx]
        · simp [hy, hyx]

theorem mem_firstOccurrences (l : List String) (v : String) :
    v ∈ firstOccurrences l ↔ v ∈ l := by
  induction l with
  | nil => simp [firstOccurrences]
  | cons x xs ih =>
    simp only [firstOccurrences, List.mem_cons, List.mem_filter, ih]
    by_cases h : v = x
    · simp [h]
    · simp [h]

theorem firstOccurrences_nodup (l : List String) : (firstOccurrences l).Nodup := by
  induction l with
  | nil => simp [firstOccurrences]
  | cons x xs ih =>
    simp only [firstOccurrences, List.nodup_cons, List.mem_filter]
    refine ⟨?_, List.Nodup.sublist (List.filter_sublist _) ih⟩
    rintro ⟨-, h⟩
    simp at h

theorem views_of_accumulator (ord : RangeOrder) (sensors : GoMap Sensor) :
    (viewAccumulator ord sensors).1 = firstOccurrences (viewsVisited ord sensors) := by
  rw [viewAccumulator_eq, foldl_countView_fst, foldl_appendIfMissing]
  simp

theorem mem_viewsVisited (ord : RangeOrder) (sensors : GoMap Sensor) (v : String) :
    v ∈ viewsVisited ord sensors ↔ ∃ e ∈ sensors, v ∈ e.2.views := by
  unfold viewsVisited
  rw [List.mem_flatMap]
  constructor
  · rintro ⟨e, he, hv⟩
    exact ⟨e, (ord.isPerm sensors).mem_iff.mp he, hv⟩
  · rintro ⟨e, he, hv⟩
    exact ⟨e, (ord.isPerm sensors).mem_iff.mpr he, hv⟩

/-- What `UpdateViews` returns, in terms of the accumulator of its first loop: it
panics exactly when a sensor is registered and the new view list is empty. -/
theorem updateViews_result (ord : RangeOrder) (rm : RedmonManager) :
    (UpdateViews ord rm = none ∧ rm.sensors ≠ [] ∧ (viewAccumulator ord rm.sensors).1 = []) ∨
    (∃ r, UpdateViews ord rm = some r ∧ r.views = (viewAccumulator ord rm.sensors).1 ∧
      r.viewweights = (viewAccumulator ord rm.sensors).2 ∧ r.currview = 0 ∧
      r.sensors = rm.sensors ∧
      (rm.sensors = [] ∨ (viewAccumulator ord rm.sensors).1 ≠ [])) := by
  have hperm : ord.perm rm.sensors = [] ↔ rm.sensors = [] := by
    constructor
    · intro h
      exact (List.perm_nil.mp ((h ▸ ord.isPerm rm.sensors).symm))
    · intro h
      rw [h]
      exact List.perm_nil.mp (ord.isPerm [])
  unfold UpdateViews
  simp only
  split
  · rename_i x1 hp
    exact Or.inr ⟨_, rfl, rfl, rfl, rfl, rfl, Or.inl (hperm.mp hp)⟩
  · rename_i x1 x2 a b hp hv
    refine Or.inl ⟨rfl, ?_, hv⟩
    intro h
    rw [hperm.mpr h] at hp
    cases hp
  · rename_i es x1 v t hv hne
    refine Or.inr ⟨_, rfl, rfl, rfl, rfl, rfl, Or.inr ?_⟩
    intro h
    have h1 : (viewAccumulator ord rm.sensors).1 = v :: t := hv
    rw [h] at h1
    cases h1

theorem countView_get (acc : List String × GoMap Nat) (x v : String) :
    (countView acc x).2.get v =
      if v = x then some ((acc.2.get x).getD 0 + 1) else acc.2.get v := by
  unfold countView
  cases h : acc.2.get x <;> simp [get_set]

theorem foldl_countView_get (l : List String) (acc : List String × GoMap Nat) (v : String) :
    (l.foldl countView acc).2.get v =
      if l.count v = 0 then acc.2.get v else some ((acc.2.get v).getD 0 + l.count v) := by
  induction l generalizing acc with
  | nil => simp
  | cons x xs ih =>
    rw [List.foldl_cons, ih, countView_get, List.count_cons]
    by_cases hx : v = x
    · subst hx
      by_cases hc : List.count v xs = 0
      · simp [hc]
      · simp [hc]
        omega
    · have hx1 : ¬ x = v := fun h => hx h.symm
      simp [hx, hx1]

theorem count_flatMap_views (sensors : GoMap Sensor) (v : String) :
    (sensors.flatMap (fun e => e.2.views)).count v =
      (sensors.map (fun e => e.2.views.count v)).sum := by
  induction sensors with
  | nil => rfl
  | cons e es ih =>
    rw [List.flatMap_cons, List.count_append, ih, List.map_cons, List.sum_cons]

theorem count_viewsVisited (ord : RangeOrder) (sensors : GoMap Sensor) (v : String) :
    (viewsVisited ord sensors).count v = (sensors.map (fun e => e.2.views.count v)).sum := by
  unfold viewsVisited
  rw [((ord.isPerm sensors).flatMap_right _).count_eq, count_flatMap_views]

theorem sum_count_nodup (sensors : GoMap Sensor) (v : String)
    (h : ∀ e ∈ sensors, e.2.views.Nodup) :
    (sensors.map (fun e => e.2.views.count v)).sum = carriers sensors v := by
  unfold carriers
  induction sensors with
  | nil => rfl
  | cons e es ih =>
    have ih1 := ih (fun x hx => h x (List.mem_cons_of_mem _ hx))
    rw [List.map_cons, List.sum_cons, ih1, List.filter_cons]
    by_cases hv : v ∈ e.2.views
    · rw [List.count_eq_one_of_mem (h e (List.mem_cons_self _ _)) hv]
      simp [hv]
      omega
    · rw [List.count_eq_zero_of_not_mem hv]
      simp [hv]

/-- C15: the view list that `UpdateViews` assigns, for the registry visited in any
order, has no duplicate, holds exactly the names that occur in the views list of
some registered sensor, and lists them in the order of their first occurrence
during the visit.  `UpdateViews` returns a manager with that list, unless a
sensor is registered and the list is empty, in which case it panics after the
assignment. -/
theorem updateViews_view_list (ord : RangeOrder) (rm : RedmonManager) :
    (viewAccumulator ord rm.sensors).1.Nodup ∧
    (∀ v : String,
      v ∈ (viewAccumulator ord rm.sensors).1 ↔ ∃ e ∈ rm.sensors, v ∈ e.2.views) ∧
    (viewAccumulator ord rm.sensors).1 = firstOccurrences (viewsVisited ord rm.sensors) ∧
    ((UpdateViews ord rm = none ∧ rm.sensors ≠ [] ∧ (viewAccumulator ord rm.sensors).1 = []) ∨
      ∃ r, UpdateViews ord rm = some r ∧ r.views = (viewAccumulator ord rm.sensors).1) := by
  refine ⟨?_, ?_, views_of_accumulator ord rm.sensors, ?_⟩
  · rw [views_of_accumulator]
    exact firstOccurrences_nodup _
  · intro v
    rw [views_of_accumulator, mem_firstOccurrences, mem_viewsVisited]
  · rcases updateViews_result ord rm with h | ⟨r, h1, h2, -⟩
    · exact Or.inl h
    · exact Or.inr ⟨r, h1, h2⟩

/-- C16, as stated, fails: with one registered sensor whose views list is
`main, main`, `UpdateViews` sets the weight of `main` to 2, while one sensor
carries `main`. -/
theorem view_weight_counts_repeats :
    (UpdateViews RangeOrder.listed repeatedViewManager).map
      (fun r => (r.views, r.viewweights.get "main")) = some (["main"], some 2) ∧
    carriers repeatedViewManager.sensors "main" = 1 := by
  decide

/-- C16, amended: after `UpdateViews`, for every registry and every view name `v`,
`viewweights[v]` is the number of occurrences of `v` in the views lists of the
registered sensors, a list that repeats `v` counting once per repetition; it is
the number of sensors that carry `v` when no views list repeats a name.  `v` is a
key of `viewweights` exactly when it is in the view list. -/
theorem view_weight_counts_occurrences (ord : RangeOrder) (rm : RedmonManager) (v : String) :
    ((viewAccumulator ord rm.sensors).2.get v).getD 0 =
      (rm.sensors.map (fun e => e.2.views.count v)).sum ∧
    ((∀ e ∈ rm.sensors, e.2.views.Nodup) →
      ((viewAccumulator ord rm.sensors).2.get v).getD 0 = carriers rm.sensors v) ∧
    ((viewAccumulator ord rm.sensors).2.get v ≠ none ↔
      v ∈ (viewAccumulator ord rm.sensors).1) ∧
    ((UpdateViews ord rm = none ∧ rm.sensors ≠ [] ∧ (viewAccumulator ord rm.sensors).1 = []) ∨
      ∃ r, UpdateViews ord rm = some r ∧ r.views = (viewAccumulator ord rm.sensors).1 ∧
        r.viewweights = (viewAccumulator ord rm.sensors).2) := by
  have hget : (viewAccumulator ord rm.sensors).2.get v =
      if (viewsVisited ord rm.sensors).count v = 0 then none
      else some ((viewsVisited ord rm.sensors).count v) := by
    rw [viewAccumulator_eq, foldl_countView_get]
    simp [GoMap.get]
  have hsum : ((viewAccumulator ord rm.sensors).2.get v).getD 0 =
      (rm.sensors.map (fun e => e.2.views.count v)).sum := by
    rw [hget, ← count_viewsVisited ord]
    by_cases hc : (viewsVisited ord rm.sensors).count v = 0
    · simp [hc]
    · simp [hc]
  refine ⟨hsum, ?_, ?_, ?_⟩
  · intro hnd
    rw [hsum, sum_count_nodup _ _ hnd]
  · rw [hget, views_of_accumulator, mem_firstOccurrences, ← List.count_pos_iff]
    by_cases hc : (viewsVisited ord rm.sensors).count v = 0
    · simp [hc]
    · simp only [hc, if_false]
      constructor
      · intro _
        omega
      · intro _
        simp
  · rcases updateViews_result ord rm with h | ⟨r, h1, h2, h3, -⟩
    · exact Or.inl h
    · exact Or.inr ⟨r, h1, h2, h3⟩

/-! ## The view-rotation scheduler -/

/-- A tick on which the timer differs from the dwell target only counts. -/
theorem tick_waits (ord : RangeOrder) (rm : RedmonManager) (st : ViewsManagerState)
    (hflag : rm.isConfChange = false) (ht : st.timer ≠ dwellTarget rm st) :
    viewsManagerTick ord rm st = some (rm, { st with timer := st.timer + 1 }) := by
  unfold dwellTarget at ht
  unfold viewsManagerTick
  simp [hflag, ht]

/-- A tick on which the timer equals the dwell target rotates, when the view
list is not empty and the advanced index is in range. -/
theorem tick_rotates (ord : RangeOrder) (rm : RedmonManager) (st : ViewsManagerState)
    (v : String) (hflag : rm.isConfChange = false) (ht : st.timer = dwellTarget rm st)
    (hne : rm.views ≠ [])
    (hv : rm.views[if rm.currview + 1 = rm.views.length then 0 else rm.currview + 1]? = some v) :
    viewsManagerTick ord rm st =
      some ({ rm with
              currview := if rm.currview + 1 = rm.views.length then 0 else rm.currview + 1
              log := rm.log ++ (ord.perm rm.sensors).map (fun e => Event.view e.2.viewchan v) },
            { newview := v, timer := 0 }) := by
  unfold dwellTarget at ht
  have hlen : rm.views.length ≠ 0 := fun h => hne (List.length_eq_zero.mp h)
  unfold viewsManagerTick
  simp only [hflag, Bool.false_eq_true, if_false, ht, if_true, ne_eq, hlen, not_false_eq_true]
  rw [hv]

/-- A tick on which the timer equals the dwell target, with an empty view list. -/
theorem tick_rotates_empty (ord : RangeOrder) (rm : RedmonManager) (st : ViewsManagerState)
    (hflag : rm.isConfChange = false) (ht : st.timer = dwellTarget rm st)
    (he : rm.views = []) :
    viewsManagerTick ord rm st =
      some ({ rm with
              currview := rm.currview + 1
              log := rm.log ++
                (ord.perm rm.sensors).map (fun e => Event.view e.2.viewchan "none") },
            { newview := "none", timer := 0 }) := by
  unfold dwellTarget at ht
  unfold viewsManagerTick
  simp [hflag, ht, he]

theorem next_index_in_range (rm : RedmonManager) (hc : rm.currview < rm.views.length) :
    (if rm.currview + 1 = rm.views.length then 0 else rm.currview + 1) =
      (rm.currview + 1) % rm.views.length ∧
    (rm.currview + 1) % rm.views.length < rm.views.length := by
  constructor
  · by_cases h : rm.currview + 1 = rm.views.length
    · simp [h]
    · simp only [h, if_false]
      rw [Nat.mod_eq_of_lt (by omega)]
  · exact Nat.mod_lt _ (by omega)

/-- C17, as stated, fails.  At startup, with one view `X` of weight 2 selected, the
timer is compared against 5, not against 5 + 2: the sixth tick rotates.  After a
reconciliation has rebuilt the view list to the single view `Y` of weight 3, a
scheduler that last rotated to `X` still compares against 5 + `viewweights[X]`,
which is 5, not 5 + 3. -/
theorem dwell_target_ignores_selected_view :
    xManager.views[xManager.currview]? = some "X" ∧ xManager.viewweights.get "X" = some 2 ∧
    specDwellTarget xManager = 7 ∧
    dwellTarget xManager ViewsManagerState.initial = 5 ∧
    (runTicks RangeOrder.listed 6 (xManager, ViewsManagerState.initial)).map
      (fun y => (y.2.newview, y.2.timer, y.1.log)) =
      some ("X", 0, [Event.view 2 "X", Event.view 5 "X"]) ∧
    specDwellTarget { xManager with views := ["Y"], viewweights := [("Y", 3)] } = 8 ∧
    dwellTarget { xManager with views := ["Y"], viewweights := [("Y", 3)] }
      { newview := "X", timer := 0 } = 5 := by
  decide

/-- C17, amended: at every tick of `ViewsManager` outside a reconciliation the
timer is compared against `VIEWCHANGEINTERVAL + viewweights[newview]`, where
`newview` is the name the scheduler broadcast at its own last rotation, and
against `VIEWCHANGEINTERVAL` alone while `newview` is `"none"`, as it is from
startup to the first rotation.  A tick whose timer differs from that target only
increments the timer; a tick whose timer equals it rotates, and after a rotation
on a non-empty view list `newview` is `views[currview]`, so that the next target
is the base interval plus the weight of the selected view when its name is not
`"none"`. -/
theorem dwell_target_follows_last_rotation (ord : RangeOrder) (rm : RedmonManager)
    (st : ViewsManagerState) (hflag : rm.isConfChange = false) :
    dwellTarget rm ViewsManagerState.initial = VIEWCHANGEINTERVAL ∧
    (st.timer ≠ VIEWCHANGEINTERVAL + autowait rm st.newview →
      viewsManagerTick ord rm st = some (rm, { st with timer := st.timer + 1 })) ∧
    (st.timer = VIEWCHANGEINTERVAL + autowait rm st.newview →
      ∀ rm1 st1, viewsManagerTick ord rm st = some (rm1, st1) →
        st1.timer = 0 ∧ rm1.views = rm.views ∧ rm1.viewweights = rm.viewweights ∧
        (rm.views = [] → st1.newview = "none" ∧ dwellTarget rm1 st1 = VIEWCHANGEINTERVAL) ∧
        (rm.views ≠ [] → rm1.views[rm1.currview]? = some st1.newview ∧
          (st1.newview ≠ "none" → dwellTarget rm1 st1 = specDwellTarget rm1))) := by
  refine ⟨rfl, fun ht => tick_waits ord rm st hflag ht, ?_⟩
  intro ht rm1 st1 htick
  by_cases he : rm.views = []
  · rw [tick_rotates_empty ord rm st hflag ht he] at htick
    simp only [Option.some.injEq, Prod.mk.injEq] at htick
    obtain ⟨rfl, rfl⟩ := htick
    exact ⟨rfl, rfl, rfl, fun _ => ⟨rfl, rfl⟩, fun h => absurd he h⟩
  · cases hv : rm.views[if rm.currview + 1 = rm.views.length then 0 else rm.currview + 1]? with
    | none =>
      have hlen : rm.views.length ≠ 0 := fun h => he (List.length_eq_zero.mp h)
      unfold viewsManagerTick at htick
      simp only [hflag, Bool.false_eq_true, if_false, ht, if_true, ne_eq, hlen,
        not_false_eq_true, hv] at htick
      cases htick
    | some v =>
      rw [tick_rotates ord rm st v hflag ht he hv] at htick
      simp only [Option.some.injEq, Prod.mk.injEq] at htick
      obtain ⟨rfl, rfl⟩ := htick
      refine ⟨rfl, rfl, rfl, fun h => absurd h he, fun _ => ⟨hv, ?_⟩⟩
      intro hnone
      simp only [dwellTarget, specDwellTarget, autowait, hnone, if_false, hv]

/-- Instance of `dwell_target_follows_last_rotation`: the scheduler at startup with
the view `X` of weight 2 selected, its timer at 5. -/
theorem dwell_target_follows_last_rotation_witness :
    dwellTarget xManager ViewsManagerState.initial = VIEWCHANGEINTERVAL ∧
    (∀ rm1 st1, viewsManagerTick RangeOrder.listed xManager { newview := "none", timer := 5 } =
        some (rm1, st1) →
      st1.timer = 0 ∧ rm1.views = xManager.views ∧ rm1.viewweights = xManager.viewweights ∧
      (xManager.views = [] →
        st1.newview = "none" ∧ dwellTarget rm1 st1 = VIEWCHANGEINTERVAL) ∧
      (xManager.views ≠ [] → rm1.views[rm1.currview]? = some st1.newview ∧
        (st1.newview ≠ "none" → dwellTarget rm1 st1 = specDwellTarget rm1))) ∧
    (viewsManagerTick RangeOrder.listed xManager { newview := "none", timer := 5 }).map
      (fun y => (y.2, dwellTarget y.1 y.2)) = some ({ newview := "X", timer := 0 }, 7) :=
  have h := dwell_target_follows_last_rotation RangeOrder.listed xManager
    { newview := "none", timer := 5 } (by decide)
  ⟨h.1, h.2.2 (by decide), by decide⟩

theorem viewchans_nodup (rm : RedmonManager) (hwf : RegistryWF rm) :
    (rm.sensors.map (fun e => e.2.viewchan)).Nodup := by
  have h := hwf.2.1
  rw [List.nodup_flatMap] at h
  unfold List.Nodup
  rw [List.pairwise_map]
  refine List.Pairwise.imp ?_ h.2
  intro a b hab heq
  exact hab (a := a.2.viewchan) (by simp) (by simp [heq])

/-- Every registered sensor is sent the broadcast name once. -/
theorem broadcast_once (ord : RangeOrder) (rm : RedmonManager) (hwf : RegistryWF rm)
    (name : String) (e : String × Sensor) (he : e ∈ rm.sensors) :
    ((ord.perm rm.sensors).map (fun x => Event.view x.2.viewchan name)).count
      (Event.view e.2.viewchan name) = 1 := by
  have hinj : Function.Injective (fun c : Nat => Event.view c name) := by
    intro a b hab
    simpa using hab
  have hnd : (rm.sensors.map (fun x => Event.view x.2.viewchan name)).Nodup := by
    have h := (viewchans_nodup rm hwf).map hinj
    rw [List.map_map] at h
    exact h
  have hperm := (ord.isPerm rm.sensors).map (fun x => Event.view x.2.viewchan name)
  rw [hperm.count_eq]
  exact List.count_eq_one_of_mem hnd (List.mem_map.mpr ⟨e, he, rfl⟩)

/-- C18: the rotation step of `ViewsManager`, taken outside a reconciliation when
the timer equals the dwell target.  With a non-empty view list of n entries and
`currview < n`, the new `currview` is `(currview + 1) mod n`, the timer is reset
to 0 and the name `views[new currview]` is sent once on the view channel of every
registered sensor; with an empty view list the name sent is `"none"`. -/
theorem rotation_step (ord : RangeOrder) (rm : RedmonManager) (st : ViewsManagerState)
    (hflag : rm.isConfChange = false)
    (ht : st.timer = VIEWCHANGEINTERVAL + autowait rm st.newview) :
    (rm.views ≠ [] → rm.currview < rm.views.length →
      ∃ v, rm.views[(rm.currview + 1) % rm.views.length]? = some v ∧
        viewsManagerTick ord rm st =
          some ({ rm with
                  currview := (rm.currview + 1) % rm.views.length
                  log := rm.log ++
                    (ord.perm rm.sensors).map (fun e => Event.view e.2.viewchan v) },
                { newview := v, timer := 0 })) ∧
    (rm.views = [] →
      viewsManagerTick ord rm st =
        some ({ rm with
                currview := rm.currview + 1
                log := rm.log ++
                  (ord.perm rm.sensors).map (fun e => Event.view e.2.viewchan "none") },
              { newview := "none", timer := 0 })) ∧
    (RegistryWF rm → ∀ (name : String) (e : String × Sensor), e ∈ rm.sensors →
      ((ord.perm rm.sensors).map (fun x => Event.view x.2.viewchan name)).count
        (Event.view e.2.viewchan name) = 1) := by
  refine ⟨?_, fun he => tick_rotates_empty ord rm st hflag ht he,
    fun hwf name e he => broadcast_once ord rm hwf name e he⟩
  intro hne hc
  obtain ⟨h1, h2⟩ := next_index_in_range rm hc
  have hv : rm.views[(rm.currview + 1) % rm.views.length]? =
      some (rm.views[(rm.currview + 1) % rm.views.length]) := List.getElem?_eq_getElem h2
  refine ⟨_, hv, ?_⟩
  rw [tick_rotates ord rm st _ hflag ht hne (by rw [h1]; exact hv), h1]

/-- Instance of `rotation_step`: views `X`, `Y` with `Y` selected and the timer at
the target 5 + 0; the step selects `X` again and sends it to both sensors. -/
theorem rotation_step_witness :
    (∃ v, ({ xyManager with currview := 1 } : RedmonManager).views[(1 + 1) % 2]? = some v ∧
      viewsManagerTick RangeOrder.listed { xyManager with currview := 1 }
          { newview := "Y", timer := 5 } =
        some ({ xyManager with
                currview := (1 + 1) % 2
                log := [] ++
                  [("P", sensorWithViews "P" 0 ["X"]), ("Q", sensorWithViews "Q" 3 ["X"])].map
                    (fun e => Event.view e.2.viewchan v) },
              { newview := v, timer := 0 })) ∧
    (viewsManagerTick RangeOrder.listed { xyManager with currview := 1 }
        { newview := "Y", timer := 5 }).map (fun y => (y.1.currview, y.2, y.1.log)) =
      some (0, { newview := "X", timer := 0 }, [Event.view 2 "X", Event.view 5 "X"]) :=
  ⟨(rotation_step RangeOrder.listed { xyManager with currview := 1 }
      { newview := "Y", timer := 5 } (by decide) (by decide)).1 (by decide) (by decide),
    by decide⟩

theorem runTicks_wait (ord : RangeOrder) (rm : RedmonManager) (k : Nat)
    (st : ViewsManagerState) (hflag : rm.isConfChange = false)
    (hk : st.timer + k ≤ dwellTarget rm st) :
    runTicks ord k (rm, st) = some (rm, { st with timer := st.timer + k }) := by
  induction k generalizing st with
  | zero => rfl
  | succ k ih =>
    rw [runTicks]
    have hne : st.timer ≠ dwellTarget rm st := by omega
    simp only [tick_waits ord rm st hflag hne]
    have h1 := ih { st with timer := st.timer + 1 } (by
      simp only [dwellTarget] at hk ⊢
      omega)
    rw [h1]
    simp only [Option.some.injEq, Prod.mk.injEq, true_and]
    congr 1
    omega

theorem ticksToRotation_wait (ord : RangeOrder) (rm : RedmonManager) (d fuel : Nat)
    (st : ViewsManagerState) (hflag : rm.isConfChange = false)
    (hc : rm.views = [] ∨ rm.currview < rm.views.length)
    (hd : st.timer + d = dwellTarget rm st) (hfuel : d + 1 ≤ fuel) :
    ticksToRotation ord fuel (rm, st) = some (d + 1) := by
  induction d generalizing st fuel with
  | zero =>
    obtain ⟨f, rfl⟩ : ∃ f, fuel = f + 1 := ⟨fuel - 1, by omega⟩
    rw [ticksToRotation]
    have ht : st.timer = dwellTarget rm st := by omega
    rcases hc with he | hlt
    · simp [tick_rotates_empty ord rm st hflag ht he]
    · have hne : rm.views ≠ [] := by
        intro h
        rw [h] at hlt
        simp at hlt
      obtain ⟨h1, h2⟩ := next_index_in_range rm hlt
      have hv : rm.views[if rm.currview + 1 = rm.views.length then 0 else rm.currview + 1]? =
          some (rm.views[(rm.currview + 1) % rm.views.length]) := by
        rw [h1]
        exact List.getElem?_eq_getElem h2
      simp [tick_rotates ord rm st _ hflag ht hne hv]
  | succ d ih =>
    obtain ⟨f, rfl⟩ : ∃ f, fuel = f + 1 := ⟨fuel - 1, by omega⟩
    rw [ticksToRotation]
    have hne : st.timer ≠ dwellTarget rm st := by omega
    simp only [tick_waits ord rm st hflag hne]
    have h1 := ih f { st with timer := st.timer + 1 } (by
      simp only [dwellTarget] at hd ⊢
      omega) (by omega)
    rw [h1]
    simp

/-- C19, as stated, fails for a view named `none`.  Two sensors carry the view
`none` (weight 2) and one carries `Y` (weight 1).  From the rotation that selects
`Y` the next rotation comes after 7 ticks and selects `none`; from there the next
rotation comes after 6 ticks.  The dwell of `none` minus the dwell of `Y` is -1,
not the weight difference 1. -/
theorem none_view_dwell_ignores_weight :
    noneManager.viewweights.get "none" = some 2 ∧ noneManager.viewweights.get "Y" = some 1 ∧
    ticksToRotation RangeOrder.listed 100
      ({ noneManager with currview := 1 }, { newview := "Y", timer := 0 }) = some 7 ∧
    (runTicks RangeOrder.listed 7
      ({ noneManager with currview := 1 }, { newview := "Y", timer := 0 })).map
      (fun y => (y.1.currview, y.2)) = some (0, { newview := "none", timer := 0 }) ∧
    ticksToRotation RangeOrder.listed 100 (noneManager, { newview := "none", timer := 0 }) =
      some 6 ∧
    ((6 : Int) - 7 ≠ 2 - 1) := by
  decide

/-- C19, amended: in a run of `ViewsManager` with no reconciliation, for a view
whose name is not `"none"`, the number of ticks from the rotation that selects it
up to and including the next rotation is `VIEWCHANGEINTERVAL + 1` plus the
weight of that view; none of the ticks before it changes anything but the timer.
So for two such views X and Y, with the weights fixed, the dwell of X minus the
dwell of Y is `viewweights[X] - viewweights[Y]` exactly. -/
theorem dwell_is_base_plus_weight (ord : RangeOrder) (rm : RedmonManager)
    (st : ViewsManagerState) (fuel : Nat)
    (hflag : rm.isConfChange = false) (hname : st.newview ≠ "none") (ht : st.timer = 0)
    (hc : rm.views = [] ∨ rm.currview < rm.views.length)
    (hfuel : VIEWCHANGEINTERVAL + 1 + (rm.viewweights.get st.newview).getD 0 ≤ fuel) :
    ticksToRotation ord fuel (rm, st) =
      some (VIEWCHANGEINTERVAL + 1 + (rm.viewweights.get st.newview).getD 0) ∧
    (∀ k, k ≤ VIEWCHANGEINTERVAL + (rm.viewweights.get st.newview).getD 0 →
      runTicks ord k (rm, st) = some (rm, { st with timer := k })) ∧
    (∀ (rm2 : RedmonManager) (st2 : ViewsManagerState) (fuel2 : Nat),
      rm2.viewweights = rm.viewweights → rm2.isConfChange = false →
      st2.newview ≠ "none" → st2.timer = 0 →
      (rm2.views = [] ∨ rm2.currview < rm2.views.length) →
      VIEWCHANGEINTERVAL + 1 + (rm.viewweights.get st2.newview).getD 0 ≤ fuel2 →
      ∃ n1 n2, ticksToRotation ord fuel (rm, st) = some n1 ∧
        ticksToRotation ord fuel2 (rm2, st2) = some n2 ∧
        (n1 : Int) - (n2 : Int) =
          ((rm.viewweights.get st.newview).getD 0 : Int) -
            ((rm.viewweights.get st2.newview).getD 0 : Int)) := by
  have key : ∀ (m : RedmonManager) (s : ViewsManagerState) (f : Nat),
      m.isConfChange = false → s.newview ≠ "none" → s.timer = 0 →
      (m.views = [] ∨ m.currview < m.views.length) →
      VIEWCHANGEINTERVAL + 1 + (m.viewweights.get s.newview).getD 0 ≤ f →
      ticksToRotation ord f (m, s) =
        some (VIEWCHANGEINTERVAL + 1 + (m.viewweights.get s.newview).getD 0) := by
    intro m s f h1 h2 h3 h4 h5
    have htarget : dwellTarget m s = VIEWCHANGEINTERVAL + (m.viewweights.get s.newview).getD 0 := by
      simp [dwellTarget, autowait, h2]
    have h := ticksToRotation_wait ord m
      (VIEWCHANGEINTERVAL + (m.viewweights.get s.newview).getD 0) f s h1 h4
      (by rw [htarget, h3]; omega) (by omega)
    rw [h]
    congr 1
    omega
  refine ⟨key rm st fuel hflag hname ht hc hfuel, ?_, ?_⟩
  · intro k hk
    have htarget : dwellTarget rm st =
        VIEWCHANGEINTERVAL + (rm.viewweights.get st.newview).getD 0 := by
      simp [dwellTarget, autowait, hname]
    have h := runTicks_wait ord rm k st hflag (by rw [htarget, ht]; omega)
    rw [h, ht]
    simp
  · intro rm2 st2 fuel2 hw h1 h2 h3 h4 h5
    refine ⟨_, _, key rm st fuel hflag hname ht hc hfuel,
      key rm2 st2 fuel2 h1 h2 h3 h4 (by rw [hw]; exact h5), ?_⟩
    rw [hw]
    push_cast
    omega

/-- Instance of `dwell_is_base_plus_weight`: weights X = 2 and Y = 0 give a dwell of
8 ticks on X and of 6 ticks on Y, two ticks apart. -/
theorem dwell_is_base_plus_weight_witness :
    ticksToRotation RangeOrder.listed 100 (xyManager, { newview := "X", timer := 0 }) =
      some (VIEWCHANGEINTERVAL + 1 + 2) ∧
    ticksToRotation RangeOrder.listed 100
      ({ xyManager with currview := 1 }, { newview := "Y", timer := 0 }) =
      some (VIEWCHANGEINTERVAL + 1 + 0) ∧
    (∃ n1 n2, ticksToRotation RangeOrder.listed 100
        (xyManager, { newview := "X", timer := 0 }) = some n1 ∧
      ticksToRotation RangeOrder.listed 100
        ({ xyManager with currview := 1 }, { newview := "Y", timer := 0 }) = some n2 ∧
      (n1 : Int) - (n2 : Int) =
        (((xyManager.viewweights.get "X").getD 0 : Nat) : Int) -
          (((xyManager.viewweights.get "Y").getD 0 : Nat) : Int)) :=
  have h := dwell_is_base_plus_weight RangeOrder.listed xyManager
    { newview := "X", timer := 0 } 100 (by decide) (by decide) (by decide) (by decide)
    (by decide)
  ⟨h.1, by decide,
    h.2.2 { xyManager with currview := 1 } { newview := "Y", timer := 0 } 100
      (by decide) (by decide) (by decide) (by decide) (by decide) (by decide)⟩

/-- C20: a tick of `ViewsManager` with `isConfChange` true does nothing: the
manager, with its `currview` and its log of sends, and the scheduler's timer and
last broadcast name are what they were. -/
theorem scheduler_idle_during_reconciliation (ord : RangeOrder) (rm : RedmonManager)
    (st : ViewsManagerState) (hflag : rm.isConfChange = true) :
    viewsManagerTick ord rm st = some (rm, st) ∧
    ∀ rm1 st1, viewsManagerTick ord rm st = some (rm1, st1) →
      rm1.currview = rm.currview ∧ st1.timer = st.timer ∧ st1.newview = st.newview ∧
      rm1.log = rm.log := by
  have h : viewsManagerTick ord rm st = some (rm, st) := by
    unfold viewsManagerTick
    simp [hflag]
  refine ⟨h, ?_⟩
  intro rm1 st1 h1
  rw [h] at h1
  simp only [Option.some.injEq, Prod.mk.injEq] at h1
  obtain ⟨rfl, rfl⟩ := h1
  exact ⟨rfl, rfl, rfl, rfl⟩

/-- Instance of `scheduler_idle_during_reconciliation`: the timer stands at the
dwell target of `X`, and the tick still does nothing. -/
theorem scheduler_idle_during_reconciliation_witness :
    viewsManagerTick RangeOrder.listed { xyManager with isConfChange := true }
        { newview := "X", timer := 7 } =
      some ({ xyManager with isConfChange := true }, { newview := "X", timer := 7 }) ∧
    (viewsManagerTick RangeOrder.listed xyManager { newview := "X", timer := 7 }).map
      (fun y => (y.1.currview, y.2, y.1.log)) =
      some (1, { newview := "Y", timer := 0 }, [Event.view 2 "Y", Event.view 5 "Y"]) :=
  ⟨(scheduler_idle_during_reconciliation RangeOrder.listed
      { xyManager with isConfChange := true } { newview := "X", timer := 7 } (by decide)).1,
    by decide⟩

/-! ## Faulty records -/

theorem updated_filter_decoded (records : List StoredRecord) :
    updatedSensors (records.filter StoredRecord.decoded) = updatedSensors records := by
  have hgen : ∀ (rs : List StoredRecord) (m : GoMap SensorConfig),
      (rs.filter StoredRecord.decoded).foldl
        (fun m r =>
          match r with
          | .config c => m.set c.Name c
          | _ => m) m =
      rs.foldl
        (fun m r =>
          match r with
          | .config c => m.set c.Name c
          | _ => m) m := by
    intro rs
    induction rs with
    | nil => exact fun m => rfl
    | cons r rs ih =>
      intro m
      cases r with
      | getFailed => simpa [List.filter_cons, StoredRecord.decoded] using ih m
      | malformed => simpa [List.filter_cons, StoredRecord.decoded] using ih m
      | config c => simpa [List.filter_cons, StoredRecord.decoded] using ih (m.set c.Name c)
  exact hgen records []

theorem closeLoop_start_event (upd : GoMap SensorConfig) (l : GoMap Sensor)
    (rm : RedmonManager) (name : String) (a b c : Nat)
    (h : Event.start name a b c ∈ (l.foldl (closeRemoved upd) rm).log) :
    Event.start name a b c ∈ rm.log := by
  rw [closeLoop_log, List.mem_append] at h
  rcases h with h | h
  · exact h
  · unfold closeEvents at h
    obtain ⟨e, -, he⟩ := List.mem_flatMap.mp h
    cases hg : upd.get e.1 <;> simp [hg] at he

theorem startLoop_start_event (src : String) (ss : GoMap Sensor) (l : GoMap SensorConfig)
    (rm : RedmonManager) (name : String) (a b c : Nat)
    (h : Event.start name a b c ∈ (l.foldl (startNew src ss) rm).log) :
    Event.start name a b c ∈ rm.log ∨ ∃ x ∈ l, x.1 = name ∧ knownType x.2 := by
  induction l generalizing rm with
  | nil => exact Or.inl h
  | cons y ys ih =>
    rw [List.foldl_cons] at h
    rcases ih _ h with h1 | ⟨x, hx, h2⟩
    · rcases startNew_cases src ss rm y with ⟨hy, -⟩ | ⟨-, hk, kind, hy⟩
      · rw [hy] at h1
        exact Or.inl h1
      · rw [hy] at h1
        simp only [register, newSensor, List.mem_append, List.mem_singleton,
          Event.start.injEq] at h1
        rcases h1 with h1 | h1
        · exact Or.inl h1
        · exact Or.inr ⟨y, List.mem_cons_self _ _, h1.1.symm, hk⟩
    · exact Or.inr ⟨x, List.mem_cons_of_mem _ hx, h2⟩

/-- C14, as stated, fails: the store holds a valid numeric record named `x`
followed by a record of the same name whose kind `gauge` is unknown.  No sensor
runs under `x`, and yet the pass starts none: in `updatedsensors` the name holds
the faulty record when the starting loop runs. -/
theorem valid_record_shadowed_by_faulty_one :
    shadowedStore redmonSource = some
      [.config (recordNamed "x"), .config { recordNamed "x" with SensorType := "gauge" }] ∧
    (recordNamed "x").SensorType = "numeric" ∧
    emptyManager.sensors.get "x" = none ∧
    (reconcileSource RangeOrder.listed shadowedStore emptyManager redmonSource).sensors = [] ∧
    (reconcileSource RangeOrder.listed shadowedStore emptyManager redmonSource).log = [] ∧
    (UpdateAutomaticSensors RangeOrder.listed shadowedStore emptyManager).map
      (fun r => (r.sensors, r.log, r.nextChan)) = some ([], [], 0) := by
  decide

/-- C14, amended: configuration errors do not stop the step that processes a
reachable source.  Keys whose value cannot be read or decoded have no effect at
all.  For a name carried only by records of unknown kind no sensor is started
and no registry entry appears that was not there.  Every decodable record of
kind numeric or string whose name no other decodable record carries, and for
which the source has no running sensor, gets a sensor built from it and
registered in the same step. -/
theorem config_errors_skipped (ord : RangeOrder) (store : Store) (rm : RedmonManager)
    (redconfig : SourceConfig) (records : List StoredRecord)
    (htype : redconfig.Stype = "redis") (hstore : store redconfig = some records) :
    (∀ store2 : Store, store2 redconfig = some (records.filter StoredRecord.decoded) →
      reconcileSource ord store2 rm redconfig = reconcileSource ord store rm redconfig) ∧
    (∀ name : String,
      (∀ c, StoredRecord.config c ∈ records → c.Name = name →
        ¬ (c.SensorType = "numeric" ∨ c.SensorType = "string")) →
      (∀ a b c, Event.start name a b c ∈ (reconcileSource ord store rm redconfig).log →
        Event.start name a b c ∈ rm.log) ∧
      (∀ s, (reconcileSource ord store rm redconfig).sensors.get name = some s →
        rm.sensors.get name = some s)) ∧
    (∀ c : SensorConfig, StoredRecord.config c ∈ records →
      (c.SensorType = "numeric" ∨ c.SensorType = "string") →
      (∀ c1, StoredRecord.config c1 ∈ records → c1.Name = c.Name → c1 = c) →
      (sourceSensors rm.sensors redconfig.Name).get c.Name = none →
      ∃ s, (reconcileSource ord store rm redconfig).sensors.get c.Name = some s ∧
        s.source = redconfig.Name ∧ s.key = c.Key ∧ s.views = c.Views ∧
        s.alert = c.Alert ∧ s.warning = c.Warning ∧ s.refresh = c.Refresh ∧
        rm.nextChan ≤ s.collkillchan) := by
  obtain ⟨hskip, hstart⟩ := reconcile_faulty_records ord store rm redconfig records htype hstore
  refine ⟨?_, ?_, hstart⟩
  · intro store2 hstore2
    rw [reconcileSource_eq ord store2 rm redconfig _ htype hstore2,
      reconcileSource_eq ord store rm redconfig records htype hstore, updated_filter_decoded]
  · intro name hbad
    constructor
    · intro a b c hev
      rw [reconcileSource_eq ord store rm redconfig records htype hstore] at hev
      rcases startLoop_start_event _ _ _ _ name a b c hev with h | ⟨x, hx, hxn, hk⟩
      · exact closeLoop_start_event _ _ _ name a b c h
      · obtain ⟨h1, h2⟩ := updated_mem records x ((ord.isPerm _).mem_iff.mp hx)
        exact absurd hk (hbad x.2 h1 (h2.trans hxn))
    · intro s hs
      by_cases hrun : (sourceSensors rm.sensors redconfig.Name).get name = none
      · rw [hskip name hbad hrun] at hs
        exact hs
      · by_cases hrec : (updatedSensors records).get name = none
        · rw [reconcile_removed ord store rm redconfig records name htype hstore hrun hrec] at hs
          cases hs
        · rw [reconcile_kept ord store rm redconfig records name htype hstore hrun hrec] at hs
          exact hs

/-- Instance of `config_errors_skipped`: a key that does not decode, the numeric
record `x` and the record `y` of unknown kind; `x` is started, `y` is not. -/
theorem config_errors_skipped_witness :
    (∃ s, (reconcileSource RangeOrder.listed faultyStore emptyManager redmonSource).sensors.get
        (recordNamed "x").Name = some s ∧
      s.source = redmonSource.Name ∧ s.key = (recordNamed "x").Key ∧
      s.views = (recordNamed "x").Views ∧ s.alert = (recordNamed "x").Alert ∧
      s.warning = (recordNamed "x").Warning ∧ s.refresh = (recordNamed "x").Refresh ∧
      emptyManager.nextChan ≤ s.collkillchan) ∧
    (reconcileSource RangeOrder.listed faultyStore emptyManager redmonSource).sensors =
      [("x", newSensor .numeric "x" "redmon" (recordNamed "x") 0)] ∧
    (reconcileSource RangeOrder.listed faultyStore emptyManager redmonSource).log =
      [Event.start "x" 0 1 2] :=
  ⟨(config_errors_skipped RangeOrder.listed faultyStore emptyManager redmonSource
      [.malformed, .config (recordNamed "x"),
        .config { recordNamed "y" with SensorType := "gauge" }]
      (by decide) (by decide)).2.2 (recordNamed "x") (by decide) (by decide)
      (by
        intro c1 hc1 hn
        simp only [List.mem_cons, StoredRecord.config.injEq, List.mem_singleton,
          List.not_mem_nil, or_false, false_or] at hc1
        rcases hc1 with h | h | h
        · cases h
        · exact h
        · rw [h] at hn
          exact absurd hn (by decide))
      (by decide),
    by decide, by decide⟩

/-! ## Collector and view actor steps -/

/-- C21: a collector tick that fires while `isConfChange` is true is skipped
entirely, for a sensor of either kind, whatever the data source would answer:
the tick returns, no request is sent on the request channel, no redraw is queued
and the sensor is the same afterwards, so its value, `inAlert` and `inWarning`
are what they were before the tick. -/
theorem tick_skipped_during_reconciliation (pf : String → ParseFloatResult) (gui : Bool)
    (lookup : Lookup) (sens : Sensor) :
    ∃ r, collectorTick pf gui lookup true sens = some r ∧
      r.requests = [] ∧ r.redraw = none ∧ r.sens = sens ∧
      r.sens.value = sens.value ∧ r.sens.inAlert = sens.inAlert ∧
      r.sens.inWarning = sens.inWarning ∧ r.sens.kind = sens.kind :=
  ⟨{ sens := sens, requests := [], redraw := none }, by simp [collectorTick],
    rfl, rfl, rfl, rfl, rfl, rfl, rfl⟩

/-- C22: after the view actor of a sensor received the view name `v` (any
string, the name `none` included), `inView` is true if and only if `v` is an
element of the sensor's views list, and no other field of the sensor changed:
value, `inAlert`, `inWarning` and the views list are what they were. -/
theorem view_actor_step (sens : Sensor) (v : String) :
    ((viewStep sens v).inView = true ↔ v ∈ sens.views) ∧
    ((viewStep sens "none").inView = true ↔ "none" ∈ sens.views) ∧
    viewStep sens v = { sens with inView := (viewStep sens v).inView } ∧
    (viewStep sens v).value = sens.value ∧ (viewStep sens v).inAlert = sens.inAlert ∧
    (viewStep sens v).inWarning = sens.inWarning ∧ (viewStep sens v).views = sens.views := by
  have h : ∀ w : String, viewStep sens w = { sens with inView := decide (w ∈ sens.views) } := by
    intro w
    unfold viewStep
    rw [isIn_eq]
    by_cases hw : w ∈ sens.views <;> simp [hw]
  refine ⟨?_, ?_, ?_, ?_, ?_, ?_, ?_⟩ <;> simp [h]

/-- C27: `processConditions` returns a boolean for every rule list and every
observed string.  The two slice indexings it performs are in bounds: the element
at index 1 of a rule split on `_` exists whenever the rule has the prefix
`max_`, and the element at index 0 of the observed string split on a space
exists always.  The rules `max_` (no number), `max_1_2` (several underscores) and
`max_abc` (no number at all) on the empty observed string give `false`. -/
theorem processConditions_never_panics (pf : String → ParseFloatResult)
    (conds : List String) (cond : String) :
    (∃ b, processConditions pf conds cond = some b) ∧
    (∀ c, HasPrefix c "max_" = true → ∃ y, (Split c '_')[1]? = some y) ∧
    (∃ v, (Split cond ' ')[0]? = some v) ∧
    processConditions ParseFloat ["max_", "max_1_2", "max_abc", "missing", "_"] "" =
      some false ∧
    (Split "max_" '_')[1]? = some "" ∧ (Split "max_1_2" '_')[1]? = some "1" ∧
    (Split "" ' ')[0]? = some "" :=
  ⟨⟨_, processConditions_eq_any pf conds cond⟩, fun c h => ⟨_, split_yield c h⟩,
    ⟨_, split_value cond⟩, by decide!, by decide, by decide, by decide⟩

/-- The new view list of `UpdateViews` is empty exactly when no registered sensor
lists a view. -/
theorem accumulator_nil_iff (ord : RangeOrder) (sensors : GoMap Sensor) :
    (viewAccumulator ord sensors).1 = [] ↔ ∀ e ∈ sensors, e.2.views = [] := by
  constructor
  · intro h e he
    cases hv : e.2.views with
    | nil => rfl
    | cons v vs =>
      have h1 : v ∈ (viewAccumulator ord sensors).1 := by
        rw [views_of_accumulator, mem_firstOccurrences, mem_viewsVisited]
        exact ⟨e, he, by simp [hv]⟩
      rw [h] at h1
      cases h1
  · intro h
    cases hv : (viewAccumulator ord sensors).1 with
    | nil => rfl
    | cons v vs =>
      have h1 : v ∈ (viewAccumulator ord sensors).1 := by simp [hv]
      rw [views_of_accumulator, mem_firstOccurrences, mem_viewsVisited] at h1
      obtain ⟨e, he, hm⟩ := h1
      rw [h e he] at hm
      cases hm

/-- The code run on the input on which C28 fails: with one registered sensor
whose views list is empty, `UpdateViews` panics at `rm.views[0]`; a
reconciliation pass that starts a sensor from a stored record without views,
on an empty registry, panics in the same place.  In general `UpdateViews`
panics exactly when the registry is not empty and every registered sensor has
an empty views list. -/
theorem updateViews_panics_without_views :
    UpdateViews RangeOrder.listed viewlessManager = none ∧
    UpdateAutomaticSensors RangeOrder.listed viewlessStore emptyManager = none ∧
    ∀ (ord : RangeOrder) (rm : RedmonManager),
      UpdateViews ord rm = none ↔ (rm.sensors ≠ [] ∧ ∀ e ∈ rm.sensors, e.2.views = []) := by
  refine ⟨by decide, by decide, ?_⟩
  intro ord rm
  rcases updateViews_result ord rm with ⟨h1, h2, h3⟩ | ⟨r, h1, -, -, -, -, h2⟩
  · simp only [h1, true_iff]
    exact ⟨h2, (accumulator_nil_iff ord rm.sensors).mp h3⟩
  · rw [h1]
    refine ⟨fun h => Option.noConfusion h, ?_⟩
    rintro ⟨h3, h4⟩
    exfalso
    rcases h2 with h2 | h2
    · exact h3 h2
    · exact h2 ((accumulator_nil_iff ord rm.sensors).mpr h4)

/-! ## Metrics export -/

/-- C23: the samples `Collect` sends after the leading `redmon_up` sample, for
any registry and any visiting order: a sample with name `n` and value `v` is
sent if and only if the registry holds under `n` a sensor of kind numeric whose
whole value string parses (nil error) to `v`; there is one sample per such
registry entry and none for any other.  Sensors of kind string produce no
sample, and the strings `MISSING`, `EMPTY`, `SUSPENDED` and `5 pct` do not
parse, so a numeric sensor holding one of them produces none. -/
theorem collect_samples (pf : String → ParseFloatResult) (ord : RangeOrder)
    (sensors : GoMap Sensor) :
    ∃ l, Collect pf ord sensors = upMetric :: l ∧
      (∀ n v, ({ fqName := n, value := v } : Metric) ∈ l ↔
        ∃ s, (n, s) ∈ sensors ∧ s.kind = .numeric ∧ pf s.value = .ok v) ∧
      l.length =
        (sensors.filter (fun e => decide (e.2.kind = .numeric) && (pf e.2.value).isOk)).length ∧
      (∀ n, (∀ s, (n, s) ∈ sensors → s.kind = .string) →
        ∀ v, ({ fqName := n, value := v } : Metric) ∉ l) ∧
      (∀ n, (∀ s, (n, s) ∈ sensors → (pf s.value).isOk = false) →
        ∀ v, ({ fqName := n, value := v } : Metric) ∉ l) ∧
      (ParseFloat "MISSING").isOk = false ∧ (ParseFloat "EMPTY").isOk = false ∧
      (ParseFloat "SUSPENDED").isOk = false ∧ (ParseFloat "5 pct").isOk = false ∧
      (ParseFloat "5").isOk = true := by
  have hiff : ∀ n v, ({ fqName := n, value := v } : Metric) ∈
      (ord.perm sensors).flatMap (fun e =>
        if e.2.GetType = "numeric" then
          match pf e.2.value with
          | .ok val => [({ fqName := e.1, value := val } : Metric)]
          | _ => []
        else []) ↔
      ∃ s, (n, s) ∈ sensors ∧ s.kind = .numeric ∧ pf s.value = .ok v := by
    intro n v
    simp only [List.mem_flatMap]
    constructor
    · rintro ⟨e, he, hm⟩
      have he1 : e ∈ sensors := (ord.isPerm sensors).mem_iff.mp he
      cases hk : e.2.kind with
      | string => simp [Sensor.GetType, hk] at hm
      | numeric =>
        cases hp : pf e.2.value with
        | ok val =>
          simp only [Sensor.GetType, hk, if_true, hp, List.mem_singleton, Metric.mk.injEq] at hm
          obtain ⟨h1, h2⟩ := hm
          refine ⟨e.2, ?_, hk, ?_⟩
          · rw [h1]
            exact he1
          · rw [hp, h2]
        | errRange b => simp [Sensor.GetType, hk, hp] at hm
        | errSyntax => simp [Sensor.GetType, hk, hp] at hm
    · rintro ⟨s, hs, hk, hp⟩
      refine ⟨(n, s), (ord.isPerm sensors).mem_iff.mpr hs, ?_⟩
      simp [Sensor.GetType, hk, hp]
  refine ⟨_, rfl, hiff, ?_, ?_, ?_, by decide!, by decide!, by decide!, by decide!, by decide!⟩
  · rw [← (ord.isPerm sensors).filter _ |>.length_eq]
    generalize ord.perm sensors = es
    induction es with
    | nil => rfl
    | cons e es ih =>
      rw [List.flatMap_cons, List.length_append, ih, List.filter_cons]
      cases hk : e.2.kind with
      | string => simp [Sensor.GetType, hk]
      | numeric =>
        cases hp : pf e.2.value with
        | ok val => simp [Sensor.GetType, hk, hp, ParseFloatResult.isOk]; omega
        | errRange b => simp [Sensor.GetType, hk, hp, ParseFloatResult.isOk]
        | errSyntax => simp [Sensor.GetType, hk, hp, ParseFloatResult.isOk]
  · intro n hn v hm
    obtain ⟨s1, hs1, hk, -⟩ := (hiff n v).mp hm
    rw [hn s1 hs1] at hk
    cases hk
  · intro n hn v hm
    obtain ⟨s1, hs1, -, hp⟩ := (hiff n v).mp hm
    have := hn s1 hs1
    rw [hp] at this
    cases this

/-! ## The reconciliation driver -/

theorem closeLoop_updatein (upd : GoMap SensorConfig) (l : GoMap Sensor) (rm : RedmonManager) :
    (l.foldl (closeRemoved upd) rm).updatein = rm.updatein := by
  induction l generalizing rm with
  | nil => rfl
  | cons e es ih =>
    rw [List.foldl_cons, ih]
    unfold closeRemoved
    split <;> rfl

theorem startLoop_updatein (src : String) (ss : GoMap Sensor) (l : GoMap SensorConfig)
    (rm : RedmonManager) : (l.foldl (startNew src ss) rm).updatein = rm.updatein := by
  induction l generalizing rm with
  | nil => rfl
  | cons e es ih =>
    rw [List.foldl_cons, ih]
    rcases startNew_cases src ss rm e with ⟨h, -⟩ | ⟨-, -, kind, h⟩
    · rw [h]
    · rw [h]
      rfl

theorem reconcile_updatein (ord : RangeOrder) (store : Store) (rm : RedmonManager)
    (redconfig : SourceConfig) :
    (reconcileSource ord store rm redconfig).updatein = rm.updatein := by
  rcases reconcileSource_cases ord store rm redconfig with h | ⟨records, htype, hstore⟩
  · rw [h]
  · rw [reconcileSource_eq ord store rm redconfig records htype hstore, startLoop_updatein,
      closeLoop_updatein]

theorem reconcileAll_updatein (ord : RangeOrder) (store : Store) (l : List SourceConfig)
    (rm : RedmonManager) : (l.foldl (reconcileSource ord store) rm).updatein = rm.updatein := by
  induction l generalizing rm with
  | nil => rfl
  | cons c cs ih => rw [List.foldl_cons, ih, reconcile_updatein]

theorem updateViews_updatein (ord : RangeOrder) (rm r : RedmonManager)
    (h : UpdateViews ord rm = some r) : r.updatein = rm.updatein := by
  unfold UpdateViews at h
  simp only at h
  split at h
  · cases h
    rfl
  · cases h
  · cases h
    rfl

/-- A reconciliation pass does not touch the countdown of the driver. -/
theorem pass_updatein (ord : RangeOrder) (store : Store) (rm r : RedmonManager)
    (h : UpdateAutomaticSensors ord store rm = some r) : r.updatein = rm.updatein := by
  unfold UpdateAutomaticSensors at h
  simp only [Option.map_eq_some'] at h
  obtain ⟨r1, h1, h2⟩ := h
  rw [← h2]
  show r1.updatein = rm.updatein
  rw [updateViews_updatein ord _ r1 h1, reconcileAll_updatein]

/-- What one tick of the driver does to the countdown. -/
theorem updateManagerTick_cases (ord : RangeOrder) (store : Store) (rm r : RedmonManager)
    (b : Bool) (h : updateManagerTick ord store rm = some (r, b)) :
    (rm.updatein = 0 ∧ b = true ∧ r.updatein = UPDATEINTERVAL) ∨
    (rm.updatein ≠ 0 ∧ b = false ∧ r.updatein = rm.updatein - 1) := by
  unfold updateManagerTick at h
  by_cases h0 : rm.updatein = 0
  · simp only [h0, if_true] at h
    split at h
    · cases h
    · rename_i r1 hr
      simp only [Option.some.injEq, Prod.mk.injEq] at h
      refine Or.inl ⟨h0, h.2.symm, ?_⟩
      rw [← h.1]
      exact pass_updatein ord store _ r1 hr
  · simp only [h0, if_false, Option.some.injEq, Prod.mk.injEq] at h
    refine Or.inr ⟨h0, h.2.symm, ?_⟩
    rw [← h.1]

/-- The ticks of the driver loop that run a pass, counted from a state with any
countdown: the countdown runs to 0 on as many ticks, the next tick runs the
pass, and from then on every 301st tick does. -/
theorem updateManagerLoop_flags (ord : RangeOrder) (stores : Nat → Store) (n k : Nat)
    (rm r : RedmonManager) (flags : List Bool)
    (h : updateManagerLoop ord stores n k rm = some (r, flags)) :
    flags = (List.range n).map
      (fun i => decide (rm.updatein ≤ i ∧ (i - rm.updatein) % (UPDATEINTERVAL + 1) = 0)) := by
  induction n generalizing k rm r flags with
  | zero =>
    simp only [updateManagerLoop, Option.some.injEq, Prod.mk.injEq] at h
    simp [h.2.symm]
  | succ n ih =>
    rw [updateManagerLoop] at h
    split at h
    · cases h
    · rename_i r1 b ht
      split at h
      · cases h
      · rename_i r2 fl hl
        simp only [Option.some.injEq, Prod.mk.injEq] at h
        rw [← h.2, ih (k + 1) r1 r2 fl hl, List.range_succ_eq_map, List.map_cons, List.map_map]
        rcases updateManagerTick_cases ord (stores k) rm r1 b ht with ⟨h0, hb, hu⟩ | ⟨h0, hb, hu⟩
        · rw [hb, hu, h0]
          congr 1
          apply List.map_congr_left
          intro i _
          simp only [Function.comp, UPDATEINTERVAL, decide_eq_decide]
          omega
        · rw [hb, hu]
          congr 1
          · simp [h0]
          · apply List.map_congr_left
            intro i _
            simp only [Function.comp, UPDATEINTERVAL, decide_eq_decide]
            omega

/-- The code run against C24.  The startup pass runs unconditionally, but the
periodic passes come every 301 ticks, not every 300: started on an empty
registry with the records `B`, `C`, `D` in the store, the driver runs no pass on
its ticks 1 to 300, runs the first periodic pass on tick 301, none on ticks 302
to 601 and the second on tick 602.  In general, in any run of `UpdateManager`
that no pass makes panic, tick number `t` (counted from 1) runs a pass exactly
when `t` is a multiple of `UPDATEINTERVAL + 1`. -/
theorem periodic_pass_on_tick_301 :
    (UpdateManager RangeOrder.listed (fun _ => bcdStore) 602 emptyManager).map Prod.snd =
      some (List.replicate 300 false ++ [true] ++ List.replicate 300 false ++ [true]) ∧
    (∀ (ord : RangeOrder) (stores : Nat → Store) (rm r0 : RedmonManager),
      UpdateAutomaticSensors ord (stores 0) rm = some r0 →
        UpdateManager ord stores 0 rm =
          some ({ r0 with isConfChange := false, updatein := UPDATEINTERVAL }, [])) ∧
    ∀ (ord : RangeOrder) (stores : Nat → Store) (n : Nat) (rm r : RedmonManager)
      (flags : List Bool), UpdateManager ord stores n rm = some (r, flags) →
        flags = (List.range n).map (fun i => decide ((i + 1) % (UPDATEINTERVAL + 1) = 0)) := by
  refine ⟨by decide!, ?_, ?_⟩
  · intro ord stores rm r0 h
    have h1 : UpdateAutomaticSensors ord (stores 0) { rm with isConfChange := true } =
        UpdateAutomaticSensors ord (stores 0) rm := rfl
    simp [UpdateManager, updateManagerStart, h1, h, updateManagerLoop]
  · intro ord stores n rm r flags h
    unfold UpdateManager at h
    split at h
    · cases h
    · rename_i r1 hs
      have hu : r1.updatein = UPDATEINTERVAL := by
        unfold updateManagerStart at hs
        split at hs
        · cases hs
        · cases hs
          rfl
      rw [updateManagerLoop_flags ord stores n 1 r1 r flags h, hu]
      apply List.map_congr_left
      intro i _
      simp only [UPDATEINTERVAL, decide_eq_decide]
      omega

/-! ## Layout: the key groups -/

theorem groups_fold (v : String) (es : GoMap Sensor) (g : KeyGroups) :
    (es.foldl (groupKey v) g).alertkeys =
      g.alertkeys ++ (es.filter (fun e => e.2.inAlert)).map Prod.fst ∧
    (es.foldl (groupKey v) g).warnkeys =
      g.warnkeys ++ (es.filter (fun e => !e.2.inAlert && e.2.inWarning)).map Prod.fst ∧
    (es.foldl (groupKey v) g).shownkeys =
      g.shownkeys ++
        (es.filter (fun e => !e.2.inAlert && !e.2.inWarning && IsIn e.2.views v)).map
          Prod.fst := by
  induction es generalizing g with
  | nil => simp
  | cons e es ih =>
    rw [List.foldl_cons]
    obtain ⟨h1, h2, h3⟩ := ih (groupKey v g e)
    rw [h1, h2, h3]
    unfold groupKey
    by_cases ha : e.2.inAlert = true
    · simp [ha, List.filter_cons]
    · by_cases hw : e.2.inWarning = true
      · simp [ha, hw, List.filter_cons]
      · by_cases hv : IsIn e.2.views v = true
        · simp [ha, hw, hv, List.filter_cons]
        · simp [ha, hw, hv, List.filter_cons]

theorem sortStrings_perm (l : List String) : (sortStrings l).Perm l :=
  List.perm_insertionSort _ l

/-- In a map, the keys of the entries that pass a test list each such entry
once. -/
theorem count_filter_keys (p : String × Sensor → Bool) (es : GoMap Sensor)
    (hk : (es.map Prod.fst).Nodup) (e : String × Sensor) (he : e ∈ es) :
    ((es.filter p).map Prod.fst).count e.1 = if p e = true then 1 else 0 := by
  induction es with
  | nil => cases he
  | cons x xs ih =>
    rw [List.map_cons, List.nodup_cons] at hk
    rcases List.mem_cons.mp he with h | h
    · subst h
      have h0 : ((xs.filter p).map Prod.fst).count e.1 = 0 := by
        apply List.count_eq_zero_of_not_mem
        intro hm
        apply hk.1
        obtain ⟨y, hy, hy1⟩ := List.mem_map.mp hm
        exact List.mem_map.mpr ⟨y, (List.mem_filter.mp hy).1, hy1⟩
      by_cases hp : p e = true
      · simp [List.filter_cons, hp, h0]
      · simp [List.filter_cons, hp, h0]
    · have hne : x.1 ≠ e.1 := by
        intro hx
        apply hk.1
        rw [hx]
        exact List.mem_map.mpr ⟨e, h, rfl⟩
      by_cases hp : p x = true
      · simp [List.filter_cons, hp, List.count_cons, hne, ih hk.2 h]
      · simp [List.filter_cons, hp, ih hk.2 h]

theorem not_mem_filter_keys (p : String × Sensor → Bool) (es : GoMap Sensor) (k : String)
    (hk : k ∉ es.map Prod.fst) : k ∉ (es.filter p).map Prod.fst := by
  intro hm
  apply hk
  obtain ⟨y, hy, hy1⟩ := List.mem_map.mp hm
  exact List.mem_map.mpr ⟨y, (List.mem_filter.mp hy).1, hy1⟩

/-- The key groups of `Layout` as rearrangements of the filtered registry. -/
theorem layoutGroups_perm (ord : RangeOrder) (sensors : GoMap Sensor) (v : String) :
    (layoutGroups ord sensors v).alertkeys.Perm
      ((sensors.filter (fun e => e.2.inAlert)).map Prod.fst) ∧
    (layoutGroups ord sensors v).warnkeys.Perm
      ((sensors.filter (fun e => !e.2.inAlert && e.2.inWarning)).map Prod.fst) ∧
    (layoutGroups ord sensors v).shownkeys.Perm
      ((sensors.filter (fun e => !e.2.inAlert && !e.2.inWarning && IsIn e.2.views v)).map
        Prod.fst) := by
  obtain ⟨h1, h2, h3⟩ := groups_fold v (ord.perm sensors)
    { alertkeys := [], warnkeys := [], shownkeys := [] }
  unfold layoutGroups
  simp only [h1, h2, h3, List.nil_append]
  exact ⟨(sortStrings_perm _).trans (((ord.isPerm sensors).filter _).map _),
    (sortStrings_perm _).trans (((ord.isPerm sensors).filter _).map _),
    (sortStrings_perm _).trans (((ord.isPerm sensors).filter _).map _)⟩

/-- How often the name of a registry entry occurs in each key group. -/
theorem layoutGroups_count (ord : RangeOrder) (sensors : GoMap Sensor) (v : String)
    (hk : (sensors.map Prod.fst).Nodup) (e : String × Sensor) (he : e ∈ sensors) :
    (layoutGroups ord sensors v).alertkeys.count e.1 = (if e.2.inAlert = true then 1 else 0) ∧
    (layoutGroups ord sensors v).warnkeys.count e.1 =
      (if (!e.2.inAlert && e.2.inWarning) = true then 1 else 0) ∧
    (layoutGroups ord sensors v).shownkeys.count e.1 =
      (if (!e.2.inAlert && !e.2.inWarning && IsIn e.2.views v) = true then 1 else 0) := by
  obtain ⟨h1, h2, h3⟩ := layoutGroups_perm ord sensors v
  rw [h1.count_eq, h2.count_eq, h3.count_eq]
  exact ⟨count_filter_keys _ sensors hk e he, count_filter_keys _ sensors hk e he,
    count_filter_keys _ sensors hk e he⟩

/-! ## Layout: the cells drawn -/

theorem drawn_of_ite {c : Prop} [Decidable c] {x d1 : Drawing}
    (h : (if c then DrawResult.failed else DrawResult.drawn x) = .drawn d1) : x = d1 := by
  by_cases hc : c
  · rw [if_pos hc] at h
    cases h
  · rw [if_neg hc] at h
    cases h
    rfl

theorem drawCell_drawn (invalid : String → Int → Int → Int → Int → Bool)
    (sensors : GoMap Sensor) (shown : GoMap Int) (sline : GoMap Nat) (d d1 : Drawing)
    (k : Colour × String) (h : drawCell invalid sensors shown sline d k = .drawn d1) :
    ∃ sens c, sensors.get k.2 = some sens ∧ d1.cells = d.cells ++ [c] ∧ c.name = k.2 ∧
      (c.text = none ∨ c.text = some (k.1, sens.value)) := by
  unfold drawCell at h
  cases hs : sensors.get k.2 with
  | none =>
    rw [hs] at h
    cases h
  | some sens =>
    rw [hs] at h
    have h1 := drawn_of_ite h
    rw [← h1]
    by_cases hl : (sline.get k.2).getD 0 ≠ d.currL
    · simp only [if_pos hl]
      refine ⟨sens, _, rfl, rfl, rfl, ?_⟩
      simp only
      split
      · exact Or.inl rfl
      · exact Or.inr rfl
    · simp only [if_neg hl]
      refine ⟨sens, _, rfl, rfl, rfl, ?_⟩
      simp only
      split
      · exact Or.inl rfl
      · exact Or.inr rfl

/-- The cells of a drawing loop that ran to its end: one per key, in order, each
printed, if at all, in the colour of its loop with the value of the sensor
registered under the key. -/
theorem drawCells_drawn (invalid : String → Int → Int → Int → Int → Bool)
    (sensors : GoMap Sensor) (shown : GoMap Int) (sline : GoMap Nat)
    (ks : List (Colour × String)) (d d1 : Drawing)
    (h : drawCells invalid sensors shown sline ks d = .drawn d1) :
    d1.cells.map Cell.name = d.cells.map Cell.name ++ ks.map Prod.snd ∧
    ∀ c ∈ d1.cells, c ∈ d.cells ∨ ∃ k ∈ ks, ∃ sens, c.name = k.2 ∧
      sensors.get k.2 = some sens ∧ (c.text = none ∨ c.text = some (k.1, sens.value)) := by
  induction ks generalizing d with
  | nil =>
    simp only [drawCells, DrawResult.drawn.injEq] at h
    subst h
    exact ⟨by simp, fun c hc => Or.inl hc⟩
  | cons k ks ih =>
    rw [drawCells] at h
    split at h
    · rename_i d2 hd
      obtain ⟨sens, c0, hs, hc0, hn, ht⟩ := drawCell_drawn invalid sensors shown sline d d2 k hd
      obtain ⟨h1, h2⟩ := ih d2 h
      constructor
      · rw [h1, hc0]
        simp [hn]
      · intro c hc
        rcases h2 c hc with h3 | ⟨k1, hk1, s1, h4⟩
        · rw [hc0] at h3
          rcases List.mem_append.mp h3 with h5 | h5
          · exact Or.inl h5
          · have h6 : c = c0 := by simpa using h5
            subst h6
            exact Or.inr ⟨k, List.mem_cons_self _ _, sens, hn, hs, ht⟩
        · exact Or.inr ⟨k1, List.mem_cons_of_mem _ hk1, s1, h4⟩
    · cases h
    · cases h

/-- What a call of `Layout` that returns nil has gone through. -/
theorem layout_done (invalid : String → Int → Int → Int → Int → Bool) (ord : RangeOrder)
    (fuel : Nat) (maxX : Int) (rm r : RedmonManager) (cells : List Cell)
    (h : Layout invalid ord fuel maxX rm = .done r cells) :
    ∃ v shown sline gui d, currentViewName rm = some v ∧
      drawCells invalid rm.sensors shown sline
        ((layoutGroups ord rm.sensors v).alertkeys.map (fun k => (Colour.red, k)) ++
          (layoutGroups ord rm.sensors v).warnkeys.map (fun k => (Colour.yellow, k)) ++
          (layoutGroups ord rm.sensors v).shownkeys.map (fun k => (Colour.green, k)))
        { currX := 0, currY := 3, currL := 0, gui := gui, cells := [] } = .drawn d ∧
      cells = d.cells := by
  unfold Layout at h
  split at h
  · cases h
  · split at h
    · cases h
    · rename_i v hv
      split at h
      · cases h
      · simp only at h
        split at h
        · cases h
        · split at h
          · cases h
          · split at h
            · cases h
            · cases h
            · split at h
              · cases h
              · cases h
              · rename_i d hd
                simp only [LayoutResult.done.injEq] at h
                exact ⟨v, _, _, _, d, hv, hd, h.2.symm⟩

/-- A key of a group is the name of a registry entry of the group's severity. -/
theorem layoutGroups_mem (ord : RangeOrder) (sensors : GoMap Sensor) (v k : String) :
    (k ∈ (layoutGroups ord sensors v).alertkeys →
      ∃ s, (k, s) ∈ sensors ∧ s.inAlert = true) ∧
    (k ∈ (layoutGroups ord sensors v).warnkeys →
      ∃ s, (k, s) ∈ sensors ∧ s.inAlert = false ∧ s.inWarning = true) ∧
    (k ∈ (layoutGroups ord sensors v).shownkeys →
      ∃ s, (k, s) ∈ sensors ∧ s.inAlert = false ∧ s.inWarning = false) := by
  obtain ⟨h1, h2, h3⟩ := layoutGroups_perm ord sensors v
  refine ⟨?_, ?_, ?_⟩
  · intro hm
    obtain ⟨e, he, hk⟩ := List.mem_map.mp (h1.mem_iff.mp hm)
    obtain ⟨he1, he2⟩ := List.mem_filter.mp he
    exact ⟨e.2, by rw [← hk]; exact he1, he2⟩
  · intro hm
    obtain ⟨e, he, hk⟩ := List.mem_map.mp (h2.mem_iff.mp hm)
    obtain ⟨he1, he2⟩ := List.mem_filter.mp he
    simp only [Bool.and_eq_true, Bool.not_eq_true'] at he2
    exact ⟨e.2, by rw [← hk]; exact he1, he2.1, he2.2⟩
  · intro hm
    obtain ⟨e, he, hk⟩ := List.mem_map.mp (h3.mem_iff.mp hm)
    obtain ⟨he1, he2⟩ := List.mem_filter.mp he
    simp only [Bool.and_eq_true, Bool.not_eq_true'] at he2
    exact ⟨e.2, by rw [← hk]; exact he1, he2.1.1, he2.1.2⟩

/-- C25, as stated, fails: `Layout` does not place every sensor in a group.  With
the view `X` selected, the registered sensor `d`, which is neither in alert nor
in warning and lists only the view `Y`, is in none of `alertkeys`, `warnkeys`
and `shownkeys`, and the call of `Layout` sets no cell for it. -/
theorem unflagged_sensor_of_other_view_in_no_group :
    (severityManager.sensors.get "d").isSome = true ∧
    currentViewName severityManager = some "X" ∧
    "d" ∉ (layoutGroups RangeOrder.listed severityManager.sensors "X").alertkeys ∧
    "d" ∉ (layoutGroups RangeOrder.listed severityManager.sensors "X").warnkeys ∧
    "d" ∉ (layoutGroups RangeOrder.listed severityManager.sensors "X").shownkeys ∧
    ∃ r cells, Layout gocuiInvalid RangeOrder.listed 100 30 severityManager = .done r cells ∧
      cells.map Cell.name = ["a", "b", "c"] := by
  refine ⟨by decide, by decide, by decide!, by decide!, by decide!, ?_⟩
  have h : ∀ x : LayoutResult, x = Layout gocuiInvalid RangeOrder.listed 100 30 severityManager →
      (match x with
        | .done _ cells => decide (cells.map Cell.name = ["a", "b", "c"])
        | _ => false) = true →
      ∃ r cells, x = .done r cells ∧ cells.map Cell.name = ["a", "b", "c"] := by
    intro x _ hx
    cases x with
    | done r cells => exact ⟨r, cells, rfl, by simpa using hx⟩
    | failed => cases hx
    | panic => cases hx
    | running => cases hx
  exact h _ rfl (by decide!)

/-- C25, amended.  The colour of the redraw a collector tick queues is red when
the sensor is in alert, also when it is in warning as well, yellow when it is in
warning and not in alert, and green otherwise.  `Layout` puts the name of every
registered sensor in at most one of its three key groups, by the same
precedence: in `alertkeys` when the sensor is in alert, in `warnkeys` when it is
in warning and not in alert, in `shownkeys` when it is in neither and lists the
current view; a sensor in neither that does not list the current view is in no
group, and so is every name that is not registered.  A call of `Layout` that
returns nil has set one cell per key of the three groups, and whatever it
printed into the cell of a sensor is the sensor's value in the colour of its
severity, so a sensor in alert and in warning is drawn only as alert. -/
theorem severity_precedence (pf : String → ParseFloatResult) (gui : Bool) (lookup : Lookup)
    (flag : Bool) (sens : Sensor) (invalid : String → Int → Int → Int → Int → Bool)
    (ord : RangeOrder) (fuel : Nat) (maxX : Int) (rm : RedmonManager)
    (hk : (rm.sensors.map Prod.fst).Nodup) :
    (∀ r c, collectorTick pf gui lookup flag sens = some r → r.redraw = some c →
      c = severityColour r.sens.inAlert r.sens.inWarning) ∧
    (severityColour true true = .red ∧ severityColour true false = .red ∧
      severityColour false true = .yellow ∧ severityColour false false = .green) ∧
    (∀ v e, e ∈ rm.sensors →
      (layoutGroups ord rm.sensors v).alertkeys.count e.1 =
        (if e.2.inAlert = true then 1 else 0) ∧
      (layoutGroups ord rm.sensors v).warnkeys.count e.1 =
        (if e.2.inAlert = false ∧ e.2.inWarning = true then 1 else 0) ∧
      (layoutGroups ord rm.sensors v).shownkeys.count e.1 =
        (if e.2.inAlert = false ∧ e.2.inWarning = false ∧ v ∈ e.2.views then 1 else 0)) ∧
    (∀ v k, k ∉ rm.sensors.map Prod.fst →
      k ∉ (layoutGroups ord rm.sensors v).alertkeys ∧
      k ∉ (layoutGroups ord rm.sensors v).warnkeys ∧
      k ∉ (layoutGroups ord rm.sensors v).shownkeys) ∧
    (∀ r cells, Layout invalid ord fuel maxX rm = .done r cells →
      ∃ v, currentViewName rm = some v ∧
        cells.map Cell.name =
          (layoutGroups ord rm.sensors v).alertkeys ++ (layoutGroups ord rm.sensors v).warnkeys ++
            (layoutGroups ord rm.sensors v).shownkeys ∧
        ∀ c ∈ cells, ∃ s, (c.name, s) ∈ rm.sensors ∧
          (c.text = none ∨
            c.text = some (severityColour s.inAlert s.inWarning, s.value))) := by
  refine ⟨?_, by decide, ?_, ?_, ?_⟩
  · intro r c hr hc
    have hstore : ∀ (s : Sensor) (nv : String) (rq : List String),
        (storeValue gui s nv rq).redraw = some c →
          c = severityColour (storeValue gui s nv rq).sens.inAlert
            (storeValue gui s nv rq).sens.inWarning := by
      intro s nv rq h
      unfold storeValue at h ⊢
      by_cases h1 : nv = s.value
      · simp [h1] at h
      · simp only [ne_eq, h1, not_false_eq_true, if_true] at h ⊢
        split at h
        · rename_i h2
          simp only [h2, if_true]
          simp only [Option.some.injEq] at h
          rw [← h]
          rfl
        · cases h
    unfold collectorTick at hr
    by_cases hf : flag = true
    · simp only [hf, if_true, Option.some.injEq] at hr
      rw [← hr] at hc
      cases hc
    · simp only [hf, if_false, Bool.false_eq_true, processConditions_eq_any] at hr
      split at hr
      · simp only [Option.some.injEq] at hr
        rw [← hr] at hc ⊢
        exact hstore _ _ _ hc
      · simp only [Option.some.injEq] at hr
        rw [← hr] at hc ⊢
        exact hstore _ _ _ hc
  · intro v e he
    obtain ⟨h1, h2, h3⟩ := layoutGroups_count ord rm.sensors v hk e he
    rw [h1, h2, h3]
    refine ⟨rfl, ?_, ?_⟩
    · cases e.2.inAlert <;> cases e.2.inWarning <;> simp
    · rw [isIn_eq]
      cases e.2.inAlert <;> cases e.2.inWarning <;> simp
  · intro v k hn
    obtain ⟨h1, h2, h3⟩ := layoutGroups_perm ord rm.sensors v
    exact ⟨fun h => not_mem_filter_keys _ _ k hn (h1.mem_iff.mp h),
      fun h => not_mem_filter_keys _ _ k hn (h2.mem_iff.mp h),
      fun h => not_mem_filter_keys _ _ k hn (h3.mem_iff.mp h)⟩
  · intro r cells h
    obtain ⟨v, shown, sline, g, d, hv, hd, hc⟩ := layout_done invalid ord fuel maxX rm r cells h
    obtain ⟨h1, h2⟩ := drawCells_drawn invalid rm.sensors shown sline _ _ d hd
    refine ⟨v, hv, ?_, ?_⟩
    · rw [hc, h1]
      simp [List.map_append, List.map_map, Function.comp]
    · intro c hcm
      rw [hc] at hcm
      rcases h2 c hcm with h3 | ⟨k, hkm, s, hn, hs, ht⟩
      · cases h3
      · refine ⟨s, by rw [hn]; exact mem_of_get _ _ _ hs, ?_⟩
        rcases ht with ht | ht
        · exact Or.inl ht
        · right
          rw [ht]
          obtain ⟨ga, gw, gs⟩ := layoutGroups_mem ord rm.sensors v k.2
          have hsame : ∀ s1, (k.2, s1) ∈ rm.sensors → s1 = s := by
            intro s1 hs1
            have := get_of_mem rm.sensors k.2 s1 hk hs1
            rw [hs] at this
            exact (Option.some.inj this).symm
          simp only [List.mem_append, List.mem_map] at hkm
          rcases hkm with (⟨k1, hk1, hk2⟩ | ⟨k1, hk1, hk2⟩) | ⟨k1, hk1, hk2⟩
          · obtain ⟨s1, hs1, ha⟩ := ga (by rw [← hk2]; exact hk1)
            rw [hsame s1 hs1] at ha
            rw [← hk2, ha]
            rfl
          · obtain ⟨s1, hs1, ha, hw⟩ := gw (by rw [← hk2]; exact hk1)
            rw [hsame s1 hs1] at ha hw
            rw [← hk2, ha, hw]
            rfl
          · obtain ⟨s1, hs1, ha, hw⟩ := gs (by rw [← hk2]; exact hk1)
            rw [hsame s1 hs1] at ha hw
            rw [← hk2, ha, hw]
            rfl

/-- Instance of `severity_precedence`: in the example registry the sensor `a`,
in alert and in warning, is once in `alertkeys` and in no other group, and the
call of `Layout` prints every new cell in the colour of its sensor's
severity. -/
theorem severity_precedence_witness :
    (severityManager.sensors.map Prod.fst).Nodup ∧
    ((layoutGroups RangeOrder.listed severityManager.sensors "X").alertkeys.count "a" = 1 ∧
      (layoutGroups RangeOrder.listed severityManager.sensors "X").warnkeys.count "a" = 0 ∧
      (layoutGroups RangeOrder.listed severityManager.sensors "X").shownkeys.count "a" = 0) ∧
    (∀ r cells, Layout gocuiInvalid RangeOrder.listed 100 30 severityManager = .done r cells →
      ∃ v, currentViewName severityManager = some v ∧
        cells.map Cell.name =
          (layoutGroups RangeOrder.listed severityManager.sensors v).alertkeys ++
            (layoutGroups RangeOrder.listed severityManager.sensors v).warnkeys ++
            (layoutGroups RangeOrder.listed severityManager.sensors v).shownkeys ∧
        ∀ c ∈ cells, ∃ s, (c.name, s) ∈ severityManager.sensors ∧
          (c.text = none ∨
            c.text = some (severityColour s.inAlert s.inWarning, s.value))) :=
  have h := severity_precedence ParseFloat true cpuLookup false cpuSensor gocuiInvalid
    RangeOrder.listed 100 30 severityManager (by decide)
  ⟨by decide,
    h.2.2.1 "X"
      ("a", { sensorWithViews "a" 0 ["Y"] with
              value := "1", inAlert := true, inWarning := true })
      (by simp [severityManager]),
    h.2.2.2.2⟩

/-! ## The index of the current view -/

theorem tick_view_state (ord : RangeOrder) (rm r : RedmonManager) (st st1 : ViewsManagerState)
    (h : viewsManagerTick ord rm st = some (r, st1)) :
    r.views = rm.views ∧
    (r.currview = rm.currview ∨
      r.currview = if rm.currview + 1 = rm.views.length then 0 else rm.currview + 1) := by
  unfold viewsManagerTick at h
  simp only at h
  split at h
  · simp only [Option.some.injEq, Prod.mk.injEq] at h
    rw [← h.1]
    exact ⟨rfl, Or.inl rfl⟩
  · split at h
    · split at h
      · split at h
        · cases h
        · simp only [Option.some.injEq, Prod.mk.injEq] at h
          rw [← h.1]
          exact ⟨rfl, Or.inr rfl⟩
      · simp only [Option.some.injEq, Prod.mk.injEq] at h
        rw [← h.1]
        exact ⟨rfl, Or.inr rfl⟩
    · simp only [Option.some.injEq, Prod.mk.injEq] at h
      rw [← h.1]
      exact ⟨rfl, Or.inl rfl⟩

/-- The index invariant: with a view list that is not empty, `currview` is a
position of the list. -/
theorem reachable_index (rm : RedmonManager) (h : ViewReachable rm) :
    rm.views ≠ [] → rm.currview < rm.views.length := by
  induction h with
  | init rm hv hc => exact fun hne => absurd hv hne
  | updateViews ord rm r _ hr _ =>
    intro hne
    rcases updateViews_result ord rm with ⟨h1, -⟩ | ⟨r1, h1, -, -, h2, -⟩
    · rw [h1] at hr
      cases hr
    · rw [h1] at hr
      cases hr
      rw [h2]
      exact List.length_pos.mpr hne
  | tick ord rm r st st1 _ hr ih =>
    intro hne
    obtain ⟨hv, hc⟩ := tick_view_state ord rm r st st1 hr
    rw [hv] at hne ⊢
    rcases hc with hc | hc
    · rw [hc]
      exact ih hne
    · rw [hc]
      have := ih hne
      split <;> omega
  | other rm r _ hv hc ih =>
    intro hne
    rw [hv] at hne ⊢
    rw [hc]
    exact ih hne

/-- C29: in every state reachable from the initial state (no view, `currview` 0)
by calls of `UpdateViews` and ticks of `ViewsManager`, a view list that is not
empty has `currview` among its positions.  Hence the indexing
`rm.views[rm.currview]` of `Layout` yields a name, and a tick of `ViewsManager`,
which advances the index before it reads the list, does not panic either,
whatever the locals of the scheduler are. -/
theorem view_index_in_range (rm : RedmonManager) (h : ViewReachable rm) :
    (rm.views ≠ [] → rm.currview < rm.views.length) ∧
    (∃ v, currentViewName rm = some v) ∧
    (rm.views ≠ [] → ∃ v, rm.views[rm.currview]? = some v) ∧
    (∀ (ord : RangeOrder) (st : ViewsManagerState),
      ∃ y, viewsManagerTick ord rm st = some y) := by
  have hi := reachable_index rm h
  have hget : rm.views ≠ [] → ∃ v, rm.views[rm.currview]? = some v := by
    intro hne
    exact ⟨_, List.getElem?_eq_getElem (hi hne)⟩
  refine ⟨hi, ?_, hget, ?_⟩
  · unfold currentViewName
    by_cases hl : rm.views.length ≠ 0
    · rw [if_pos hl]
      exact hget (fun h0 => hl (by rw [h0]; rfl))
    · rw [if_neg hl]
      exact ⟨_, rfl⟩
  · intro ord st
    unfold viewsManagerTick
    simp only
    split
    · exact ⟨_, rfl⟩
    · split
      · split
        · rename_i hl
          have hne : rm.views ≠ [] := fun h0 => hl (by rw [h0]; rfl)
          have hlt := (next_index_in_range rm (hi hne))
          rw [← hlt.1] at hlt
          rw [List.getElem?_eq_getElem hlt.2]
          exact ⟨_, rfl⟩
        · exact ⟨_, rfl⟩
      · exact ⟨_, rfl⟩

/-- Instance of `view_index_in_range`: the state after the first `UpdateViews` on
two sensors that carry the view `X`. -/
theorem view_index_in_range_witness :
    ViewReachable { xManager with log := [Event.view 2 "X", Event.view 5 "X"] } ∧
    (∃ v, currentViewName { xManager with log := [Event.view 2 "X", Event.view 5 "X"] } =
      some v) ∧
    ∀ (ord : RangeOrder) (st : ViewsManagerState),
      ∃ y, viewsManagerTick ord { xManager with log := [Event.view 2 "X", Event.view 5 "X"] }
        st = some y :=
  have hr : ViewReachable { xManager with log := [Event.view 2 "X", Event.view 5 "X"] } :=
    ViewReachable.updateViews RangeOrder.listed { xManager with views := [], viewweights := [] }
      _ (ViewReachable.init _ rfl rfl) (by decide)
  ⟨hr, (view_index_in_range _ hr).2.1, (view_index_in_range _ hr).2.2.2⟩

/-! ## Layout: the line widths -/

theorem lineWidths_spec (shown : GoMap Int) (es : List (String × Nat)) (linew : List Int)
    (h : ∀ e ∈ es, e.2 < linew.length) :
    ∃ r, lineWidths shown es linew = some r ∧ r.length = linew.length ∧
      ∀ l, r[l]? = (linew[l]?).map (fun x => x + entrySum shown es l) := by
  induction es generalizing linew with
  | nil =>
    refine ⟨linew, rfl, rfl, fun l => ?_⟩
    cases linew[l]? <;> simp [entrySum]
  | cons e es ih =>
    have he : e.2 < linew.length := h e (List.mem_cons_self _ _)
    have hget : linew[e.2]? = some linew[e.2] := List.getElem?_eq_getElem he
    obtain ⟨r, hr, hlen, hval⟩ := ih (linew.set e.2 (linew[e.2] + (shown.get e.1).getD 0))
      (fun x hx => by
        rw [List.length_set]
        exact h x (List.mem_cons_of_mem _ hx))
    refine ⟨r, ?_, ?_, fun l => ?_⟩
    · rw [lineWidths, addLine, hget]
      exact hr
    · rw [hlen, List.length_set]
    · rw [hval l, List.getElem?_set]
      by_cases hl : e.2 = l
      · subst hl
        simp only [if_true, he, hget, Option.map_some', entrySum, List.filter_cons,
          beq_self_eq_true, List.map_cons, List.sum_cons, Option.some.injEq]
        omega
      · have hb : (e.2 == l) = false := by simpa using hl
        simp only [hl, if_false, entrySum, List.filter_cons, hb, Bool.false_eq_true]

theorem entrySum_perm (shown : GoMap Int) (es1 es2 : List (String × Nat)) (h : es1.Perm es2)
    (l : Nat) : entrySum shown es1 l = entrySum shown es2 l :=
  ((h.filter _).map _).sum_eq

theorem lineTotal_perm (shown : GoMap Int) (sline : GoMap Nat) (k1 k2 : List String)
    (h : k1.Perm k2) (l : Nat) : lineTotal shown sline k1 l = lineTotal shown sline k2 l :=
  ((h.filter _).map _).sum_eq

/-- Summing over the entries of a map on a line is summing over its keys that
the map sends to the line. -/
theorem lineTotal_keys (shown : GoMap Int) (sline : GoMap Nat)
    (hk : (sline.map Prod.fst).Nodup) (l : Nat) :
    lineTotal shown sline (sline.map Prod.fst) l = entrySum shown sline l := by
  unfold lineTotal entrySum
  rw [List.filter_map, List.map_map]
  congr 1
  have hf : sline.filter ((fun s => sline.get s == some l) ∘ Prod.fst) =
      sline.filter (fun e => e.2 == l) := by
    apply List.filter_congr
    intro e he
    simp only [Function.comp]
    rw [get_of_mem sline e.1 e.2 hk he]
    by_cases hl : e.2 = l
    · simp [hl]
    · simp [hl]
  rw [hf]
  rfl

/-- Source lines 1265-1273 compute the line sums. -/
theorem lineWidths_sums (ord : RangeOrder) (shown : GoMap Int) (sline : GoMap Nat)
    (shownidx : List String) (currL : Nat) (hk : (sline.map Prod.fst).Nodup)
    (hidx : shownidx.Perm (sline.map Prod.fst)) (hline : ∀ e ∈ sline, e.2 ≤ currL) :
    ∃ linew0, lineWidths shown (ord.perm sline) (List.replicate (currL + 1) 0) = some linew0 ∧
      LineSums sline shownidx currL { linew := linew0, shown := shown } := by
  obtain ⟨r, hr, hlen, hval⟩ := lineWidths_spec shown (ord.perm sline)
    (List.replicate (currL + 1) 0) (fun e he => by
      rw [List.length_replicate]
      exact Nat.lt_succ_of_le (hline e ((ord.isPerm sline).mem_iff.mp he)))
  refine ⟨r, hr, ?_, fun l hl => ?_⟩
  · rw [hlen, List.length_replicate]
  · show r[l]? = _
    rw [hval l, lineTotal_perm shown sline _ _ hidx, lineTotal_keys shown sline hk,
      entrySum_perm shown _ _ (ord.isPerm sline)]
    have h0 : (List.replicate (currL + 1) (0 : Int))[l]? = some 0 := by
      rw [List.getElem?_replicate]
      simp [Nat.lt_succ_of_le hl]
    rw [h0]
    simp

/-! ## Layout: the widening loop -/

theorem lineTotal_cons (shown : GoMap Int) (sline : GoMap Nat) (s : String)
    (rest : List String) (l : Nat) :
    lineTotal shown sline (s :: rest) l =
      (if sline.get s = some l then (shown.get s).getD 0 else 0) +
        lineTotal shown sline rest l := by
  unfold lineTotal
  by_cases hs : sline.get s = some l
  · simp [List.filter_cons, hs]
  · have hb : (sline.get s == some l) = false := by simpa using hs
    simp [List.filter_cons, hs, hb]

/-- Widening the cell of `k` by one column adds one column to the sum of its
line and leaves the sums of the other lines as they are. -/
theorem lineTotal_set (shown : GoMap Int) (sline : GoMap Nat) (idx : List String) (k : String)
    (l : Nat) (hn : idx.Nodup) :
    lineTotal (shown.set k ((shown.get k).getD 0 + 1)) sline idx l =
      lineTotal shown sline idx l + (if k ∈ idx ∧ sline.get k = some l then 1 else 0) := by
  induction idx with
  | nil => simp [lineTotal]
  | cons s rest ih =>
    rw [List.nodup_cons] at hn
    rw [lineTotal_cons, lineTotal_cons, ih hn.2, get_set]
    by_cases hsk : s = k
    · subst hsk
      have hnot : ¬ (s ∈ rest ∧ sline.get s = some l) := fun h => hn.1 h.1
      rw [if_neg hnot]
      by_cases hs : sline.get s = some l
      · simp only [hs, if_true, Option.getD_some, List.mem_cons, true_or, and_self]
        omega
      · simp only [hs, if_false, and_false]
        omega
    · have hmem : (k ∈ s :: rest ∧ sline.get k = some l) ↔ (k ∈ rest ∧ sline.get k = some l) := by
        simp only [List.mem_cons]
        constructor
        · rintro ⟨h1 | h1, h2⟩
          · exact absurd h1.symm hsk
          · exact ⟨h1, h2⟩
        · rintro ⟨h1, h2⟩
          exact ⟨Or.inr h1, h2⟩
      rw [if_congr hmem rfl rfl]
      simp only [hsk, if_false]
      omega

theorem deficit_set (maxX : Int) (c : Nat) (linew : List Int) (i : Nat) (lw : Int)
    (hi : i < c) (hget : linew[i]? = some lw) (hlt : lw < maxX) :
    deficit maxX c (linew.set i (lw + 1)) + 1 = deficit maxX c linew := by
  induction linew generalizing c i with
  | nil => simp at hget
  | cons x xs ih =>
    cases c with
    | zero => omega
    | succ c =>
      cases i with
      | zero =>
        simp only [List.getElem?_cons_zero, Option.some.injEq] at hget
        subst hget
        simp only [List.set_cons_zero, deficit]
        omega
      | succ i =>
        simp only [List.getElem?_cons_succ] at hget
        simp only [List.set_cons_succ, deficit]
        have := ih c i (by omega) hget
        omega

/-- One iteration of the inner loop keeps the line sums and the bounds; either
it changes nothing, the line being the last or at least `maxX` wide, or it sets
`doneany` and takes one column off the deficit. -/
theorem widenCell_step (maxX : Int) (currL : Nat) (sline : GoMap Nat) (shownidx : List String)
    (linew0 : List Int) (w : Widths) (b : Bool) (k : String) (line : Nat)
    (hn : shownidx.Nodup) (hk : k ∈ shownidx) (hline : sline.get k = some line)
    (hle : line ≤ currL) (hs : LineSums sline shownidx currL w)
    (hb : Bounded maxX linew0 w) :
    ∃ w1 b1, widenCell maxX currL sline (w, b) k = some (w1, b1) ∧
      LineSums sline shownidx currL w1 ∧ Bounded maxX linew0 w1 ∧
      ((w1 = w ∧ b1 = b ∧ (line ≠ currL → ∃ lw, w.linew[line]? = some lw ∧ maxX ≤ lw)) ∨
        (b1 = true ∧ deficit maxX currL w1.linew + 1 = deficit maxX currL w.linew)) := by
  unfold widenCell
  simp only [hline, Option.getD_some]
  by_cases hc : line = currL
  · refine ⟨w, b, by simp [hc], hs, hb, Or.inl ⟨rfl, rfl, fun h => absurd hc h⟩⟩
  · have hget := hs.2 line hle
    simp only [ne_eq, hc, not_false_eq_true, if_true, hget]
    by_cases hlt : lineTotal w.shown sline shownidx line < maxX
    · simp only [hlt, if_true]
      refine ⟨_, _, rfl, ⟨?_, ?_⟩, ?_, Or.inr ⟨rfl, ?_⟩⟩
      · simp only [List.length_set]
        exact hs.1
      · intro l hl
        simp only
        rw [lineTotal_set w.shown sline shownidx k l hn, List.getElem?_set]
        by_cases hll : line = l
        · subst hll
          have h1 : line < w.linew.length := by
            rw [hs.1]
            omega
          simp [h1, hk, hline]
        · have h2 : ¬ (k ∈ shownidx ∧ sline.get k = some l) := by
            rintro ⟨-, h3⟩
            rw [hline] at h3
            exact hll (Option.some.inj h3)
          simp only [hll, if_false, h2, Int.add_zero]
          exact hs.2 l hl
      · intro l x0 x h0 hx
        simp only [List.getElem?_set] at hx
        by_cases hll : line = l
        · subst hll
          have h1 : line < w.linew.length := by
            rw [hs.1]
            omega
          simp only [if_true, h1, Option.some.injEq] at hx
          have := hb line x0 _ h0 hget
          rw [← hx]
          omega
        · simp only [hll, if_false] at hx
          exact hb l x0 x h0 hx
      · exact deficit_set maxX currL w.linew line _ (by omega) hget hlt
    · simp only [hlt, if_false]
      exact ⟨w, b, rfl, hs, hb, Or.inl ⟨rfl, rfl, fun _ => ⟨_, rfl, by omega⟩⟩⟩

/-- One pass of the inner loop keeps the line sums and the bounds; either it
changes nothing and leaves `doneany` as it was, every visited sensor being on the
last line or on a line at least `maxX` wide, or it sets `doneany` and lowers the
deficit. -/
theorem widenPass_run (maxX : Int) (currL : Nat) (sline : GoMap Nat) (shownidx : List String)
    (linew0 : List Int) (hn : shownidx.Nodup)
    (hsl : ∀ k ∈ shownidx, ∃ line, sline.get k = some line ∧ line ≤ currL)
    (ks : List String) (hks : ∀ k ∈ ks, k ∈ shownidx) (w : Widths) (b : Bool)
    (hs : LineSums sline shownidx currL w) (hb : Bounded maxX linew0 w) :
    ∃ w1 b1, widenPass maxX currL sline ks (w, b) = some (w1, b1) ∧
      LineSums sline shownidx currL w1 ∧ Bounded maxX linew0 w1 ∧
      ((w1 = w ∧ b1 = b ∧ ∀ k ∈ ks, ∀ line, sline.get k = some line → line ≠ currL →
          ∃ lw, w.linew[line]? = some lw ∧ maxX ≤ lw) ∨
        (b1 = true ∧ deficit maxX currL w1.linew < deficit maxX currL w.linew)) := by
  induction ks generalizing w b with
  | nil => exact ⟨w, b, rfl, hs, hb, Or.inl ⟨rfl, rfl, fun k hk => by cases hk⟩⟩
  | cons k ks ih =>
    obtain ⟨line, hline, hle⟩ := hsl k (hks k (List.mem_cons_self _ _))
    obtain ⟨w1, b1, hstep, hs1, hb1, hcase⟩ := widenCell_step maxX currL sline shownidx linew0
      w b k line hn (hks k (List.mem_cons_self _ _)) hline hle hs hb
    obtain ⟨w2, b2, hrun, hs2, hb2, hcase2⟩ := ih (fun x hx => hks x (List.mem_cons_of_mem _ hx))
      w1 b1 hs1 hb1
    refine ⟨w2, b2, ?_, hs2, hb2, ?_⟩
    · rw [widenPass, hstep]
      exact hrun
    · rcases hcase with ⟨e1, e2, e3⟩ | ⟨e1, e2⟩
      · rcases hcase2 with ⟨f1, f2, f3⟩ | ⟨f1, f2⟩
        · left
          refine ⟨f1.trans e1, f2.trans e2, ?_⟩
          intro x hx ln hln hne
          rcases List.mem_cons.mp hx with hx1 | hx1
          · subst hx1
            rw [hline] at hln
            cases hln
            exact e3 hne
          · rw [← e1]
            exact f3 x hx1 ln hln hne
        · right
          rw [e1] at f2
          exact ⟨f1, f2⟩
      · rcases hcase2 with ⟨f1, f2, -⟩ | ⟨f1, f2⟩
        · right
          rw [f1, f2]
          exact ⟨e1, by omega⟩
        · right
          exact ⟨f1, by omega⟩

/-- The widening loop ends after at most one pass more than the deficit of the
lines, with the line sums and the bounds kept, and with every sensor on the
last line or on a line at least `maxX` wide. -/
theorem widen_exits (maxX : Int) (currL : Nat) (sline : GoMap Nat) (shownidx : List String)
    (linew0 : List Int) (hn : shownidx.Nodup)
    (hsl : ∀ k ∈ shownidx, ∃ line, sline.get k = some line ∧ line ≤ currL)
    (n : Nat) (w : Widths) (hd : deficit maxX currL w.linew = n)
    (hs : LineSums sline shownidx currL w) (hb : Bounded maxX linew0 w) :
    ∃ wf, LineSums sline shownidx currL wf ∧ Bounded maxX linew0 wf ∧
      (∀ k ∈ shownidx, ∀ line, sline.get k = some line → line ≠ currL →
        ∃ lw, wf.linew[line]? = some lw ∧ maxX ≤ lw) ∧
      ∀ fuel, n + 1 ≤ fuel → widen maxX currL sline shownidx fuel w = .exit wf := by
  induction n using Nat.strong_induction_on generalizing w with
  | _ n ih =>
    obtain ⟨w1, b1, hrun, hs1, hb1, hcase⟩ := widenPass_run maxX currL sline shownidx linew0 hn
      hsl shownidx (fun k hk => hk) w false hs hb
    rcases hcase with ⟨e1, e2, e3⟩ | ⟨e1, e2⟩
    · subst e1 e2
      refine ⟨w1, hs, hb, e3, ?_⟩
      intro fuel hf
      cases fuel with
      | zero => omega
      | succ f => simp [widen, hrun]
    · subst e1
      obtain ⟨wf, g1, g2, g3, g4⟩ := ih (deficit maxX currL w1.linew) (by omega) w1 rfl hs1 hb1
      refine ⟨wf, g1, g2, g3, ?_⟩
      intro fuel hf
      cases fuel with
      | zero => omega
      | succ f =>
        simp only [widen, hrun]
        exact g4 f (by omega)

/-- C30: source lines 1265-1288 of `Layout`, for every terminal width `maxX`
(zero and negative widths included), every last line `currL`, every map `shown`
of widths and every map `sline` that assigns lines up to `currL` to the names of
`shownidx`.  The slice `linew` computed before the loop holds for each line the
sum of the widths of the sensors assigned to it; every iteration of the inner
loop body returns and keeps that; the widening loop ends, after no more passes
than one plus the number of columns the lines before the last lack to reach
`maxX`; on exit the sums still hold, and every line other than the last that
holds a sensor is as wide as the larger of its initial width and `maxX`. -/
theorem widening_loop_terminates (ord : RangeOrder) (maxX : Int) (currL : Nat)
    (shownidx : List String) (shown : GoMap Int) (sline : GoMap Nat)
    (hk : (sline.map Prod.fst).Nodup) (hidx : shownidx.Perm (sline.map Prod.fst))
    (hline : ∀ e ∈ sline, e.2 ≤ currL) :
    ∃ linew0, lineWidths shown (ord.perm sline) (List.replicate (currL + 1) 0) = some linew0 ∧
      LineSums sline shownidx currL { linew := linew0, shown := shown } ∧
      (∀ w b k, LineSums sline shownidx currL w → k ∈ shownidx →
        ∃ w1 b1, widenCell maxX currL sline (w, b) k = some (w1, b1) ∧
          LineSums sline shownidx currL w1) ∧
      ∃ wf,
        (∀ fuel, deficit maxX currL linew0 + 1 ≤ fuel →
          widen maxX currL sline shownidx fuel { linew := linew0, shown := shown } = .exit wf) ∧
        LineSums sline shownidx currL wf ∧
        ∀ (l : Nat) (x0 : Int), l ≠ currL → (∃ s ∈ shownidx, sline.get s = some l) →
          linew0[l]? = some x0 → wf.linew[l]? = some (max x0 maxX) := by
  have hn : shownidx.Nodup := hidx.nodup_iff.mpr hk
  have hsl : ∀ k ∈ shownidx, ∃ line, sline.get k = some line ∧ line ≤ currL := by
    intro k hkm
    obtain ⟨e, he, hek⟩ := List.mem_map.mp (hidx.mem_iff.mp hkm)
    refine ⟨e.2, ?_, hline e he⟩
    rw [← hek]
    exact get_of_mem sline e.1 e.2 hk he
  have hself : ∀ w : Widths, Bounded maxX w.linew w := by
    intro w l x0 x h0 hx
    rw [h0] at hx
    cases hx
    exact ⟨Int.le_refl _, le_max_left _ _⟩
  obtain ⟨linew0, h0, hs0⟩ := lineWidths_sums ord shown sline shownidx currL hk hidx hline
  obtain ⟨wf, g1, g2, g3, g4⟩ := widen_exits maxX currL sline shownidx linew0 hn hsl _
    { linew := linew0, shown := shown } rfl hs0 (hself { linew := linew0, shown := shown })
  refine ⟨linew0, h0, hs0, ?_, wf, g4, g1, ?_⟩
  · intro w b k hs hkm
    obtain ⟨line, hl1, hl2⟩ := hsl k hkm
    obtain ⟨w1, b1, h1, h2, -⟩ := widenCell_step maxX currL sline shownidx w.linew w b k line hn
      hkm hl1 hl2 hs (hself w)
    exact ⟨w1, b1, h1, h2⟩
  · rintro l x0 hne ⟨s, hsm, hsl1⟩ hx0
    obtain ⟨lw, hlw, hge⟩ := g3 s hsm l hsl1 hne
    have := g2 l x0 lw hx0 hlw
    rw [hlw]
    congr 1
    omega

/-- Instance of `widening_loop_terminates`: three sensors 11 columns wide on a
terminal of 30 columns, `a` and `b` on line 0 and `c` on the last line 1.  The
line widths start as 22 and 11; the loop ends with line 0 widened to 30, `a`
and `b` being 15 columns wide each, and the last line as it was. -/
theorem widening_loop_terminates_witness :
    ((abcLines.map Prod.fst).Nodup ∧ ["a", "b", "c"].Perm (abcLines.map Prod.fst) ∧
      ∀ e ∈ abcLines, e.2 ≤ 1) ∧
    lineWidths abcShown abcLines (List.replicate 2 0) = some [22, 11] ∧
    widen 30 1 abcLines ["a", "b", "c"] 9 { linew := [22, 11], shown := abcShown } =
      .exit { linew := [30, 11], shown := [("c", 11), ("a", 15), ("b", 15)] } ∧
    ∃ linew0, lineWidths abcShown (RangeOrder.listed.perm abcLines)
        (List.replicate (1 + 1) 0) = some linew0 ∧
      ∃ wf,
        (∀ fuel, deficit 30 1 linew0 + 1 ≤ fuel →
          widen 30 1 abcLines ["a", "b", "c"] fuel { linew := linew0, shown := abcShown } =
            .exit wf) ∧
        LineSums abcLines ["a", "b", "c"] 1 wf :=
  have hyp : (abcLines.map Prod.fst).Nodup ∧ ["a", "b", "c"].Perm (abcLines.map Prod.fst) ∧
      ∀ e ∈ abcLines, e.2 ≤ 1 := ⟨by decide, List.Perm.refl _, by decide⟩
  have h := widening_loop_terminates RangeOrder.listed 30 1 ["a", "b", "c"] abcShown abcLines
    hyp.1 hyp.2.1 hyp.2.2
  ⟨hyp, by decide, by decide,
    h.elim (fun linew0 h1 => ⟨linew0, h1.1,
      h1.2.2.2.elim (fun wf h2 => ⟨wf, h2.1, h2.2.1⟩)⟩)⟩

/-! ## The request and response exchange -/

theorem getElem?_set_some {α : Type} (l : List α) (i j : Nat) (c c1 : α)
    (h : l[i]? = some c) : (l.set i c1)[j]? = if i = j then some c1 else l[j]? := by
  have hi : i < l.length := by
    by_contra hn
    rw [List.getElem?_eq_none (by omega)] at h
    cases h
  rw [List.getElem?_set]
  by_cases hij : i = j
  · subst hij
    simp [hi]
  · simp [hij]

/-- A step of a collector that neither starts nor ends at a receive keeps the
invariant. -/
theorem inv_set_idle (x : Exchange) (i : Nat) (c c1 : Collector)
    (hc : x.collectors[i]? = some c) (h1 : c1.receiving = false) (hi : ExchangeInv x) :
    ExchangeInv { x with collectors := x.collectors.set i c1 } := by
  obtain ⟨i1, i2, i3⟩ := hi
  refine ⟨?_, i2, i3⟩
  intro j c2 hj hr
  simp only [getElem?_set_some x.collectors i j c c1 hc] at hj
  by_cases hij : i = j
  · simp only [hij, if_true, Option.some.injEq] at hj
    rw [← hj, h1] at hr
    cases hr
  · simp only [hij, if_false] at hj
    exact i1 j c2 hj hr

/-- Every step keeps the invariant of the exchange. -/
theorem exchangeStep_inv (x x1 : Exchange) (a : Action) (h : exchangeStep x a = some x1)
    (hi : ExchangeInv x) : ExchangeInv x1 := by
  cases a with
  | tick i =>
    simp only [exchangeStep] at h
    split at h
    · rename_i c hc
      split at h
      · simp only [Option.some.injEq] at h
        rw [← h]
        exact inv_set_idle x i c _ hc rfl hi
      · cases h
    · cases h
  | killCollector i =>
    simp only [exchangeStep] at h
    split at h
    · rename_i c hc
      split at h
      · simp only [Option.some.injEq] at h
        rw [← h]
        exact inv_set_idle x i c _ hc rfl hi
      · cases h
    · cases h
  | killSource =>
    simp only [exchangeStep] at h
    split at h
    · rename_i hs
      simp only [Option.some.injEq] at h
      rw [← h]
      obtain ⟨i1, i2, i3⟩ := hi
      rw [hs] at i1 i2
      exact ⟨i1, i2, i3⟩
    · cases h
  | get found =>
    simp only [exchangeStep] at h
    split at h
    · rename_i i k hs
      simp only [Option.some.injEq] at h
      rw [← h]
      obtain ⟨i1, i2, i3⟩ := hi
      rw [hs] at i1 i2
      exact ⟨i1, i2, i3⟩
    · cases h
  | request i =>
    simp only [exchangeStep] at h
    obtain ⟨i1, i2, i3⟩ := hi
    split at h
    · rename_i c hs hc
      rw [hs] at i1 i2
      simp only [SourcePc.outstanding, List.append_nil] at i2
      have hnone : ∀ (j : Nat) (c2 : Collector), x.collectors[j]? = some c2 →
          c2.receiving = true → False := by
        intro j c2 hj hr
        have := i1 j c2 hj hr
        simp [SourcePc.outstanding] at this
      split at h
      · simp only [Option.some.injEq] at h
        rw [← h]
        refine ⟨?_, ?_, i3⟩
        · intro j c2 hj hr
          simp only [getElem?_set_some x.collectors i j c _ hc] at hj
          by_cases hij : i = j
          · simp only [hij, if_true, Option.some.injEq] at hj
            rw [← hj, ← hij]
            rfl
          · simp only [hij, if_false] at hj
            exact absurd (hnone j c2 hj hr) id
        · simp only [SourcePc.outstanding, i2]
      · simp only [Option.some.injEq] at h
        rw [← h]
        refine ⟨?_, ?_, i3⟩
        · intro j c2 hj hr
          simp only [getElem?_set_some x.collectors i j c _ hc] at hj
          by_cases hij : i = j
          · simp only [hij, if_true, Option.some.injEq] at hj
            rw [← hj, ← hij]
            rfl
          · simp only [hij, if_false] at hj
            exact absurd (hnone j c2 hj hr) id
        · simp only [SourcePc.outstanding, i2]
      · cases h
    · cases h
  | respond j =>
    simp only [exchangeStep] at h
    obtain ⟨i1, i2, i3⟩ := hi
    split at h
    · rename_i i k resp c hs hc
      rw [hs] at i1 i2
      simp only [SourcePc.outstanding] at i1 i2
      have hothers : ∀ (j1 : Nat) (c2 : Collector), x.collectors[j1]? = some c2 →
          c2.receiving = true → j1 = i ∧ c2.asked = k := by
        intro j1 c2 hj hr
        have := i1 j1 c2 hj hr
        simp only [List.cons.injEq, Prod.mk.injEq, and_true] at this
        exact ⟨this.1.symm, this.2.symm⟩
      split at h
      · rename_i hpc
        obtain ⟨e1, e2⟩ := hothers j c hc (by simp [Collector.receiving, hpc])
        simp only [Collector.asked, hpc] at e2
        simp only [Option.some.injEq] at h
        rw [← h]
        refine ⟨?_, ?_, ?_⟩
        · intro j1 c2 hj hr
          simp only [getElem?_set_some x.collectors j j1 c _ hc] at hj
          by_cases hij : j = j1
          · simp only [hij, if_true, Option.some.injEq] at hj
            rw [← hj] at hr
            cases hok : resp.ok <;> simp [Collector.receiving, hok] at hr
          · simp only [hij, if_false] at hj
            exact absurd ((hothers j1 c2 hj hr).1.trans e1.symm) (fun h1 => hij h1.symm)
        · simp only [SourcePc.outstanding, List.map_append, List.map_cons, List.map_nil,
            List.append_nil, i2]
        · intro d hd
          rcases List.mem_append.mp hd with hd | hd
          · exact i3 d hd
          · simp only [List.mem_singleton] at hd
            rw [hd]
            exact ⟨e1, e2⟩
      · rename_i hpc
        obtain ⟨e1, e2⟩ := hothers j c hc (by simp [Collector.receiving, hpc])
        simp only [Collector.asked, hpc] at e2
        simp only [Option.some.injEq] at h
        rw [← h]
        refine ⟨?_, ?_, ?_⟩
        · intro j1 c2 hj hr
          simp only [getElem?_set_some x.collectors j j1 c _ hc] at hj
          by_cases hij : j = j1
          · simp only [hij, if_true, Option.some.injEq] at hj
            rw [← hj] at hr
            simp [Collector.receiving] at hr
          · simp only [hij, if_false] at hj
            exact absurd ((hothers j1 c2 hj hr).1.trans e1.symm) (fun h1 => hij h1.symm)
        · simp only [SourcePc.outstanding, List.map_append, List.map_cons, List.map_nil,
            List.append_nil, i2]
        · intro d hd
          rcases List.mem_append.mp hd with hd | hd
          · exact i3 d hd
          · simp only [List.mem_singleton] at hd
            rw [hd]
            exact ⟨e1, e2⟩
      · cases h
    · cases h

theorem start_inv (keys : List String) : ExchangeInv (Exchange.start keys) := by
  refine ⟨?_, rfl, fun d hd => by cases hd⟩
  intro j c hj hr
  simp only [Exchange.start, List.getElem?_map, Option.map_eq_some'] at hj
  obtain ⟨k, -, hk⟩ := hj
  rw [← hk] at hr
  cases hr

theorem runExchange_inv (acts : List Action) (x x1 : Exchange)
    (h : runExchange acts x = some x1) (hi : ExchangeInv x) : ExchangeInv x1 := by
  induction acts generalizing x with
  | nil =>
    simp only [runExchange, Option.some.injEq] at h
    rw [← h]
    exact hi
  | cons a as ih =>
    rw [runExchange] at h
    split at h
    · cases h
    · rename_i x2 hx2
      exact ih x2 h (exchangeStep_inv x x2 a hx2 hi)

/-- C26: in every run of a data source and the collectors bound to it over the
shared unbuffered request and response channels, whatever the interleaving of
their steps, every response taken off the response channel is taken by the
collector that issued the request it answers, and answers the key that
collector asked for.  The source serves one lookup at a time in arrival order:
it holds at most one request not yet answered, and the requests it took off the
request channel are, in order, the ones it has answered followed by the one it
holds; a collector stands at a receive only while the source holds its
request. -/
theorem responses_reach_their_requesters (keys : List String) (acts : List Action)
    (x : Exchange) (h : runExchange acts (Exchange.start keys) = some x) :
    (∀ d ∈ x.deliveries, d.receiver = d.issuer ∧ d.asked = d.key) ∧
    x.deliveries.map (fun d => (d.issuer, d.key)) ++ x.source.outstanding = x.arrivals ∧
    x.source.outstanding.length ≤ 1 ∧
    (∀ (j : Nat) (c : Collector), x.collectors[j]? = some c → c.receiving = true →
      x.source.outstanding = [(j, c.asked)]) := by
  obtain ⟨i1, i2, i3⟩ := runExchange_inv acts _ x h (start_inv keys)
  refine ⟨i3, i2, ?_, i1⟩
  cases x.source <;> simp [SourcePc.outstanding]

/-- Instance of `responses_reach_their_requesters`: two collectors whose timers
fire together, with the source serving their four lookups one after the
other. -/
theorem responses_reach_their_requesters_witness :
    ∃ x, runExchange twoCollectorsRun (Exchange.start ["k0", "k1"]) = some x ∧
      x.arrivals = [(1, "k1:suspended"), (0, "k0:suspended"), (1, "k1"), (0, "k0")] ∧
      (∀ d ∈ x.deliveries, d.receiver = d.issuer ∧ d.asked = d.key) ∧
      x.deliveries.map (fun d => (d.issuer, d.key)) ++ x.source.outstanding = x.arrivals := by
  have h1 : (runExchange twoCollectorsRun (Exchange.start ["k0", "k1"])).isSome = true := by
    decide
  obtain ⟨x, hx⟩ := Option.isSome_iff_exists.mp h1
  have h2 : (runExchange twoCollectorsRun (Exchange.start ["k0", "k1"])).map
      (fun x => x.arrivals) =
      some [(1, "k1:suspended"), (0, "k0:suspended"), (1, "k1"), (0, "k0")] := by decide
  have h := responses_reach_their_requesters ["k0", "k1"] twoCollectorsRun x hx
  refine ⟨x, hx, ?_, h.1, h.2.1⟩
  rw [hx] at h2
  simpa using h2

/-! ## Layout as a whole -/

theorem set_fresh {α : Type} (m : GoMap α) (k : String) (v : α) (h : k ∉ m.map Prod.fst) :
    m.set k v = m ++ [(k, v)] := by
  unfold GoMap.set
  congr 1
  apply List.filter_eq_self.mpr
  intro e he
  have hne : e.1 ≠ k := fun h1 => h (List.mem_map.mpr ⟨e, he, h1⟩)
  simpa using hne

theorem placeCell_lines (maxX : Int) (sensors : GoMap Sensor) (p : Placement) (k : String)
    (s : Sensor) (hs : sensors.get k = some s) (hk : k ∉ p.sline.map Prod.fst) :
    ∃ p1, placeCell maxX sensors p k = some p1 ∧ p1.sline = p.sline ++ [(k, p1.currL)] ∧
      p.currL ≤ p1.currL := by
  unfold placeCell
  rw [hs]
  by_cases hw : p.currX + cellWidth k s ≥ maxX
  · refine ⟨_, rfl, ?_, ?_⟩
    · simp only [if_pos hw]
      exact set_fresh p.sline k _ hk
    · simp only [if_pos hw]
      omega
  · refine ⟨_, rfl, ?_, ?_⟩
    · simp only [if_neg hw]
      exact set_fresh p.sline k _ hk
    · simp only [if_neg hw]
      exact Nat.le_refl _

/-- The placement loops, run over distinct registered names that have no line
yet, give each of them a line up to the last line and panic on none. -/
theorem placeCells_lines (maxX : Int) (sensors : GoMap Sensor) (ks : List String)
    (p : Placement) (hn : ks.Nodup) (hfresh : ∀ k ∈ ks, k ∉ p.sline.map Prod.fst)
    (hreg : ∀ k ∈ ks, ∃ s, sensors.get k = some s) (hle : ∀ e ∈ p.sline, e.2 ≤ p.currL) :
    ∃ p1, placeCells maxX sensors ks p = some p1 ∧
      p1.sline.map Prod.fst = p.sline.map Prod.fst ++ ks ∧
      (∀ e ∈ p1.sline, e.2 ≤ p1.currL) ∧ p.currL ≤ p1.currL := by
  induction ks generalizing p with
  | nil => exact ⟨p, rfl, by simp, hle, Nat.le_refl _⟩
  | cons k ks ih =>
    rw [List.nodup_cons] at hn
    obtain ⟨s, hs⟩ := hreg k (List.mem_cons_self _ _)
    obtain ⟨p1, h1, h2, h3⟩ := placeCell_lines maxX sensors p k s hs
      (hfresh k (List.mem_cons_self _ _))
    obtain ⟨p2, g1, g2, g3, g4⟩ := ih p1 hn.2
      (fun x hx => by
        rw [h2, List.map_append, List.mem_append]
        rintro (hm | hm)
        · exact hfresh x (List.mem_cons_of_mem _ hx) hm
        · simp only [List.map_cons, List.map_nil, List.mem_singleton] at hm
          exact hn.1 (hm ▸ hx))
      (fun x hx => hreg x (List.mem_cons_of_mem _ hx))
      (fun e he => by
        rw [h2, List.mem_append] at he
        rcases he with he | he
        · exact Nat.le_trans (hle e he) h3
        · simp only [List.mem_singleton] at he
          rw [he])
    refine ⟨p2, ?_, ?_, g3, Nat.le_trans h3 g4⟩
    · rw [placeCells, h1]
      exact g1
    · rw [g2, h2]
      simp

/-- The names of the three key groups of a registry with one entry per name are
distinct. -/
theorem shownidx_nodup (ord : RangeOrder) (sensors : GoMap Sensor) (v : String)
    (hk : (sensors.map Prod.fst).Nodup) :
    ((layoutGroups ord sensors v).alertkeys ++ (layoutGroups ord sensors v).warnkeys ++
      (layoutGroups ord sensors v).shownkeys).Nodup := by
  rw [List.nodup_iff_count_le_one]
  intro k
  rw [List.count_append, List.count_append]
  by_cases hm : k ∈ sensors.map Prod.fst
  · obtain ⟨e, he, hek⟩ := List.mem_map.mp hm
    obtain ⟨h1, h2, h3⟩ := layoutGroups_count ord sensors v hk e he
    rw [← hek, h1, h2, h3]
    cases e.2.inAlert <;> cases e.2.inWarning <;> cases IsIn e.2.views v <;> simp
  · obtain ⟨h1, h2, h3⟩ := layoutGroups_perm ord sensors v
    have c1 := List.count_eq_zero_of_not_mem
      (fun h => not_mem_filter_keys _ sensors k hm (h1.mem_iff.mp h))
    have c2 := List.count_eq_zero_of_not_mem
      (fun h => not_mem_filter_keys _ sensors k hm (h2.mem_iff.mp h))
    have c3 := List.count_eq_zero_of_not_mem
      (fun h => not_mem_filter_keys _ sensors k hm (h3.mem_iff.mp h))
    rw [c1, c2, c3]
    omega

theorem shownidx_registered (ord : RangeOrder) (sensors : GoMap Sensor) (v k : String)
    (h : k ∈ (layoutGroups ord sensors v).alertkeys ++ (layoutGroups ord sensors v).warnkeys ++
      (layoutGroups ord sensors v).shownkeys) : ∃ s, sensors.get k = some s := by
  obtain ⟨h1, h2, h3⟩ := layoutGroups_mem ord sensors v k
  simp only [List.mem_append] at h
  rcases h with (h | h) | h
  · obtain ⟨s, hs, -⟩ := h1 h
    exact get_isSome_of_mem sensors (k, s) hs
  · obtain ⟨s, hs, -⟩ := h2 h
    exact get_isSome_of_mem sensors (k, s) hs
  · obtain ⟨s, hs, -⟩ := h3 h
    exact get_isSome_of_mem sensors (k, s) hs

/-- A drawing loop over registered names does not panic. -/
theorem drawCells_no_panic (invalid : String → Int → Int → Int → Int → Bool)
    (sensors : GoMap Sensor) (shown : GoMap Int) (sline : GoMap Nat)
    (ks : List (Colour × String)) (d : Drawing)
    (hreg : ∀ k ∈ ks, ∃ s, sensors.get k.2 = some s) :
    drawCells invalid sensors shown sline ks d ≠ .panic := by
  induction ks generalizing d with
  | nil => simp [drawCells]
  | cons k ks ih =>
    obtain ⟨s, hs⟩ := hreg k (List.mem_cons_self _ _)
    rw [drawCells]
    have hite : ∀ (c : Prop) [Decidable c] (x : Drawing),
        (if c then DrawResult.failed else DrawResult.drawn x) ≠ .panic := by
      intro c _ x
      split <;> simp
    have hcell : drawCell invalid sensors shown sline d k ≠ .panic := by
      unfold drawCell
      rw [hs]
      exact hite _ _
    split
    · exact ih _ (fun x hx => hreg x (List.mem_cons_of_mem _ hx))
    · rename_i hp
      exact absurd hp hcell
    · simp

/-- On a manager with the gui on, a registry with one entry per name and the
index of the current view in range, a call of `Layout` neither panics nor stays
in its widening loop: given enough passes it returns, nil or the error of a
refused `SetView`, for every terminal width. -/
theorem layout_returns (invalid : String → Int → Int → Int → Int → Bool) (ord : RangeOrder)
    (maxX : Int) (rm : RedmonManager) (gui : List String) (v : String)
    (hgui : rm.gui = some gui) (hk : (rm.sensors.map Prod.fst).Nodup)
    (hv : currentViewName rm = some v) :
    ∃ N, ∀ fuel, N ≤ fuel →
      Layout invalid ord fuel maxX rm ≠ .panic ∧ Layout invalid ord fuel maxX rm ≠ .running := by
  have hnd := shownidx_nodup ord rm.sensors v hk
  obtain ⟨p, hp, hkeys, hle, -⟩ := placeCells_lines maxX rm.sensors _
    { currX := 0, currL := 0, shown := [], sline := [] } hnd (fun k _ => by simp)
    (fun k hkm => shownidx_registered ord rm.sensors v k hkm) (fun e he => by cases he)
  simp only [List.map_nil, List.nil_append] at hkeys
  have hknd : (p.sline.map Prod.fst).Nodup := by
    rw [hkeys]
    exact hnd
  have hperm : ((layoutGroups ord rm.sensors v).alertkeys ++
      (layoutGroups ord rm.sensors v).warnkeys ++
      (layoutGroups ord rm.sensors v).shownkeys).Perm (p.sline.map Prod.fst) := by
    rw [hkeys]
  have hsl : ∀ k ∈ (layoutGroups ord rm.sensors v).alertkeys ++
      (layoutGroups ord rm.sensors v).warnkeys ++ (layoutGroups ord rm.sensors v).shownkeys,
      ∃ line, p.sline.get k = some line ∧ line ≤ p.currL := by
    intro k hkm
    obtain ⟨e, he, hek⟩ := List.mem_map.mp (hperm.mem_iff.mp hkm)
    refine ⟨e.2, ?_, hle e he⟩
    rw [← hek]
    exact get_of_mem p.sline e.1 e.2 hknd he
  obtain ⟨linew0, h0, hs0⟩ := lineWidths_sums ord p.shown p.sline _ p.currL hknd hperm hle
  have hself : Bounded maxX linew0 { linew := linew0, shown := p.shown } := by
    intro l x0 x hx0 hx
    rw [hx0] at hx
    cases hx
    exact ⟨Int.le_refl _, le_max_left _ _⟩
  obtain ⟨wf, -, -, -, g4⟩ := widen_exits maxX p.currL p.sline _ linew0 hnd hsl _
    { linew := linew0, shown := p.shown } rfl hs0 hself
  refine ⟨deficit maxX p.currL linew0 + 1, fun fuel hf => ?_⟩
  have hw := g4 fuel hf
  have hdraw := drawCells_no_panic invalid rm.sensors wf.shown p.sline
    ((layoutGroups ord rm.sensors v).alertkeys.map (fun k => (Colour.red, k)) ++
      (layoutGroups ord rm.sensors v).warnkeys.map (fun k => (Colour.yellow, k)) ++
      (layoutGroups ord rm.sensors v).shownkeys.map (fun k => (Colour.green, k)))
    { currX := 0, currY := 3, currL := 0,
      gui := (if gui.contains "statusbar" then gui else gui ++ ["statusbar"]).filter (fun x =>
        !(decide (x ∈ rm.sensors.map Prod.fst) && (wf.shown.get x).isNone)),
      cells := [] }
    (fun k hkm => by
      apply shownidx_registered ord rm.sensors v k.2
      simp only [List.mem_append, List.mem_map] at hkm ⊢
      rcases hkm with (⟨a, ha, rfl⟩ | ⟨a, ha, rfl⟩) | ⟨a, ha, rfl⟩
      · exact Or.inl (Or.inl ha)
      · exact Or.inl (Or.inr ha)
      · exact Or.inr ha)
  unfold Layout
  simp only [hgui, hv, hp, h0, hw]
  by_cases hinv : invalid "statusbar" 0 0 (maxX - 1) 2 = true
  · simp [hinv]
  · simp only [hinv, if_false, Bool.false_eq_true]
    split
    · exact absurd (by assumption) hdraw
    · simp
    · simp

/-! ## Passes over two sources that hold a record of the same name -/

/-- The code run on the input on which C8 fails at the level of the pass.  Two
reachable sources `redmon` and `backup`, processed in that order, each hold the
one record `x` (decodable, numeric), and the registry is empty.  The step for
`redmon` converges: afterwards the sensors bound to `redmon` are exactly `x`.
The step for `backup` then finds no `x` among the sensors of `backup`, starts
another sensor and writes it over the entry: when the pass returns, no
registered sensor is bound to `redmon`, while the record names of `redmon` are
`x`; the pass has started two sensors and sent no kill. -/
theorem pass_drops_sensor_of_first_source :
    twoSourceManager.config = [redmonSource, backupSource] ∧
    twoSourceManager.sensors = [] ∧
    sameNameStore redmonSource = some [.config (recordNamed "x")] ∧
    sameNameStore backupSource = some [.config (recordNamed "x")] ∧
    (sourceSensors
      (reconcileSource RangeOrder.listed sameNameStore twoSourceManager redmonSource).sensors
      "redmon").map Prod.fst = ["x"] ∧
    (UpdateAutomaticSensors RangeOrder.listed sameNameStore twoSourceManager).map
        (fun r => ((sourceSensors r.sensors "redmon").map Prod.fst, r.sensors, r.log)) =
      some ([], [("x", newSensor .numeric "x" "backup" (recordNamed "x") 3)],
        [Event.start "x" 0 1 2, Event.start "x" 3 4 5, Event.view 5 "main"]) := by
  decide

/-- The code run on the input on which C10 fails at the level of the pass.  The
registry is well formed and holds one running sensor `x` bound to `backup`, with
kill channels 0 and 1; the sources `redmon` and `backup` are processed in that
order and both are reachable; `backup` holds no record and `redmon` holds the
record `x`.  The step for `redmon` starts a sensor and writes it over the entry
of the running one; the step for `backup` then finds no sensor of `backup` in
the registry.  When the pass returns, nothing was sent on the channels 0 and 1,
and the name `x` is still registered, for the new sensor: the running sensor of
`backup`, which has no record, left the registry without a kill signal. -/
theorem displaced_sensor_gets_no_kill :
    RegistryWF backupXManager ∧
    backupXManager.config = [redmonSource, backupSource] ∧
    backupXManager.sensors.get "x" =
      some (newSensor .numeric "x" "backup" (recordNamed "x") 0) ∧
    (newSensor .numeric "x" "backup" (recordNamed "x") 0).collkillchan = 0 ∧
    (newSensor .numeric "x" "backup" (recordNamed "x") 0).viewkillchan = 1 ∧
    redmonOnlyStore backupSource = some [] ∧
    redmonOnlyStore redmonSource = some [.config (recordNamed "x")] ∧
    (UpdateAutomaticSensors RangeOrder.listed redmonOnlyStore backupXManager).map
        (fun r => (r.log.count (Event.kill 0), r.log.count (Event.kill 1), r.log,
          r.sensors.get "x")) =
      some (0, 0, [Event.start "x" 3 4 5, Event.view 5 "main"],
        some (newSensor .numeric "x" "redmon" (recordNamed "x") 3)) := by
  refine ⟨by unfold RegistryWF; decide, by decide, by decide, by decide, by decide, by decide,
    by decide, by decide⟩

/-- The code run on the input on which C12 fails at the level of the pass.  The
sensor `x` runs bound to `backup`, with key `host1:x`, refresh 1, value `42`, in
alert, kill channels 0 and 1, and the enumerated records of `backup` hold its
name; the source `redmon`, processed after `backup`, holds a record `x` too, with
key `other` and refresh 30.  The step for `backup` leaves the sensor as it is.
The step for `redmon` finds no `x` among the sensors of `redmon`, starts a sensor
from its own record and writes it over the entry: when the pass returns, the
registry maps `x` to a sensor bound to `redmon` with key `other`, refresh 30, an
empty value, not in alert, and kill channels 3 and 4. -/
theorem running_sensor_replaced_by_other_source :
    backupFirstManager.config = [backupSource, redmonSource] ∧
    backupFirstManager.sensors.get "x" =
      some { newSensor .numeric "x" "backup" (recordNamed "x") 0 with
             value := "42", inAlert := true } ∧
    otherKeyStore backupSource = some [.config (recordNamed "x")] ∧
    otherKeyStore redmonSource =
      some [.config { recordNamed "x" with Key := "other", Refresh := 30 }] ∧
    (reconcileSource RangeOrder.listed otherKeyStore backupFirstManager
        backupSource).sensors.get "x" =
      some { newSensor .numeric "x" "backup" (recordNamed "x") 0 with
             value := "42", inAlert := true } ∧
    (UpdateAutomaticSensors RangeOrder.listed otherKeyStore backupFirstManager).map
        (fun r => (r.sensors.get "x", r.log)) =
      some (some (newSensor .numeric "x" "redmon"
          { recordNamed "x" with Key := "other", Refresh := 30 } 3),
        [Event.start "x" 3 4 5, Event.view 5 "main"]) ∧
    (newSensor .numeric "x" "redmon"
        { recordNamed "x" with Key := "other", Refresh := 30 } 3).key = "other" ∧
    (newSensor .numeric "x" "redmon"
        { recordNamed "x" with Key := "other", Refresh := 30 } 3).value = "" ∧
    (newSensor .numeric "x" "redmon"
        { recordNamed "x" with Key := "other", Refresh := 30 } 3).collkillchan = 3 := by
  decide

end Redmon
